import Mathlib

/-!
# Directory application (`apps/app_directory.c`)

A shallow embedding of the name encoder, the matcher, the presenters and the
session loop of the Asterisk `Directory` application, followed by theorems
about them.

Conventions of the embedding.

* A C `char` is an `Int` (the value of the character after integer promotion).
  A C string is the list of the characters that precede its terminating NUL;
  reading past the end of a list yields the NUL character `0`.
* Heap allocation (`ast_malloc`, `ast_strdup`) is assumed to succeed.
* `ast_log` has no effect that the application observes and is left out; the
  code under `#ifdef ODBC_STORAGE` is not compiled in.
* Every call into the Asterisk core that returns a value takes its result from
  a stream of replies carried by the `World`; the calls made are recorded in a
  trace.
-/

namespace Directory

/-- A C string: the characters before the terminating NUL. -/
abbrev CStr := List Int

/-- The characters of a string literal. -/
def lit (s : String) : CStr := s.toList.map (fun c => (c.toNat : Int))

/-- The macro NUMDIGITS: how many digits to read in. -/
def NUMDIGITS : Nat := 3

/-- The C library `toupper` in the "C" locale. -/
def toupper (c : Int) : Int := if 97 ≤ c ∧ c ≤ 122 then c - 32 else c

/-- The C library `tolower` in the "C" locale. -/
def tolower (c : Int) : Int := if 65 ≤ c ∧ c ≤ 90 then c + 32 else c

/-- The `switch` of `convert`, applied to `toupper(*lastname)`: the character
stored into `tmp`, or `none` when no `case` label is taken. -/
def convert_switch (u : Int) : Option Int :=
  if u = 49 then some 49
  else if u = 50 ∨ u = 65 ∨ u = 66 ∨ u = 67 then some 50
  else if u = 51 ∨ u = 68 ∨ u = 69 ∨ u = 70 then some 51
  else if u = 52 ∨ u = 71 ∨ u = 72 ∨ u = 73 then some 52
  else if u = 53 ∨ u = 74 ∨ u = 75 ∨ u = 76 then some 53
  else if u = 54 ∨ u = 77 ∨ u = 78 ∨ u = 79 then some 54
  else if u = 55 ∨ u = 80 ∨ u = 81 ∨ u = 82 ∨ u = 83 then some 55
  else if u = 56 ∨ u = 84 ∨ u = 85 ∨ u = 86 then some 56
  else if u = 57 ∨ u = 87 ∨ u = 88 ∨ u = 89 ∨ u = 90 then some 57
  else none

/-- The `while` loop of `convert`: `tmp` holds the `lcount = tmp.length`
characters written so far. -/
def convert_loop : CStr → CStr → CStr
  | [], tmp => tmp
  | c :: rest, tmp =>
    if 32 < c ∧ tmp.length < NUMDIGITS then
      match convert_switch (toupper c) with
      | some d => convert_loop rest (tmp ++ [d])
      | none => convert_loop rest tmp
    else tmp

/-- The function `convert`: the keypad code of a name. -/
def convert (lastname : CStr) : CStr := convert_loop lastname []

/-- The keypad table as the specification words it: the digit character of a
letter, either case (`A,B,C -> 2`, ..., `W,X,Y,Z -> 9`). -/
def keypadDigit (c : Int) : Int :=
  let groups : List (String × Int) :=
    [("ABC", 50), ("DEF", 51), ("GHI", 52), ("JKL", 53),
     ("MNO", 54), ("PQRS", 55), ("TUV", 56), ("WXYZ", 57)]
  match groups.find? (fun g => (lit g.1).contains c || (lit g.1).contains (c - 32)) with
  | some g => g.2
  | none => 0

/-- An ASCII letter, either case. -/
def isAsciiLetter (c : Int) : Prop := (65 ≤ c ∧ c ≤ 90) ∨ (97 ≤ c ∧ c ≤ 122)

instance (c : Int) : Decidable (isAsciiLetter c) := by
  unfold isAsciiLetter; infer_instance

/-- A character that `convert` steps over without writing a digit although it
does not end the scan, as the specification words it: above space, not a
letter, and not the digit `1`. -/
def skippedBySpec (c : Int) : Prop := 32 < c ∧ ¬ isAsciiLetter c ∧ c ≠ 49

instance (c : Int) : Decidable (skippedBySpec c) := by
  unfold skippedBySpec; infer_instance

/-- A character above space that is neither a letter nor one of the digits
`1`..`9`. -/
def skippedByCode (c : Int) : Prop := 32 < c ∧ ¬ isAsciiLetter c ∧ ¬ (49 ≤ c ∧ c ≤ 57)

instance (c : Int) : Decidable (skippedByCode c) := by
  unfold skippedByCode; infer_instance

/-! ### C library string functions -/

/-- The characters of a buffer up to its first NUL. -/
def cstr (buf : List Int) : CStr := buf.takeWhile (fun c => c ≠ 0)

/-- The C library `strlen`. -/
def strlen (s : CStr) : Nat := (cstr s).length

/-- Asterisk's `ast_strlen_zero`, on a non-NULL string. -/
def ast_strlen_zero (s : CStr) : Bool := s.headD 0 == 0

/-- Asterisk's macro `S_OR(a, b)`. -/
def S_OR (a b : CStr) : CStr := if ast_strlen_zero a then b else a

/-- Asterisk's `ast_copy_string(dst, src, size)`: the new content of `dst`. -/
def ast_copy_string (src : CStr) (size : Nat) : CStr := (cstr src).take (size - 1)

/-- The result left in the buffer by `snprintf(buf, size, ...)`, given the
fully formatted text. -/
def snprintf (size : Nat) (text : CStr) : CStr := text.take (size - 1)

/-- The C library `strcmp`; only whether the result is zero is used. -/
def strcmp : CStr → CStr → Int
  | [], b => 0 - b.headD 0
  | x :: a, b =>
    if x ≠ b.headD 0 then x - b.headD 0
    else if x = 0 then 0
    else strcmp a b.tail

/-- The C library `strncmp`; only whether the result is zero is used. -/
def strncmp : CStr → CStr → Nat → Int
  | _, _, 0 => 0
  | a, b, n + 1 =>
    if a.headD 0 ≠ b.headD 0 then a.headD 0 - b.headD 0
    else if a.headD 0 = 0 then 0
    else strncmp a.tail b.tail n

/-- The C library `strcasecmp` in the "C" locale. -/
def strcasecmp : CStr → CStr → Int
  | [], b => 0 - tolower (b.headD 0)
  | x :: a, b =>
    if tolower x ≠ tolower (b.headD 0) then tolower x - tolower (b.headD 0)
    else if x = 0 then 0
    else strcasecmp a b.tail

/-- Whether `hay` starts with `needle`, ignoring case. -/
def startsWithNoCase : CStr → CStr → Bool
  | [], _ => true
  | _ :: _, [] => false
  | n :: needle, h :: hay => tolower n == tolower h && startsWithNoCase needle hay

/-- The GNU `strcasestr`: the suffix of `hay` that starts at the first
occurrence of `needle`, ignoring case, or `none` (NULL). -/
def strcasestr : CStr → CStr → Option CStr
  | [], needle => if needle = [] then some [] else none
  | h :: hay, needle =>
    if startsWithNoCase needle (h :: hay) then some (h :: hay) else strcasestr hay needle

/-- The C library `strrchr` for a character other than NUL: the suffix of `s`
that starts at the last occurrence of `c`, or `none` (NULL). -/
def strrchr : CStr → Int → Option CStr
  | [], _ => none
  | x :: s, c =>
    match strrchr s c with
    | some r => some r
    | none => if x = c then some (x :: s) else none

/-- The C library `strsep(&stringp, delim)` for a one-character delimiter
set: the token returned and the new value of `stringp`. -/
def strsep (stringp : Option CStr) (delim : Int) : Option CStr × Option CStr :=
  match stringp with
  | none => (none, none)
  | some s =>
    (some (s.takeWhile (fun c => c ≠ delim)),
     if delim ∈ s then some ((s.dropWhile (fun c => c ≠ delim)).tail) else none)

/-! ### Configuration data -/

/-- A `struct ast_variable`: one `name = value` line of a category. -/
structure ast_variable where
  name : CStr
  value : CStr
deriving DecidableEq, Repr

/-- A `struct ast_category`: a named section and its variables, in order. -/
structure ast_category where
  name : CStr
  root : List ast_variable
deriving DecidableEq, Repr

/-- A `struct ast_config`: the categories of a loaded file, in order. -/
abbrev ast_config := List ast_category

/-- Whether the category `cat` has the name `category`, names compared
without regard to case. -/
def category_named (category : CStr) (cat : ast_category) : Bool :=
  strcasecmp cat.name category == 0

/-- Modelled from the spec: `ast_category_get` of the configuration library
(not part of this file), the first category of that name, names compared
without regard to case. -/
def ast_category_get (cfg : ast_config) (category : CStr) : Option ast_category :=
  cfg.find? (category_named category)

/-- Modelled from the spec: `ast_variable_browse` of the configuration
library, the ordered variables of the named category (none when the category
does not exist). -/
def ast_variable_browse (cfg : ast_config) (category : CStr) : List ast_variable :=
  match ast_category_get cfg category with
  | some cat => cat.root
  | none => []

/-- Modelled from the spec: `ast_variable_retrieve` of the configuration
library, the value of the first variable of that name in the category, or
`none` (NULL). -/
def ast_variable_retrieve (cfg : ast_config) (category var : CStr) : Option CStr :=
  ((ast_variable_browse cfg category).find? (fun v => strcasecmp var v.name == 0)).map
    (fun v => v.value)

/-- One category of `users.conf` as `do_directory` sees it: its name, the
value of `ast_true(ast_config_option(ucfg, cat, "hasdirectory"))` and the
result of `ast_variable_retrieve(ucfg, cat, "fullname")`. -/
structure user_category where
  name : CStr
  hasdirectory : Bool
  fullname : Option CStr
deriving DecidableEq, Repr

/-- The option flags of the application (`directory_option_flags`);
`ast_test_flag(flags, OPT_X)` is the corresponding field. -/
structure ast_flags where
  OPT_LISTBYFIRSTNAME : Bool
  OPT_SAYEXTENSION : Bool
  OPT_FROMVOICEMAIL : Bool
  OPT_SELECTFROMMENU : Bool
deriving DecidableEq, Repr

/-- Declarations of the Asterisk headers that this file uses but does not
define. -/
structure Env where
  /-- The macro `AST_MAX_EXTENSION`. -/
  AST_MAX_EXTENSION : Nat
  /-- The value of `sizeof(chan->exten)`. -/
  sizeof_exten : Nat
  /-- The global `ast_config_AST_SPOOL_DIR`. -/
  ast_config_AST_SPOOL_DIR : CStr
deriving DecidableEq, Repr

/-- A `struct items`: one slot of a menu page. -/
structure items where
  exten : CStr
  name : CStr
deriving DecidableEq, Repr

/-! ### The world outside the application -/

/-- A call that is recorded in the trace: the calls into the Asterisk core,
and the entries into `get_mailbox_response` and `select_item` with their
arguments. -/
inductive Call where
  | ast_answer
  | ast_fileexists (fn : CStr)
  | ast_stream_and_wait (file : CStr)
  | ast_streamfile (file : CStr)
  | ast_waitstream
  | ast_stopstream
  | ast_say_character_str (str : CStr)
  | ast_waitfordigit (ms : Nat)
  | ast_readstring (len : Nat) (timeout : Nat) (ftimeout : Nat) (enders : CStr)
  | ast_goto_if_exists (context : CStr) (exten : CStr) (priority : Nat)
  | get_mailbox_response (ext : CStr) (name : CStr)
  | select_item (page : List items) (itemcount : Nat)
deriving DecidableEq, Repr

/-- Undefined behaviour of the C program. -/
inductive Fault where
  | null_dereference
  | out_of_bounds
  | double_free
deriving DecidableEq, Repr

/-- The channel and its environment. `replies` are the values that the
coming calls into the Asterisk core return, in call order (a call made after
the stream is used up returns 0); `strings` are the digit strings that the
coming calls of `ast_readstring` deliver. -/
structure World where
  replies : List Int
  strings : List CStr
  trace : List Call
  /-- The field `chan->exten`. -/
  exten : CStr
  /-- The field `chan->macrocontext`. -/
  macrocontext : CStr
  /-- Whether `chan->_state == AST_STATE_UP`. -/
  state_up : Bool
deriving DecidableEq, Repr

/-- The result of running a piece of the program: a value and the world
after it, or undefined behaviour and the world in which it arose. -/
inductive Outcome (α : Type) where
  | ok (value : α) (world : World)
  | fault (f : Fault) (world : World)
deriving DecidableEq, Repr

/-- A piece of the program: a function of the world before it. -/
def M (α : Type) : Type := World → Outcome α

/-- Sequencing of two pieces of the program. -/
def M.bind {α β : Type} (m : M α) (f : α → M β) : M β := fun w =>
  match m w with
  | Outcome.ok a w1 => f a w1
  | Outcome.fault e w1 => Outcome.fault e w1

/-- The piece of the program that only yields a value. -/
def M.pure {α : Type} (a : α) : M α := fun w => Outcome.ok a w

instance : Monad M where
  pure := M.pure
  bind := M.bind

/-- Undefined behaviour. -/
def fault {α : Type} (f : Fault) : M α := fun w => Outcome.fault f w

/-- A call into the Asterisk core that returns an `int`. -/
def call (c : Call) : M Int := fun w =>
  Outcome.ok (w.replies.headD 0) { w with replies := w.replies.tail, trace := w.trace ++ [c] }

/-- A call whose result is not used, or the entry into a traced function. -/
def note (c : Call) : M Unit := fun w =>
  Outcome.ok () { w with trace := w.trace ++ [c] }

/-- The call `ast_readstring(chan, s, len, timeout, ftimeout, enders)`: its
return value and the characters it leaves in `s`. -/
def ast_readstring (len timeout ftimeout : Nat) (enders : CStr) : M (Int × CStr) := fun w =>
  Outcome.ok (w.replies.headD 0, cstr ((w.strings.headD []).take len))
    { w with replies := w.replies.tail, strings := w.strings.tail,
             trace := w.trace ++ [Call.ast_readstring len timeout ftimeout enders] }

/-- The assignment `ast_copy_string(chan->exten, ext, sizeof(chan->exten))`. -/
def set_exten (env : Env) (ext : CStr) : M Unit := fun w =>
  Outcome.ok () { w with exten := ast_copy_string ext env.sizeof_exten }

/-- The value of `chan->macrocontext`. -/
def get_macrocontext : M CStr := fun w => Outcome.ok w.macrocontext w

/-- The value of `chan->_state == AST_STATE_UP`. -/
def get_state_up : M Bool := fun w => Outcome.ok w.state_up w

/-- The C operator `a || b` on two `int` expressions with effects. -/
def lor (a b : M Int) : M Int := do
  let x ← a
  if x ≠ 0 then pure 1
  else do
    let y ← b
    pure (if y ≠ 0 then 1 else 0)

/-- The C operator `a && b` where `a` has no effect. -/
def land (a : Bool) (b : M Int) : M Int :=
  if a then do
    let y ← b
    pure (if y ≠ 0 then 1 else 0)
  else pure 0

/-- The value of `items[i]`; reading a slot that was never written, or one
past the `struct items [8]` array, is undefined. -/
def items_at (arr : List items) (i : Int) : M items :=
  if i < 0 ∨ 8 ≤ i then fault Fault.out_of_bounds
  else match arr.get? i.toNat with
    | some it => pure it
    | none => fault Fault.out_of_bounds

/-! ### The presenters -/

/-- The function `play_mailbox_owner`. -/
def play_mailbox_owner (env : Env) (context ext name : CStr) (flags : ast_flags) : M Int := do
  let fn := snprintf 256
    (env.ast_config_AST_SPOOL_DIR ++ lit "/voicemail/" ++ context ++ lit "/" ++ ext ++ lit "/greet")
  let e1 ← call (Call.ast_fileexists fn)
  let fn := if e1 ≤ 0 then
      snprintf 256 (env.ast_config_AST_SPOOL_DIR ++ lit "/vm/" ++ ext ++ lit "/greet")
    else fn
  let e2 ← call (Call.ast_fileexists fn)
  if e2 > 0 then do
    let res ← call (Call.ast_stream_and_wait fn)
    note Call.ast_stopstream
    if flags.OPT_SAYEXTENSION then do
      let _ ← call (Call.ast_stream_and_wait (lit "vm-extension"))
      call (Call.ast_say_character_str ext)
    else pure res
  else do
    let res ← call (Call.ast_say_character_str (S_OR name ext))
    if !ast_strlen_zero name && flags.OPT_SAYEXTENSION then do
      let _ ← call (Call.ast_stream_and_wait (lit "vm-extension"))
      call (Call.ast_say_character_str ext)
    else pure res

/-- One attempt of `get_mailbox_response`: the head of the body of its `for`
loop, up to and including `ast_stopstream`; yields the value of `res`. -/
def get_mailbox_response_attempt (res : Int) : M Int := do
  let res ← (if res = 0 then call (Call.ast_stream_and_wait (lit "dir-instr")) else pure res)
  let res ← (if res = 0 then call (Call.ast_waitfordigit 3000) else pure res)
  note Call.ast_stopstream
  pure res

/-- The `for (loop = 3; loop > 0; loop--)` loop of `get_mailbox_response`. -/
def get_mailbox_response_loop (env : Env) (dialcontext ext : CStr) (flags : ast_flags) :
    Nat → Int → M Int
  | 0, res => pure res
  | loop + 1, res => do
    let res ← get_mailbox_response_attempt res
    if res < 0 then pure res
    else if res = 49 then
      if flags.OPT_FROMVOICEMAIL then do
        set_exten env ext
        pure res
      else do
        let g ← call (Call.ast_goto_if_exists dialcontext ext 1)
        if g ≠ 0 then pure (-1) else pure res
    else if res = 42 then pure res
    else get_mailbox_response_loop env dialcontext ext flags loop 0

/-- The function `get_mailbox_response`. -/
def get_mailbox_response (env : Env) (context dialcontext ext name : CStr)
    (flags : ast_flags) : M Int := do
  note (Call.get_mailbox_response ext name)
  let res ← play_mailbox_owner env context ext name flags
  get_mailbox_response_loop env dialcontext ext flags 3 res

/-- The nine chained calls that announce page slot `i` in `select_item`,
joined by `||`. -/
def select_item_announce (env : Env) (arr : List items) (context : CStr) (flags : ast_flags)
    (i : Nat) : M Int :=
  let buf := snprintf 9 (lit "digits/" ++ lit (toString (i + 1)))
  lor (lor (lor (lor (lor (lor (lor (lor
    (call (Call.ast_streamfile (lit "dir-multi1")))
    (call Call.ast_waitstream))
    (call (Call.ast_streamfile buf)))
    (call Call.ast_waitstream))
    (call (Call.ast_streamfile (lit "dir-multi2"))))
    (call Call.ast_waitstream))
    (do let it ← items_at arr i
        play_mailbox_owner env context it.exten it.name flags))
    (call Call.ast_waitstream))
    (call (Call.ast_waitfordigit 800))

/-- The `for (i = 0; i < itemcount; i++)` loop of `select_item`; the first
argument counts the slots still to announce. Yields the value of `res`. -/
def select_item_loop (env : Env) (arr : List items) (context : CStr) (flags : ast_flags) :
    Nat → Nat → M Int
  | 0, _ => pure 0
  | n + 1, i => do
    let res ← select_item_announce env arr context flags i
    if res ≠ 0 then pure res
    else select_item_loop env arr context flags n (i + 1)

/-- The chained calls of `select_item` that follow the announcements
("Press 9 for more names"). -/
def select_item_more (itemcount : Nat) : M Int :=
  lor (lor (lor
    (call Call.ast_waitstream)
    (land (itemcount == 8) (call (Call.ast_streamfile (lit "dir-multi9")))))
    (call Call.ast_waitstream))
    (call (Call.ast_waitfordigit 3000))

/-- The function `select_item`; `arr` is the content of the array that
`items` points to. -/
def select_item (env : Env) (arr : List items) (itemcount : Nat)
    (context dialcontext : CStr) (flags : ast_flags) : M Int := do
  note (Call.select_item (arr.take itemcount) itemcount)
  let res ← select_item_loop env arr context flags itemcount 0
  let res ← (if res = 0 then select_item_more itemcount else pure res)
  if res ≠ 0 ∧ res > 48 ∧ res < 57 then
    if flags.OPT_FROMVOICEMAIL then do
      let it ← items_at arr (res - 48)
      set_exten env it.exten
      pure res
    else do
      let it ← items_at arr (res - 49)
      let g ← call (Call.ast_goto_if_exists dialcontext it.exten 1)
      if g ≠ 0 then do
        let _ ← items_at arr (res - 48)
        pure (-1)
      else pure res
  else pure res

/-! ### The matcher and the passes of `do_directory` -/

/-- The test `strcasestr(value, "hidefromdir=yes") != NULL`. -/
def hidefromdir (value : CStr) : Bool := (strcasestr value (lit "hidefromdir=yes")).isSome

/-- The second comma-separated field of `value`, as the two calls of
`strsep` leave it in `pos`; `none` is NULL. -/
def name_field (value : CStr) : Option CStr := (strsep (strsep (some value) 44).2 44).1

/-- The value of `strrchr(pos, ' ') + 1` when `strrchr(pos, ' ')` is not
NULL, and `pos` otherwise. -/
def after_last_space (pos : CStr) : CStr :=
  match strrchr pos 32 with
  | some r => r.tail
  | none => pos

/-- The name key of the menu loop over the primary listing (lines 535-536). -/
def menu_key (flags : ast_flags) (pos : CStr) : CStr :=
  if flags.OPT_LISTBYFIRSTNAME && (strrchr pos 32).isSome then after_last_space pos else pos

/-- The name key of the sequential loop over the primary listing (lines
587-588). -/
def sequential_key (flags : ast_flags) (pos : CStr) : CStr :=
  if !flags.OPT_LISTBYFIRSTNAME && (strrchr pos 32).isSome then after_last_space pos else pos

/-- The name key of the menu loop over `users.conf` (lines 653-654). -/
def users_menu_key (flags : ast_flags) (pos : CStr) : CStr :=
  if !flags.OPT_LISTBYFIRSTNAME && (strrchr pos 32).isSome then after_last_space pos else pos

/-- The name key of the sequential loop over `users.conf` (lines 700-701). -/
def users_sequential_key (flags : ast_flags) (pos : CStr) : CStr :=
  if flags.OPT_LISTBYFIRSTNAME && (strrchr pos 32).isSome then after_last_space pos else pos

/-- The test `conv && strcmp(conv, ext) == 0` of the menu loop, for the name
field `pos`. -/
def menu_match (flags : ast_flags) (ext pos : CStr) : Bool :=
  strcmp (convert (menu_key flags pos)) ext == 0

/-- The test `!strncmp(conv, ext, strlen(ext))` of the sequential loop, for
the name field `pos`. -/
def sequential_match (flags : ast_flags) (ext pos : CStr) : Bool :=
  strncmp (convert (sequential_key flags pos)) ext (strlen ext) == 0

/-- The copy of the entry's value that the menu loop parses:
`ast_copy_string(buf, v->value, sizeof(buf))`. -/
def menu_buf (env : Env) (v : ast_variable) : CStr :=
  ast_copy_string v.value (env.AST_MAX_EXTENSION + 1)

/-- Whether the menu loop stores the primary entry `v` in the page: the
entry passes the hidden test and its code equals `ext`. -/
def menu_candidate (env : Env) (flags : ast_flags) (ext : CStr) (v : ast_variable) : Bool :=
  !hidefromdir v.value &&
    match name_field (menu_buf env v) with
    | some pos => menu_match flags ext pos
    | none => false

/-- Whether the sequential loop leaves its inner loop at the primary entry
`v` ("Match!"): the entry passes the hidden test, has a name field, and its
code starts with `ext`. -/
def sequential_candidate (flags : ast_flags) (ext : CStr) (v : ast_variable) : Bool :=
  !hidefromdir v.value &&
    match name_field v.value with
    | some pos => sequential_match flags ext pos
    | none => false

/-- The local variables of `do_directory` that its passes share;
`conv_freed` says that `conv` holds a pointer already given to `ast_free`. -/
structure locals where
  res : Int
  found : Int
  lastuserchoice : Int
  conv_freed : Bool
deriving DecidableEq, Repr

/-- The array `menuitems` (the slots written so far) and `menucount`. -/
structure menu where
  menuitems : List items
  menucount : Nat
deriving DecidableEq, Repr

/-- The two `ast_copy_string` calls that fill `menuitems[menucount]`,
followed by `menucount++`. -/
def menu_store (env : Env) (m : menu) (fullname exten : CStr) : M menu :=
  if 8 ≤ m.menucount then fault Fault.out_of_bounds
  else
    let it : items :=
      { exten := ast_copy_string exten (env.AST_MAX_EXTENSION + 1),
        name := ast_copy_string fullname (env.AST_MAX_EXTENSION + 1) }
    pure { menuitems :=
             if m.menucount < m.menuitems.length then m.menuitems.set m.menucount it
             else m.menuitems ++ [it],
           menucount := m.menucount + 1 }

/-- The `for` loop of the menu mode over the primary listing (lines
526-558). -/
def primary_menu_loop (env : Env) (context dialcontext : CStr) (flags : ast_flags)
    (ext : CStr) : List ast_variable → locals → menu → M (locals × menu)
  | [], st, m => pure (st, m)
  | v :: rest, st, m =>
    if !hidefromdir v.value then
      match name_field (menu_buf env v) with
      | none => fault Fault.null_dereference
      | some fullname => do
        let (st, m) ←
          (if menu_match flags ext fullname then do
            let m ← menu_store env m fullname v.name
            pure ({ st with found := 1 }, m)
          else pure (st, m))
        if m.menucount = 8 then do
          let res ← select_item env m.menuitems m.menucount context dialcontext flags
          let st := { st with res := res }
          let m := { m with menucount := 0 }
          if res ≠ 57 ∧ res ≠ 0 then
            pure ({ st with lastuserchoice := if res ≠ -1 then res else st.lastuserchoice }, m)
          else primary_menu_loop env context dialcontext flags ext rest st m
        else primary_menu_loop env context dialcontext flags ext rest st m
    else primary_menu_loop env context dialcontext flags ext rest st m

/-- What follows a menu loop: the partial page, and the mapping of
`lastuserchoice` to the old expected result (lines 560-571 and 676-687). -/
def menu_finish (env : Env) (context dialcontext : CStr) (flags : ast_flags)
    (st : locals) (m : menu) : M locals := do
  let st ←
    (if m.menucount > 0 then do
      let res ← select_item env m.menuitems m.menucount context dialcontext flags
      pure { st with res := res,
                     lastuserchoice :=
                       if res ≠ 57 ∧ res ≠ -1 then res else st.lastuserchoice }
    else pure st)
  pure { st with lastuserchoice :=
                   if st.lastuserchoice > 49 ∧ st.lastuserchoice < 57 then 49
                   else st.lastuserchoice }

/-- The `switch (res)` that follows `get_mailbox_response` in the sequential
loop over the primary listing (lines 609-630). -/
def sequential_switch (st : locals) (res : Int) : locals :=
  if res = -1 then { st with res := res, lastuserchoice := 0 }
  else if res = 49 then { st with res := res, lastuserchoice := res }
  else if res = 42 then { st with res := 0, lastuserchoice := res }
  else { st with res := res }

/-- The nested `while` loops of the sequential mode over the primary listing
(lines 574-633), as one recursion over the entries: an entry that does not
match is passed over by the inner loop; at a match the inner loop is left,
the entry is presented, and the outer loop goes on with the next entry as
long as `res` is 0. -/
def primary_sequential_loop (env : Env) (context dialcontext : CStr) (flags : ast_flags)
    (ext : CStr) : List ast_variable → locals → M locals
  | [], st => pure st
  | v :: rest, st =>
    if !hidefromdir v.value then
      match name_field v.value with
      | some pos =>
        let name := ast_copy_string pos 80
        if sequential_match flags ext pos then do
          let st := { st with found := st.found + 1, conv_freed := true }
          let res ← get_mailbox_response env context dialcontext v.name name flags
          let st := sequential_switch st res
          if st.res ≠ 0 then pure st
          else primary_sequential_loop env context dialcontext flags ext rest st
        else
          primary_sequential_loop env context dialcontext flags ext rest
            { st with conv_freed := true }
      | none => primary_sequential_loop env context dialcontext flags ext rest st
    else primary_sequential_loop env context dialcontext flags ext rest st

/-- The `for` loop of the menu mode over `users.conf` (lines 642-675). At a
match the loop copies from `fullname`, which is NULL, and reads `v->name`
with `v` NULL. -/
def users_menu_loop (flags : ast_flags) (ext : CStr) :
    List user_category → locals → menu → M (locals × menu)
  | [], st, m => pure (st, m)
  | cat :: rest, st, m =>
    if st.res ≠ 0 then pure (st, m)
    else if strcasecmp cat.name (lit "general") == 0 then users_menu_loop flags ext rest st m
    else if !cat.hasdirectory then users_menu_loop flags ext rest st m
    else
      match cat.fullname with
      | some pos =>
        if strcmp (convert (users_menu_key flags pos)) ext == 0 then
          fault Fault.null_dereference
        else users_menu_loop flags ext rest st m
      | none => users_menu_loop flags ext rest st m

/-- The `for` loop of the sequential mode over `users.conf` (lines
689-740). -/
def users_sequential_loop (env : Env) (context dialcontext : CStr) (flags : ast_flags)
    (ext : CStr) : List user_category → locals → M locals
  | [], st => pure st
  | cat :: rest, st =>
    if st.res ≠ 0 then pure st
    else if strcasecmp cat.name (lit "general") == 0 then
      users_sequential_loop env context dialcontext flags ext rest st
    else if !cat.hasdirectory then
      users_sequential_loop env context dialcontext flags ext rest st
    else
      match cat.fullname with
      | some pos => do
        let name := ast_copy_string pos 80
        let st ←
          (if strcmp (convert (users_sequential_key flags pos)) ext == 0 then do
            let res ← get_mailbox_response env context dialcontext cat.name name flags
            pure { st with found := st.found + 1, res := res }
          else pure st)
        let st := { st with conv_freed := true }
        if st.res = -1 then pure { st with lastuserchoice := 0 }
        else if st.res = 49 then pure { st with lastuserchoice := st.res }
        else if st.res = 42 then
          users_sequential_loop env context dialcontext flags ext rest
            { st with lastuserchoice := st.res, res := 0 }
        else pure st
      | none =>
        if st.conv_freed then fault Fault.double_free
        else users_sequential_loop env context dialcontext flags ext rest st

/-- The escape test of `do_directory` for the extension `exten` (`"o"` or
`"a"`): `!ast_goto_if_exists(chan, dialcontext, exten, 1) ||
(!ast_strlen_zero(chan->macrocontext) &&
!ast_goto_if_exists(chan, chan->macrocontext, exten, 1))`. -/
def escape_digit (dialcontext exten : CStr) : M Bool := do
  let g ← call (Call.ast_goto_if_exists dialcontext exten 1)
  if g = 0 then pure true
  else do
    let mc ← get_macrocontext
    if !ast_strlen_zero mc then do
      let g2 ← call (Call.ast_goto_if_exists mc exten 1)
      pure (g2 == 0)
    else pure false

/-- The pass of `do_directory` over the primary listing (lines 522-634), in
menu mode or in sequential mode. -/
def do_directory_primary (env : Env) (vmcfg : ast_config) (context dialcontext : CStr)
    (flags : ast_flags) (ext : CStr) : M locals :=
  let st0 : locals := { res := 0, found := 0, lastuserchoice := 0, conv_freed := false }
  if flags.OPT_SELECTFROMMENU then do
    let (st, m) ← primary_menu_loop env context dialcontext flags ext
      (ast_variable_browse vmcfg context) st0 { menuitems := [], menucount := 0 }
    menu_finish env context dialcontext flags st m
  else
    primary_sequential_loop env context dialcontext flags ext
      (ast_variable_browse vmcfg context) st0

/-- The pass of `do_directory` over `users.conf` (lines 636-742), made when
`res` is 0 and `ucfg` is not NULL. -/
def do_directory_users (env : Env) (ucfg : Option (List user_category))
    (context dialcontext : CStr) (flags : ast_flags) (ext : CStr) (st : locals) : M locals :=
  match ucfg with
  | some users =>
    if st.res = 0 then
      if flags.OPT_SELECTFROMMENU then do
        let (st, m) ← users_menu_loop flags ext users st { menuitems := [], menucount := 0 }
        menu_finish env context dialcontext flags st m
      else users_sequential_loop env context dialcontext flags ext users st
    else pure st
  | none => pure st

/-- The end of `do_directory` after its passes (lines 744-750): the closing
prompt and the value returned. -/
def do_directory_finish (st : locals) : M Int :=
  if st.lastuserchoice ≠ 49 then do
    let res ← call (Call.ast_streamfile
      (if st.found ≠ 0 then lit "dir-nomore" else lit "dir-nomatch"))
    pure (if res = 0 then 1 else res)
  else pure 0

/-- The search of `do_directory` for the digits `ext` (lines 521-750): the
pass over the primary listing, the pass over `users.conf`, and the closing
prompt. -/
def do_directory_search (env : Env) (vmcfg : ast_config) (ucfg : Option (List user_category))
    (context dialcontext : CStr) (flags : ast_flags) (ext : CStr) : M Int := do
  let st ← do_directory_primary env vmcfg context dialcontext flags ext
  let st ← do_directory_users env ucfg context dialcontext flags ext st
  do_directory_finish st

/-- The function `do_directory`; `digit` is the first digit, already read. -/
def do_directory (env : Env) (vmcfg : ast_config) (ucfg : Option (List user_category))
    (context dialcontext : CStr) (digit : Int) (flags : ast_flags) : M Int :=
  if ast_strlen_zero context then pure (-1)
  else do
    let escaped ←
      (if digit = 48 then escape_digit dialcontext (lit "o")
      else if digit = 42 then escape_digit dialcontext (lit "a")
      else pure false)
    if escaped then pure 0
    else do
      let (rd, digits) ← ast_readstring (NUMDIGITS - 1) 3000 3000 (lit "#")
      let ext := cstr (digit :: digits)
      if rd < 0 then pure (-1)
      else do_directory_search env vmcfg ucfg context dialcontext flags ext

/-! ### The directory assembly and the session -/

/-- The value of a variable of the category that `ast_category_browse` is
at: `ast_variable_retrieve(rtdata, mailbox, var)`. -/
def category_variable (cat : ast_category) (var : CStr) : Option CStr :=
  (cat.root.find? (fun v => strcasecmp var v.name == 0)).map (fun v => v.value)

/-- The variable that `realtime_directory` builds for one realtime mailbox
(lines 460-465). -/
def realtime_variable (mailbox : ast_category) : ast_variable :=
  { name := mailbox.name,
    value := snprintf 100
      (lit "no-password," ++ (category_variable mailbox (lit "fullname")).getD [] ++
       lit ",hidefromdir=" ++ (category_variable mailbox (lit "hidefromdir")).getD (lit "no")) }

/-- The call `ast_variable_append(cat, var)` on the category at index `i`. -/
def append_at : ast_config → Nat → ast_variable → ast_config
  | [], _, _ => []
  | cat :: rest, 0, v => { cat with root := cat.root ++ [v] } :: rest
  | cat :: rest, i + 1, v => cat :: append_at rest i v

/-- Modelled from the spec: `ast_category_new(context, "", 99999)` of the
configuration library, a category of that name without variables. -/
def ast_category_new (name : CStr) : ast_category := { name := name, root := [] }

/-- The function `realtime_directory`, given the results of
`ast_config_load(VOICEMAIL_CONFIG)` and of `ast_load_realtime_multientry`
(`none` is NULL). The category `cat` that receives the new variables is
the one at index `i`: the first of that name, or the new one appended to the
configuration. -/
def realtime_directory (loaded : Option ast_config) (rtdata : Option ast_config)
    (context : CStr) : Option ast_config :=
  match loaded with
  | none => none
  | some cfg =>
    match rtdata with
    | none => some cfg
    | some rt =>
      let i := cfg.findIdx (category_named context)
      let cfg := if i < cfg.length then cfg
        else cfg ++ [ast_category_new context]
      some (rt.foldl (fun c mailbox => append_at c i (realtime_variable mailbox)) cfg)

/-- What `directory_exec` receives: its argument string, the results of the
argument macros (`AST_STANDARD_APP_ARGS`, `ast_app_parse_options`) and of the
configuration loads, none of which this file defines. For `options`, `none`
is a NULL `args.options` and `some none` a failure of
`ast_app_parse_options`. -/
structure exec_input where
  data : CStr
  vmcontext : CStr
  dialcontext : CStr
  options : Option (Option ast_flags)
  voicemail_conf : Option ast_config
  realtime : Option ast_config
  users_conf : Option (List user_category)
deriving DecidableEq, Repr

/-- The conversion of the `int` argument `res` to the `char` parameter
`digit` of `do_directory`. -/
def to_char (res : Int) : Int := (res + 128) % 256 - 128

/-- The head of the body of the `for (;;)` loop of `directory_exec`, up to
the digit that is handed to `do_directory` (lines 802-806). -/
def directory_exec_digit (dirintro : CStr) (res : Int) : M Int := do
  let res ← (if res = 0 then call (Call.ast_stream_and_wait dirintro) else pure res)
  note Call.ast_stopstream
  if res = 0 then call (Call.ast_waitfordigit 5000) else pure res

/-- The `for (;;)` loop of `directory_exec`; the first argument bounds the
number of iterations, and `none` means that the bound was reached. -/
def directory_exec_loop (env : Env) (cfg : ast_config) (ucfg : Option (List user_category))
    (vmcontext dialcontext dirintro : CStr) (flags : ast_flags) : Nat → Int → M (Option Int)
  | 0, _ => pure none
  | fuel + 1, res => do
    let res ← directory_exec_digit dirintro res
    if res > 0 then do
      let res ← do_directory env cfg ucfg vmcontext dialcontext (to_char res) flags
      if res > 0 then do
        let res ← call Call.ast_waitstream
        note Call.ast_stopstream
        if res ≥ 0 then
          directory_exec_loop env cfg ucfg vmcontext dialcontext dirintro flags fuel res
        else pure (some res)
      else pure (some res)
    else pure (some res)

/-- The flags of a session: those that `ast_app_parse_options` delivered, or
none set when there is no options argument. -/
def exec_flags (inp : exec_input) : ast_flags :=
  (inp.options.getD none).getD
    { OPT_LISTBYFIRSTNAME := false, OPT_SAYEXTENSION := false,
      OPT_FROMVOICEMAIL := false, OPT_SELECTFROMMENU := false }

/-- The dial context of a session (lines 781-782). -/
def exec_dialcontext (inp : exec_input) : CStr :=
  if ast_strlen_zero inp.dialcontext then inp.vmcontext else inp.dialcontext

/-- The intro prompt of a session (lines 792-796). -/
def exec_dirintro (cfg : ast_config) (vmcontext : CStr) (flags : ast_flags) : CStr :=
  let dirintro := (ast_variable_retrieve cfg vmcontext (lit "directoryintro")).getD []
  let dirintro :=
    if ast_strlen_zero dirintro then
      (ast_variable_retrieve cfg (lit "general") (lit "directoryintro")).getD []
    else dirintro
  if ast_strlen_zero dirintro then
    (if flags.OPT_LISTBYFIRSTNAME then lit "dir-intro-fn" else lit "dir-intro")
  else dirintro

/-- The statement `if (chan->_state != AST_STATE_UP) res = ast_answer(chan);`
with `res` initially 0. -/
def directory_exec_answer : M Int := do
  let up ← get_state_up
  if !up then call Call.ast_answer else pure 0

/-- The function `directory_exec`, with a bound on the iterations of its
loop. -/
def directory_exec (env : Env) (inp : exec_input) (fuel : Nat) : M (Option Int) :=
  if ast_strlen_zero inp.data then pure (some (-1))
  else if inp.options = some none then pure (some (-1))
  else
    match realtime_directory inp.voicemail_conf inp.realtime inp.vmcontext with
    | none => pure (some (-1))
    | some cfg => do
      let res ← directory_exec_answer
      directory_exec_loop env cfg inp.users_conf inp.vmcontext (exec_dialcontext inp)
        (exec_dirintro cfg inp.vmcontext (exec_flags inp)) (exec_flags inp) fuel res

/-! ### Values used in examples -/

/-- The values of the header declarations in the Asterisk tree this file
belongs to. -/
def asterisk_env : Env :=
  { AST_MAX_EXTENSION := 80, sizeof_exten := 80,
    ast_config_AST_SPOOL_DIR := lit "/var/spool/asterisk" }

/-- Flags with only the given options `f` and `m` set or cleared. -/
def flags_fm (f m : Bool) : ast_flags :=
  { OPT_LISTBYFIRSTNAME := f, OPT_SAYEXTENSION := false,
    OPT_FROMVOICEMAIL := false, OPT_SELECTFROMMENU := m }

/-- A channel that is up, with the given coming replies and digit strings,
an empty trace, and empty `exten` and `macrocontext`. -/
def world_of (replies : List Int) (strings : List CStr) : World :=
  { replies := replies, strings := strings, trace := [], exten := [],
    macrocontext := [], state_up := true }

/-- Whether a recorded call is `ast_goto_if_exists`. -/
def is_goto : Call → Bool
  | Call.ast_goto_if_exists _ _ _ => true
  | _ => false

/-- Whether a recorded call is an entry into `select_item`. -/
def is_select_item : Call → Bool
  | Call.select_item _ _ => true
  | _ => false

/-- The value that a run yields, if it ends without undefined behaviour. -/
def Outcome.value? {α : Type} : Outcome α → Option α
  | Outcome.ok a _ => some a
  | Outcome.fault _ _ => none

/-- The calls that a run recorded. -/
def Outcome.calls {α : Type} : Outcome α → List Call
  | Outcome.ok _ w => w.trace
  | Outcome.fault _ w => w.trace

/-- The field `chan->exten` after a run. -/
def Outcome.exten {α : Type} : Outcome α → Option CStr
  | Outcome.ok _ w => some w.exten
  | Outcome.fault _ _ => none

/-- A page of two entries. -/
def page_of_two : List items :=
  [{ exten := lit "100", name := lit "Al Smith" }, { exten := lit "101", name := lit "Bo Smith" }]

/-- A primary listing `[default]` of nine entries `100`..`108`, all named
`Smith`. -/
def nine_smiths : ast_config :=
  [{ name := lit "default",
     root := (List.range 9).map
       (fun i => { name := lit (toString (100 + i)), value := lit "secret,Smith" }) }]

/-- The page slots that the menu loop builds from the first `n` entries of
`nine_smiths`. -/
def smith_items (n : Nat) : List items :=
  (List.range n).map (fun i => { exten := lit (toString (100 + i)), name := lit "Smith" })

/-- A result of one attempt that decides nothing: a timeout (0) or a digit
other than `'1'` and `'*'`. -/
def undecided (r : Int) : Prop := 0 ≤ r ∧ r ≠ 49 ∧ r ≠ 42

instance (r : Int) : Decidable (undecided r) := by
  unfold undecided; infer_instance

/-- The world after a run that ends without undefined behaviour. -/
def Outcome.world? {α : Type} : Outcome α → Option World
  | Outcome.ok _ w => some w
  | Outcome.fault _ _ => none

/-- A piece of the program that neither sets `chan->exten` nor calls
`ast_goto_if_exists`, and never runs into undefined behaviour. -/
def quiet {α : Type} (m : M α) : Prop :=
  ∀ w : World, ∃ a w1, m w = Outcome.ok a w1 ∧ w1.exten = w.exten ∧
    w1.trace.filter is_goto = w.trace.filter is_goto

/-- The world right after the entry into `get_mailbox_response` has been
recorded. -/
def entered (ext name : CStr) (w : World) : World :=
  { w with trace := w.trace ++ [Call.get_mailbox_response ext name] }

/-- The local variables of `do_directory` after a candidate has been
presented without a decision: `found` is incremented, `conv` was freed, and
`res` is 0. -/
def after_no_decision (st : locals) : locals :=
  { st with res := 0, found := st.found + 1, conv_freed := true }

/-- An entry that matches the digits `"764"` in sequential mode. -/
def al_smith : ast_variable := { name := lit "100", value := lit "secret,Al Smith" }

/-- A world in which the greeting of the presented entry does not exist, the
name is spelled out undisturbed, the first attempt yields the digit `'5'` and
the two following attempts time out. -/
def world_undecided : World := world_of [0, 0, 0, 0, 53, 0, 0, 0, 0] []

/-- The world `world_undecided` after the name was played. -/
def world_undecided_0 : World :=
  ((play_mailbox_owner asterisk_env (lit "default") (lit "100") (lit "Al Smith")
      (flags_fm false false) (entered (lit "100") (lit "Al Smith") world_undecided)).world?).getD
    world_undecided

/-- The world `world_undecided` after the first attempt. -/
def world_undecided_1 : World :=
  ((get_mailbox_response_attempt 0 world_undecided_0).world?).getD world_undecided

/-- The world `world_undecided` after the second attempt. -/
def world_undecided_2 : World :=
  ((get_mailbox_response_attempt 0 world_undecided_1).world?).getD world_undecided

/-- The world `world_undecided` after the third attempt. -/
def world_undecided_3 : World :=
  ((get_mailbox_response_attempt 0 world_undecided_2).world?).getD world_undecided

/-- The escape extension is routable: the coming call
`ast_goto_if_exists(chan, dialcontext, exten, 1)` returns 0, or the channel
has a non-empty macro context and the call that follows, for that context,
returns 0. -/
def escape_routable (w : World) : Prop :=
  w.replies.headD 0 = 0 ∨
    (ast_strlen_zero w.macrocontext = false ∧ w.replies.tail.headD 0 = 0)

instance (w : World) : Decidable (escape_routable w) := by
  unfold escape_routable; infer_instance

/-- The world after a successful escape to `exten`: one call of
`ast_goto_if_exists` for the dial context and, when that one failed, one for
the macro context; nothing else has changed. -/
def escaped_world (dialcontext exten : CStr) (w : World) : World :=
  if w.replies.headD 0 = 0 then
    { w with replies := w.replies.tail,
             trace := w.trace ++ [Call.ast_goto_if_exists dialcontext exten 1] }
  else
    { w with replies := w.replies.tail.tail,
             trace := w.trace ++ [Call.ast_goto_if_exists dialcontext exten 1,
                                  Call.ast_goto_if_exists w.macrocontext exten 1] }

/-- A session on the context `default` with no options, a primary listing
of one entry, no realtime data and no `users.conf`. -/
def plain_session : exec_input :=
  { data := lit "default", vmcontext := lit "default", dialcontext := [], options := none,
    voicemail_conf := some [{ name := lit "default", root := [al_smith] }],
    realtime := none, users_conf := none }

/-- The world `world_of [0, 48, 0] []` after the intro was played and the
first digit `'0'` was read. -/
def world_zero_pressed : World :=
  (((directory_exec_answer >>= directory_exec_digit (lit "dir-intro"))
      (world_of [0, 48, 0] [])).world?).getD (world_of [] [])

/-- A primary listing `[default]` with the one entry `100`. -/
def one_primary : ast_config := [{ name := lit "default", root := [al_smith] }]

/-- A realtime result with one mailbox `100`, the extension of the primary
entry of `one_primary`. -/
def one_overlay : ast_config :=
  [{ name := lit "100", root := [{ name := lit "fullname", value := lit "Al Smith" }] }]

/-- The configuration that `realtime_directory` assembles from `one_primary`
and `one_overlay`. -/
def one_assembled : ast_config :=
  [{ name := lit "default",
     root := [al_smith,
       { name := lit "100", value := lit "no-password,Al Smith,hidefromdir=no" }] }]

/-- An overlay record whose hidden value is `YES`. -/
def overlay_upper : ast_category :=
  { name := lit "200",
    root := [{ name := lit "fullname", value := lit "Bo Jones" },
             { name := lit "hidefromdir", value := lit "YES" }] }

/-- An overlay record whose hidden value is `yes` and whose full name has 72
characters. -/
def overlay_long : ast_category :=
  { name := lit "201",
    root := [{ name := lit "fullname", value := List.replicate 72 65 },
             { name := lit "hidefromdir", value := lit "yes" }] }

/-- An overlay record whose hidden value is `yes`. -/
def overlay_hidden : ast_category :=
  { name := lit "202",
    root := [{ name := lit "fullname", value := lit "Cy Young" },
             { name := lit "hidefromdir", value := lit "yes" }] }

/-- The local variables of `do_directory` at the start of its passes. -/
def locals_start : locals := { res := 0, found := 0, lastuserchoice := 0, conv_freed := false }

/-- A directory-enabled `users.conf` entry `200` with the full name `Smith`. -/
def user_smith : user_category :=
  { name := lit "200", hasdirectory := true, fullname := some (lit "Smith") }

/-- A directory-enabled `users.conf` entry `201` with the full name
`John Smith`. -/
def user_john_smith : user_category :=
  { name := lit "201", hasdirectory := true, fullname := some (lit "John Smith") }

/-- The world after the session `plain_session` ran in a world where nobody
presses a key. -/
def world_silent_end : World :=
  ((directory_exec asterisk_env plain_session 1 (world_of [] [])).world?).getD (world_of [] [])

/-- Whether a recorded call is the entry into `get_mailbox_response` or
`select_item`. -/
def is_entry : Call → Bool
  | Call.get_mailbox_response _ _ => true
  | Call.select_item _ _ => true
  | _ => false

/-- A piece of the program that always ends without undefined behaviour,
with a value that satisfies `Q`, and that enters neither
`get_mailbox_response` nor `select_item`. -/
def yields {α : Type} (Q : α → Prop) (m : M α) : Prop :=
  ∀ w : World, ∃ a w1, m w = Outcome.ok a w1 ∧ Q a ∧
    w1.trace.filter is_entry = w.trace.filter is_entry

/-- The value of a C truth value: 0 or 1. -/
def zero_one (r : Int) : Prop := r = 0 ∨ r = 1

/-- The entry into `get_mailbox_response` that presents the primary entry
`v`: `get_mailbox_response(chan, context, dialcontext, v->name, name, flags)`
with `name` the copy of the name field of `v`. -/
def presentation (v : ast_variable) : Call :=
  Call.get_mailbox_response v.name (ast_copy_string ((name_field v.value).getD []) 80)

/-- The entries that sequential mode presents over the primary listing, as
the specification words it: the candidates (non-hidden entries with a name
field whose code starts with the digits), in listing order, each once, up to
and including the first one whose response is neither a skip (`'*'`) nor a
no-decision (0). -/
def sequential_presented (env : Env) (context dialcontext : CStr) (flags : ast_flags)
    (d : CStr) : List ast_variable → World → List ast_variable
  | [], _ => []
  | v :: rest, w =>
    if sequential_candidate flags d v then
      match get_mailbox_response env context dialcontext v.name
          (ast_copy_string ((name_field v.value).getD []) 80) flags w with
      | Outcome.ok r w1 =>
        if r = 0 ∨ r = 42 then
          v :: sequential_presented env context dialcontext flags d rest w1
        else [v]
      | Outcome.fault _ _ => [v]
    else sequential_presented env context dialcontext flags d rest w

/-- The world after the closing prompt `file` was started with
`ast_streamfile`. -/
def after_prompt (file : CStr) (w : World) : World :=
  { w with replies := w.replies.tail, trace := w.trace ++ [Call.ast_streamfile file] }

/-- The value that `do_directory` returns after the closing prompt: the
result of `ast_streamfile`, or 1 when that result is 0. -/
def prompt_result (w : World) : Int :=
  if w.replies.headD 0 = 0 then 1 else w.replies.headD 0

/-- A world for the session `plain_session`: the caller enters `764`,
accepts the entry presented with `'1'`, and the extension does not exist in
the dial context; after that no key is pressed. -/
def world_no_such_extension : World :=
  world_of [0, 55, 0, 0, 0, 0, 0, 49, -3] [lit "64"]

/-- The world after `directory_exec` has waited for the closing prompt:
`ast_waitstream` and `ast_stopstream`. -/
def after_waitstream (w : World) : World :=
  { w with replies := w.replies.tail,
           trace := w.trace ++ [Call.ast_waitstream] ++ [Call.ast_stopstream] }

/-- A listing without an entry that matches the digits `"764"`. -/
def no_smith : ast_config :=
  [{ name := lit "default", root := [{ name := lit "100", value := lit "secret,Bo Jones" }] }]

/-- What C20 asks of a recorded call: an entry into `select_item` has an item
count between 1 and 8, and the page has that many slots. -/
def good_entry : Call → Prop
  | Call.select_item page n => 1 ≤ n ∧ n ≤ 8 ∧ page.length = n
  | _ => True

/-- Every entry into `select_item` recorded so far satisfies `good_entry`. -/
def good_trace (w : World) : Prop := ∀ c ∈ w.trace.filter is_entry, good_entry c

/-- A piece of the program that keeps `good_trace`, whether it ends with a
value (which then satisfies `Q`) or in undefined behaviour, and whose
undefined behaviour is never an access outside an array. -/
def sound {α : Type} (Q : α → Prop) (m : M α) : Prop :=
  ∀ w : World, good_trace w →
    match m w with
    | Outcome.ok a w1 => good_trace w1 ∧ Q a
    | Outcome.fault f w1 => good_trace w1 ∧ f ≠ Fault.out_of_bounds

/-- The invariant of `menuitems` and `menucount` at the head of a menu loop:
fewer than 8 slots are in use, and all of them were written. -/
def menu_ok (m : menu) : Prop := m.menucount < 8 ∧ m.menucount ≤ m.menuitems.length

/-- The undefined behaviour in which a run ended, if it did. -/
def Outcome.fault? {α : Type} : Outcome α → Option Fault
  | Outcome.ok _ _ => none
  | Outcome.fault f _ => some f

/-- Every entry into `select_item` in a trace has an item count between 1 and
8, and a page of that many slots. -/
def counts_in_range (trace : List Call) : Prop :=
  ∀ (page : List items) (n : Nat), Call.select_item page n ∈ trace →
    1 ≤ n ∧ n ≤ 8 ∧ page.length = n

/-- A piece of the program that neither sets `chan->exten` nor calls
`ast_goto_if_exists`, whether it ends with a value (which then satisfies `Q`)
or in undefined behaviour. -/
def keeps {α : Type} (Q : α → Prop) (m : M α) : Prop :=
  ∀ w : World,
    match m w with
    | Outcome.ok a w1 =>
      Q a ∧ w1.exten = w.exten ∧ w1.trace.filter is_goto = w.trace.filter is_goto
    | Outcome.fault _ w1 =>
      w1.exten = w.exten ∧ w1.trace.filter is_goto = w.trace.filter is_goto

/-- Digits that no name code can match: neither `strcmp` nor `strncmp` over
the length of `ext` finds the code of any key equal to `ext`. -/
def unmatchable (ext : CStr) : Prop :=
  ∀ key : CStr, strcmp (convert key) ext ≠ 0 ∧ strncmp (convert key) ext (strlen ext) ≠ 0

/-- The three ways in which the search of `do_directory` can end when
nothing matches: the prompt `"dir-nomatch"` right away (no call of any kind
before it), or one of the two kinds of undefined behaviour that do not depend
on a match, a NULL name field in menu mode and a second `ast_free(conv)` in
the sequential pass over `users.conf`. -/
def ends_without_match (o : Outcome Int) (w : World) : Prop :=
  o = Outcome.ok (prompt_result w) (after_prompt (lit "dir-nomatch") w) ∨
  o = Outcome.fault Fault.null_dereference w ∨
  o = Outcome.fault Fault.double_free w

/-- The world of a caller who pressed `'0'` where no extension `o` exists,
and then `12`. -/
def world_zero_unroutable : World := world_of [-3, 0] [lit "12"]

/-- The world after a failed escape to `exten`: one call of
`ast_goto_if_exists` for the dial context and, when the channel has a
non-empty macro context, one for that context; nothing else has changed. -/
def unescaped_world (dialcontext exten : CStr) (w : World) : World :=
  if ast_strlen_zero w.macrocontext then
    { w with replies := w.replies.tail,
             trace := w.trace ++ [Call.ast_goto_if_exists dialcontext exten 1] }
  else
    { w with replies := w.replies.tail.tail,
             trace := w.trace ++ [Call.ast_goto_if_exists dialcontext exten 1,
                                  Call.ast_goto_if_exists w.macrocontext exten 1] }

/-- The array `ext` of `do_directory` after `ext[0] = digit` and
`ast_readstring(chan, ext + 1, NUMDIGITS - 1, 3000, 3000, "#")` in the world
`w`. -/
def entered_code (digit : Int) (w : World) : CStr :=
  cstr (digit :: cstr ((w.strings.headD []).take (NUMDIGITS - 1)))

/-- The world after the call of `ast_readstring` in `do_directory`. -/
def after_readstring (w : World) : World :=
  { w with replies := w.replies.tail, strings := w.strings.tail,
           trace := w.trace ++ [Call.ast_readstring (NUMDIGITS - 1) 3000 3000 (lit "#")] }

/-- The two passes of `do_directory` (lines 521-742), up to the test of
`lastuserchoice` at line 744: the value is the local variables there, among
them the match count `found`. -/
def do_directory_passes (env : Env) (vmcfg : ast_config) (ucfg : Option (List user_category))
    (context dialcontext : CStr) (flags : ast_flags) (ext : CStr) : M locals := do
  let st ← do_directory_primary env vmcfg context dialcontext flags ext
  do_directory_users env ucfg context dialcontext flags ext st

/-- A directory-enabled `users.conf` entry `199` with the full name `Jones`. -/
def user_jones : user_category :=
  { name := lit "199", hasdirectory := true, fullname := some (lit "Jones") }

/-- A primary listing `[default]` with the entries `199`, named `Jones`, and
`200`, named `Smith`. -/
def jones_then_smith : ast_config :=
  [{ name := lit "default",
     root := [{ name := lit "199", value := lit "secret,Jones" },
              { name := lit "200", value := lit "secret,Smith" }] }]

/-! ## Theorems -/

/-! ### Running pieces of the program -/

theorem bind_run {α β : Type} (m : M α) (f : α → M β) (w : World) :
    (m >>= f) w = match m w with
      | Outcome.ok a w1 => f a w1
      | Outcome.fault e w1 => Outcome.fault e w1 := rfl

theorem bind_run_ok {α β : Type} (m : M α) (f : α → M β) (w w1 : World) (a : α)
    (h : m w = Outcome.ok a w1) : (m >>= f) w = f a w1 := by
  rw [bind_run, h]

theorem pure_run {α : Type} (a : α) (w : World) : (pure a : M α) w = Outcome.ok a w := rfl

theorem call_run (c : Call) (w : World) :
    call c w = Outcome.ok (w.replies.headD 0)
      { w with replies := w.replies.tail, trace := w.trace ++ [c] } := rfl

theorem note_run (c : Call) (w : World) :
    note c w = Outcome.ok () { w with trace := w.trace ++ [c] } := rfl


theorem quiet_pure {α : Type} (a : α) : quiet (pure a : M α) :=
  fun w => ⟨a, w, rfl, rfl, rfl⟩

theorem quiet_call (c : Call) (hc : is_goto c = false) : quiet (call c) :=
  fun w => ⟨_, _, call_run c w, rfl, by simp [hc]⟩

theorem quiet_note (c : Call) (hc : is_goto c = false) : quiet (note c) :=
  fun w => ⟨_, _, note_run c w, rfl, by simp [hc]⟩

theorem quiet_bind {α β : Type} (m : M α) (f : α → M β) (hm : quiet m)
    (hf : ∀ a, quiet (f a)) : quiet (m >>= f) := by
  intro w
  obtain ⟨a, w1, h1, e1, t1⟩ := hm w
  obtain ⟨b, w2, h2, e2, t2⟩ := hf a w1
  exact ⟨b, w2, by rw [bind_run_ok m f w w1 a h1, h2], e2.trans e1, t2.trans t1⟩

theorem quiet_ite {α : Type} (c : Prop) [Decidable c] (m n : M α) (hm : quiet m)
    (hn : quiet n) : quiet (if c then m else n) := by
  split_ifs <;> assumption

theorem play_mailbox_owner_quiet (env : Env) (context ext name : CStr) (flags : ast_flags) :
    quiet (play_mailbox_owner env context ext name flags) := by
  unfold play_mailbox_owner
  refine quiet_bind _ _ (quiet_call _ (by rfl)) (fun e1 => ?_)
  refine quiet_bind _ _ (quiet_call _ (by rfl)) (fun e2 => ?_)
  refine quiet_ite _ _ _ ?_ ?_
  · refine quiet_bind _ _ (quiet_call _ (by rfl)) (fun res => ?_)
    refine quiet_bind _ _ (quiet_note _ (by rfl)) (fun _ => ?_)
    refine quiet_ite _ _ _ ?_ (quiet_pure _)
    exact quiet_bind _ _ (quiet_call _ (by rfl)) (fun _ => quiet_call _ (by rfl))
  · refine quiet_bind _ _ (quiet_call _ (by rfl)) (fun res => ?_)
    refine quiet_ite _ _ _ ?_ (quiet_pure _)
    exact quiet_bind _ _ (quiet_call _ (by rfl)) (fun _ => quiet_call _ (by rfl))

theorem get_mailbox_response_attempt_quiet (res : Int) :
    quiet (get_mailbox_response_attempt res) := by
  unfold get_mailbox_response_attempt
  refine quiet_bind _ _ ?_ (fun r => ?_)
  · exact quiet_ite _ _ _ (quiet_call _ (by rfl)) (quiet_pure _)
  refine quiet_bind _ _ ?_ (fun r2 => ?_)
  · exact quiet_ite _ _ _ (quiet_call _ (by rfl)) (quiet_pure _)
  exact quiet_bind _ _ (quiet_note _ (by rfl)) (fun _ => quiet_pure _)

theorem get_mailbox_response_loop_undecided (env : Env) (dialcontext ext : CStr)
    (flags : ast_flags) (n : Nat) (res r1 : Int) (w w1 : World)
    (h : get_mailbox_response_attempt res w = Outcome.ok r1 w1) (hu : undecided r1) :
    get_mailbox_response_loop env dialcontext ext flags (n + 1) res w =
      get_mailbox_response_loop env dialcontext ext flags n 0 w1 := by
  obtain ⟨h0, h49, h42⟩ := hu
  rw [get_mailbox_response_loop, bind_run_ok _ _ w w1 r1 h]
  rw [if_neg (by omega), if_neg h49, if_neg h42]

theorem convert_switch_letter (c : Int) (h : isAsciiLetter c) :
    convert_switch (toupper c) = some (keypadDigit c) := by
  unfold isAsciiLetter at h
  rcases h with ⟨h1, h2⟩ | ⟨h1, h2⟩ <;> interval_cases c <;> decide

theorem convert_loop_full (name tmp : CStr) (h : NUMDIGITS ≤ tmp.length) :
    convert_loop name tmp = tmp := by
  cases name with
  | nil => rfl
  | cons c rest =>
    have : ¬ (tmp.length < NUMDIGITS) := by omega
    simp [convert_loop, this]

theorem convert_loop_letters (name : CStr) :
    ∀ tmp : CStr, tmp.length ≤ NUMDIGITS → (∀ c ∈ name, isAsciiLetter c) →
      convert_loop name tmp = tmp ++ (name.take (NUMDIGITS - tmp.length)).map keypadDigit := by
  induction name with
  | nil => intro tmp _ _; simp [convert_loop]
  | cons c rest ih =>
    intro tmp hlen hall
    have hc : isAsciiLetter c := hall c (by simp)
    have hrest : ∀ d ∈ rest, isAsciiLetter d := fun d hd => hall d (by simp [hd])
    have h32 : 32 < c := by unfold isAsciiLetter at hc; omega
    by_cases hfull : tmp.length < NUMDIGITS
    · have hsw := convert_switch_letter c hc
      have hstep : convert_loop (c :: rest) tmp = convert_loop rest (tmp ++ [keypadDigit c]) := by
        simp [convert_loop, h32, hfull, hsw]
      rw [hstep, ih (tmp ++ [keypadDigit c]) (by simp; omega) hrest]
      have : NUMDIGITS - tmp.length = (NUMDIGITS - (tmp ++ [keypadDigit c]).length) + 1 := by
        simp; omega
      rw [this, List.take_succ_cons]
      simp
    · have h0 : NUMDIGITS - tmp.length = 0 := by omega
      rw [convert_loop_full _ _ (by omega), h0]
      simp

/-- C1. For a name made only of ASCII letters, `convert` returns the keypad
digits of its first `min(length, 3)` letters, in order; `"SMITH"` encodes to
`"764"` and `"AL"` to `"25"`. -/
theorem convert_letters :
    (∀ name : CStr, (∀ c ∈ name, isAsciiLetter c) →
        convert name = (name.take (min name.length 3)).map keypadDigit) ∧
    convert (lit "SMITH") = lit "764" ∧
    convert (lit "AL") = lit "25" ∧ (convert (lit "AL")).length = 2 := by
  refine ⟨?_, by decide, by decide, by decide⟩
  intro name hall
  have h := convert_loop_letters name [] (by simp) hall
  have hmin : name.take (min name.length 3) = name.take 3 := by
    rcases Nat.le_total name.length 3 with h3 | h3
    · rw [Nat.min_eq_left h3, List.take_of_length_le h3, List.take_of_length_le (le_refl _)]
    · rw [Nat.min_eq_right h3]
  rw [hmin]
  simpa [convert, NUMDIGITS] using h

/-- Witness of C1 at the name `"Smith"`. -/
theorem convert_letters_witness :
    (∀ c ∈ lit "Smith", isAsciiLetter c) ∧
    convert (lit "Smith") = ((lit "Smith").take (min (lit "Smith").length 3)).map keypadDigit :=
  ⟨by decide, convert_letters.1 (lit "Smith") (by decide)⟩

theorem convert_switch_digit (u d : Int) (h : convert_switch u = some d) :
    49 ≤ d ∧ d ≤ 57 := by
  unfold convert_switch at h
  split_ifs at h <;> simp at h <;> omega

theorem convert_loop_digits (name : CStr) :
    ∀ tmp : CStr, tmp.length ≤ NUMDIGITS → (∀ c ∈ tmp, 49 ≤ c ∧ c ≤ 57) →
      (convert_loop name tmp).length ≤ NUMDIGITS ∧
      ∀ c ∈ convert_loop name tmp, 49 ≤ c ∧ c ≤ 57 := by
  induction name with
  | nil => intro tmp hlen hd; exact ⟨hlen, hd⟩
  | cons c rest ih =>
    intro tmp hlen hd
    unfold convert_loop
    split_ifs with hc
    · cases hsw : convert_switch (toupper c) with
      | none => exact ih tmp hlen hd
      | some d =>
        have hdig := convert_switch_digit _ _ hsw
        apply ih
        · simp; omega
        · intro x hx
          rcases List.mem_append.1 hx with hx | hx
          · exact hd x hx
          · simp at hx; subst hx; exact hdig
    · exact ⟨hlen, hd⟩

/-- C2. For every name, the code returned by `convert` has at most NUMDIGITS
(3) characters and each of them is an ASCII digit `'0'..'9'`. -/
theorem convert_length_digits (name : CStr) :
    (convert name).length ≤ 3 ∧ (convert name).length ≤ NUMDIGITS ∧
    ∀ c ∈ convert name, 48 ≤ c ∧ c ≤ 57 := by
  have h := convert_loop_digits name [] (by simp) (by simp)
  refine ⟨h.1, h.1, ?_⟩
  intro c hc
  have := h.2 c hc
  omega

theorem convert_switch_skipped (c : Int) (h : skippedByCode c) :
    convert_switch (toupper c) = none := by
  unfold skippedByCode isAsciiLetter at h
  have hu : toupper c = c := by
    unfold toupper
    rw [if_neg]
    omega
  rw [hu]
  unfold convert_switch
  split_ifs <;> first | rfl | omega

theorem convert_loop_skip (c : Int) (rest tmp : CStr) (h : skippedByCode c) :
    convert_loop (c :: rest) tmp = convert_loop rest tmp := by
  by_cases hfull : tmp.length < NUMDIGITS
  · have h32 : 32 < c := h.1
    simp [convert_loop, h32, hfull, convert_switch_skipped c h]
  · rw [convert_loop_full _ _ (by omega), convert_loop_full _ _ (by omega)]

theorem convert_loop_delete (pre : CStr) (c : Int) (post : CStr) (h : skippedByCode c) :
    ∀ tmp, convert_loop (pre ++ c :: post) tmp = convert_loop (pre ++ post) tmp := by
  induction pre with
  | nil => intro tmp; simpa using convert_loop_skip c post tmp h
  | cons a pre ih =>
    intro tmp
    simp only [List.cons_append, convert_loop]
    split_ifs
    · cases convert_switch (toupper a) with
      | none => exact ih tmp
      | some d => exact ih _
    · rfl

theorem convert_loop_filter (p : Int → Bool) (hp : ∀ c, p c = false → skippedByCode c)
    (name : CStr) : ∀ tmp, convert_loop (name.filter p) tmp = convert_loop name tmp := by
  induction name with
  | nil => intro tmp; rfl
  | cons a rest ih =>
    intro tmp
    cases hpa : p a with
    | false =>
      rw [List.filter_cons_of_neg (by simp [hpa]), convert_loop_skip a rest tmp (hp a hpa)]
      exact ih tmp
    | true =>
      rw [List.filter_cons_of_pos (by simp [hpa])]
      simp only [convert_loop]
      split_ifs
      · cases convert_switch (toupper a) with
        | none => exact ih tmp
        | some d => exact ih _
      · rfl

theorem strlen_of_no_nul (d : CStr) (h : ∀ c ∈ d, c ≠ 0) : strlen d = d.length := by
  unfold strlen cstr
  rw [List.takeWhile_eq_self_iff.2]
  intro c hc
  simpa using h c hc

theorem strncmp_eq_zero_iff (d : CStr) (h : ∀ c ∈ d, c ≠ 0) :
    ∀ conv : CStr, strncmp conv d d.length = 0 ↔ conv.take d.length = d := by
  induction d with
  | nil => intro conv; simp [strncmp]
  | cons y ds ih =>
    intro conv
    have hy : y ≠ 0 := h y (by simp)
    have hds : ∀ c ∈ ds, c ≠ 0 := fun c hc => h c (by simp [hc])
    cases conv with
    | nil =>
      simp only [List.length_cons, strncmp, List.headD_nil, List.headD_cons]
      rw [if_pos (Ne.symm hy)]
      simp
      omega
    | cons x cs =>
      simp only [List.length_cons, strncmp, List.headD_cons, List.tail_cons, List.take_succ_cons]
      by_cases hxy : x = y
      · subst hxy
        simp [hy, ih hds cs]
      · rw [if_pos hxy]
        simp [hxy]
        omega

theorem strcmp_eq_zero_iff (conv : CStr) (hc : ∀ c ∈ conv, c ≠ 0) :
    ∀ d : CStr, (∀ c ∈ d, c ≠ 0) → (strcmp conv d = 0 ↔ conv = d) := by
  induction conv with
  | nil =>
    intro d hd
    cases d with
    | nil => simp [strcmp]
    | cons y ds =>
      have hy : y ≠ 0 := hd y (by simp)
      simp [strcmp, hy]
  | cons x cs ih =>
    intro d hd
    have hx : x ≠ 0 := hc x (by simp)
    have hcs : ∀ c ∈ cs, c ≠ 0 := fun c h => hc c (by simp [h])
    cases d with
    | nil => simp [strcmp, hx]
    | cons y ds =>
      have hds : ∀ c ∈ ds, c ≠ 0 := fun c h => hd c (by simp [h])
      simp only [strcmp, List.headD_cons, List.tail_cons]
      by_cases hxy : x = y
      · subst hxy
        simp [hx, ih hcs ds hds]
      · rw [if_pos hxy]
        simp [hxy]
        omega

theorem convert_no_nul (name : CStr) : ∀ c ∈ convert name, c ≠ 0 := by
  intro c hc
  have := (convert_loop_digits name [] (by simp) (by simp)).2 c hc
  omega

/-- C4. For a non-hidden primary entry with a name field and entered digits
`d`: in sequential mode the entry is a candidate iff the first `len(d)`
characters of the code of its key equal `d`; in menu mode iff the code of its
key equals `d`. An entry keyed `"SMITH"` is a candidate for `"76"` in
sequential mode and is not one in menu mode. -/
theorem candidate_match_rule :
    (∀ (env : Env) (flags : ast_flags) (d : CStr) (v : ast_variable) (pos bufpos : CStr),
      hidefromdir v.value = false → name_field v.value = some pos →
      name_field (menu_buf env v) = some bufpos → (∀ c ∈ d, c ≠ 0) →
      (sequential_candidate flags d v = true ↔
        (convert (sequential_key flags pos)).take d.length = d) ∧
      (menu_candidate env flags d v = true ↔ convert (menu_key flags bufpos) = d)) ∧
    (∀ f m : Bool,
      sequential_key (flags_fm f m) (lit "SMITH") = lit "SMITH" ∧
      menu_key (flags_fm f m) (lit "SMITH") = lit "SMITH" ∧
      sequential_candidate (flags_fm f m) (lit "76") ⟨lit "100", lit "secret,SMITH"⟩ = true ∧
      menu_candidate asterisk_env (flags_fm f m) (lit "76")
        ⟨lit "100", lit "secret,SMITH"⟩ = false) := by
  refine ⟨?_, by decide⟩
  intro env flags d v pos bufpos hhid hpos hbuf hd
  constructor
  · simp only [sequential_candidate, hhid, hpos, sequential_match, Bool.not_false,
      Bool.true_and, beq_iff_eq]
    rw [strlen_of_no_nul d hd]
    exact strncmp_eq_zero_iff d hd _
  · simp only [menu_candidate, hhid, hbuf, menu_match, Bool.not_false, Bool.true_and,
      beq_iff_eq]
    exact strcmp_eq_zero_iff _ (convert_no_nul _) d hd

/-- Witness of C4 at the entry `100 = secret,John Smith` and the digits
`"76"`. -/
theorem candidate_match_rule_witness :
    (sequential_candidate (flags_fm false false) (lit "76")
        ⟨lit "100", lit "secret,John Smith"⟩ = true ↔
      (convert (sequential_key (flags_fm false false) (lit "John Smith"))).take
        (lit "76").length = lit "76") ∧
    (menu_candidate asterisk_env (flags_fm false true) (lit "76")
        ⟨lit "100", lit "secret,John Smith"⟩ = true ↔
      convert (menu_key (flags_fm false true) (lit "John Smith")) = lit "76") :=
  candidate_match_rule.1 asterisk_env (flags_fm false true) (lit "76")
    ⟨lit "100", lit "secret,John Smith"⟩ (lit "John Smith") (lit "John Smith")
    (by decide) (by decide) (by decide) (by decide)

/-! ### Hidden entries -/

theorem primary_sequential_loop_hidden (env : Env) (context dialcontext : CStr)
    (flags : ast_flags) (ext : CStr) (v : ast_variable) (h : hidefromdir v.value = true)
    (pre post : List ast_variable) :
    ∀ st, primary_sequential_loop env context dialcontext flags ext (pre ++ v :: post) st =
      primary_sequential_loop env context dialcontext flags ext (pre ++ post) st := by
  induction pre with
  | nil => intro st; simp [primary_sequential_loop, h]
  | cons a pre ih =>
    intro st
    rw [List.cons_append, List.cons_append]
    simp only [primary_sequential_loop, ih]

theorem primary_menu_loop_hidden (env : Env) (context dialcontext : CStr)
    (flags : ast_flags) (ext : CStr) (v : ast_variable) (h : hidefromdir v.value = true)
    (pre post : List ast_variable) :
    ∀ st m, primary_menu_loop env context dialcontext flags ext (pre ++ v :: post) st m =
      primary_menu_loop env context dialcontext flags ext (pre ++ post) st m := by
  induction pre with
  | nil => intro st m; simp [primary_menu_loop, h]
  | cons a pre ih =>
    intro st m
    rw [List.cons_append, List.cons_append]
    simp only [primary_menu_loop, ih]

theorem startsWithNoCase_append (needle post : CStr) :
    startsWithNoCase needle (needle ++ post) = true := by
  induction needle with
  | nil => rfl
  | cons n needle ih => simp [startsWithNoCase, ih]

theorem strcasestr_of_contains (needle post : CStr) (pre : CStr) :
    (strcasestr (pre ++ needle ++ post) needle).isSome = true := by
  induction pre with
  | nil =>
    cases needle with
    | nil => cases post <;> simp [strcasestr, startsWithNoCase]
    | cons n needle =>
      have := startsWithNoCase_append (n :: needle) post
      simp only [List.nil_append, List.cons_append] at this ⊢
      simp [strcasestr, this]
  | cons a pre ih =>
    simp only [List.cons_append, strcasestr]
    split_ifs
    · rfl
    · simpa using ih

/-- C5. A primary entry whose value contains `hidefromdir=yes` (in any
letter case) fails the hidden test of both loops, and an entry that fails it
is never a candidate, whatever the digits and the flags: both matchers reject
it, and the sequential loop and the menu loop run exactly as they do on the
listing without that entry, so it is never passed to `get_mailbox_response`
and never placed in a menu page. -/
theorem hidden_never_candidate :
    (∀ pre post : CStr, hidefromdir (pre ++ lit "hidefromdir=yes" ++ post) = true) ∧
    (∀ (env : Env) (flags : ast_flags) (d : CStr) (v : ast_variable),
      hidefromdir v.value = true →
      sequential_candidate flags d v = false ∧ menu_candidate env flags d v = false ∧
      (∀ (context dialcontext : CStr) (pre post : List ast_variable) (st : locals),
        primary_sequential_loop env context dialcontext flags d (pre ++ v :: post) st =
          primary_sequential_loop env context dialcontext flags d (pre ++ post) st) ∧
      (∀ (context dialcontext : CStr) (pre post : List ast_variable) (st : locals) (m : menu),
        primary_menu_loop env context dialcontext flags d (pre ++ v :: post) st m =
          primary_menu_loop env context dialcontext flags d (pre ++ post) st m)) :=
  ⟨fun pre post => strcasestr_of_contains (lit "hidefromdir=yes") post pre,
   fun env flags d v h =>
    ⟨by simp [sequential_candidate, h], by simp [menu_candidate, h],
     fun context dialcontext pre post st =>
       primary_sequential_loop_hidden env context dialcontext flags d v h pre post st,
     fun context dialcontext pre post st m =>
       primary_menu_loop_hidden env context dialcontext flags d v h pre post st m⟩⟩

/-- Witness of C5 at the entry `101 = secret,Al Smith,,,HideFromDir=Yes`,
which would otherwise match the digits `"764"`. -/
theorem hidden_never_candidate_witness :
    hidefromdir (lit "secret,Al Smith,,,HideFromDir=Yes") = true ∧
    sequential_candidate (flags_fm false false) (lit "764")
      ⟨lit "101", lit "secret,Al Smith,,,HideFromDir=Yes"⟩ = false ∧
    menu_candidate asterisk_env (flags_fm false false) (lit "764")
      ⟨lit "101", lit "secret,Al Smith,,,HideFromDir=Yes"⟩ = false :=
  ⟨by decide,
   (hidden_never_candidate.2 asterisk_env (flags_fm false false) (lit "764")
      ⟨lit "101", lit "secret,Al Smith,,,HideFromDir=Yes"⟩ (by decide)).1,
   (hidden_never_candidate.2 asterisk_env (flags_fm false false) (lit "764")
      ⟨lit "101", lit "secret,Al Smith,,,HideFromDir=Yes"⟩ (by decide)).2.1⟩

/-! ### How the loops use the matchers -/

theorem primary_sequential_loop_pass (env : Env) (context dialcontext : CStr)
    (flags : ast_flags) (d : CStr) (v : ast_variable) (rest : List ast_variable) (st : locals)
    (h : sequential_candidate flags d v = false) :
    ∃ st1 : locals, st1.res = st.res ∧ st1.found = st.found ∧
      st1.lastuserchoice = st.lastuserchoice ∧
      primary_sequential_loop env context dialcontext flags d (v :: rest) st =
        primary_sequential_loop env context dialcontext flags d rest st1 := by
  rw [primary_sequential_loop]
  unfold sequential_candidate at h
  cases hh : hidefromdir v.value with
  | true => exact ⟨st, rfl, rfl, rfl, by simp⟩
  | false =>
    cases hp : name_field v.value with
    | none => exact ⟨st, rfl, rfl, rfl, by simp⟩
    | some pos =>
      have hm : sequential_match flags d pos = false := by simpa [hh, hp] using h
      exact ⟨{ st with conv_freed := true }, rfl, rfl, rfl, by simp [hm]⟩

theorem primary_sequential_loop_present (env : Env) (context dialcontext : CStr)
    (flags : ast_flags) (d : CStr) (v : ast_variable) (pos : CStr) (rest : List ast_variable)
    (st : locals) (h : sequential_candidate flags d v = true)
    (hpos : name_field v.value = some pos) :
    primary_sequential_loop env context dialcontext flags d (v :: rest) st =
      (get_mailbox_response env context dialcontext v.name (ast_copy_string pos 80) flags >>=
        fun res =>
          if (sequential_switch { st with found := st.found + 1, conv_freed := true } res).res ≠ 0
          then pure (sequential_switch { st with found := st.found + 1, conv_freed := true } res)
          else primary_sequential_loop env context dialcontext flags d rest
            (sequential_switch { st with found := st.found + 1, conv_freed := true } res)) := by
  simp only [sequential_candidate, hpos, Bool.and_eq_true, Bool.not_eq_true'] at h
  rw [primary_sequential_loop]
  simp only [h.1, hpos, h.2, Bool.not_false, if_true]

theorem primary_menu_loop_pass (env : Env) (context dialcontext : CStr)
    (flags : ast_flags) (d : CStr) (v : ast_variable) (pos : CStr) (rest : List ast_variable)
    (st : locals) (m : menu) (h : menu_candidate env flags d v = false)
    (hpos : name_field (menu_buf env v) = some pos) (hm : m.menucount ≠ 8) :
    primary_menu_loop env context dialcontext flags d (v :: rest) st m =
      primary_menu_loop env context dialcontext flags d rest st m := by
  rw [primary_menu_loop]
  unfold menu_candidate at h
  cases hh : hidefromdir v.value with
  | true => simp
  | false =>
    have hmm : menu_match flags d pos = false := by simpa [hh, hpos] using h
    simp only [hh, hpos, hmm, Bool.not_false, if_true]
    funext w
    simp [bind_run, pure_run, hm]

theorem primary_menu_loop_store (env : Env) (context dialcontext : CStr)
    (flags : ast_flags) (d : CStr) (v : ast_variable) (pos : CStr) (rest : List ast_variable)
    (st : locals) (m : menu) (h : menu_candidate env flags d v = true)
    (hpos : name_field (menu_buf env v) = some pos) :
    primary_menu_loop env context dialcontext flags d (v :: rest) st m =
      (menu_store env m pos v.name >>= fun m1 =>
        if m1.menucount = 8 then
          select_item env m1.menuitems m1.menucount context dialcontext flags >>= fun res =>
            if res ≠ 57 ∧ res ≠ 0 then
              pure ({ st with found := 1, res := res,
                              lastuserchoice := if res ≠ -1 then res else st.lastuserchoice },
                    { m1 with menucount := 0 })
            else primary_menu_loop env context dialcontext flags d rest
              { st with found := 1, res := res } { m1 with menucount := 0 }
        else primary_menu_loop env context dialcontext flags d rest { st with found := 1 } m1) := by
  simp only [menu_candidate, hpos, Bool.and_eq_true, Bool.not_eq_true'] at h
  rw [primary_menu_loop]
  simp only [h.1, hpos, h.2, Bool.not_false, if_true]
  funext w
  simp only [bind_run]
  cases menu_store env m pos v.name w with
  | fault e w1 => rfl
  | ok m1 w1 => simp [pure_run]

/-! ### The name key -/

/-- C6 (defect in the menu loop). The sequential loop keys on the part after
the last space when option `f` is clear and on the whole name when it is set;
the menu loop does the opposite, so without `f` the entry `John Smith` is
found in menu mode under `"564"` (JOH) and not under `"764"` (SMI). -/
theorem menu_key_inverted :
    (∀ (f m : Bool) (pos : CStr),
      sequential_key (flags_fm f m) pos = (if f then pos else after_last_space pos) ∧
      menu_key (flags_fm f m) pos = (if f then after_last_space pos else pos)) ∧
    after_last_space (lit "John Smith") = lit "Smith" ∧
    sequential_key (flags_fm false false) (lit "John Smith") = lit "Smith" ∧
    menu_key (flags_fm false true) (lit "John Smith") = lit "John Smith" ∧
    menu_key (flags_fm true true) (lit "John Smith") = lit "Smith" ∧
    menu_candidate asterisk_env (flags_fm false true) (lit "764")
      ⟨lit "100", lit "secret,John Smith"⟩ = false ∧
    menu_candidate asterisk_env (flags_fm false true) (lit "564")
      ⟨lit "100", lit "secret,John Smith"⟩ = true ∧
    sequential_candidate (flags_fm false false) (lit "764")
      ⟨lit "100", lit "secret,John Smith"⟩ = true := by
  refine ⟨?_, by decide, by decide, by decide, by decide, by decide, by decide, by decide⟩
  intro f m pos
  cases f <;> cases h : strrchr pos 32 <;>
    simp [sequential_key, menu_key, flags_fm, after_last_space, h]

/-! ### The menu presenter -/

/-- C7 (defect in `select_item`). On a page of two entries the caller presses
`'2'` in the trailing wait (or already during the first announcement): the
`||` chain leaves 1 in `res`, so `select_item` returns 1 and not `'2'`, calls
`ast_goto_if_exists` for no entry and, with the alternate-target flag, leaves
`chan->exten` as it was. -/
theorem select_item_keypress_lost :
    (select_item asterisk_env page_of_two 2 (lit "default") (lit "default")
        (flags_fm false true) (world_of (List.replicate 24 0 ++ [50]) [])).value? = some 1 ∧
    ((select_item asterisk_env page_of_two 2 (lit "default") (lit "default")
        (flags_fm false true) (world_of (List.replicate 24 0 ++ [50]) [])).calls.filter
      is_goto) = [] ∧
    (select_item asterisk_env page_of_two 2 (lit "default") (lit "default")
        (flags_fm false true) (world_of [0, 50] [])).value? = some 1 ∧
    ((select_item asterisk_env page_of_two 2 (lit "default") (lit "default")
        (flags_fm false true) (world_of [0, 50] [])).calls.filter is_goto) = [] ∧
    (select_item asterisk_env page_of_two 2 (lit "default") (lit "default")
        { OPT_LISTBYFIRSTNAME := false, OPT_SAYEXTENSION := false, OPT_FROMVOICEMAIL := true,
          OPT_SELECTFROMMENU := true }
        (world_of (List.replicate 24 0 ++ [50]) [])).value? = some 1 ∧
    (select_item asterisk_env page_of_two 2 (lit "default") (lit "default")
        { OPT_LISTBYFIRSTNAME := false, OPT_SAYEXTENSION := false, OPT_FROMVOICEMAIL := true,
          OPT_SELECTFROMMENU := true }
        (world_of (List.replicate 24 0 ++ [50]) [])).exten = some [] := by
  refine ⟨?_, ?_, ?_, ?_, ?_, ?_⟩ <;> decide!

/-- C8 (defect, the one of C7). With nine matching entries in menu mode the
first page holds the first eight in listing order. When the caller presses
`'9'` in the trailing wait of that page, `select_item` returns 1, the menu
loop is left, no second page is presented and `"dir-nomore"` is played; the
ninth entry is presented only when no key is pressed at all. -/
theorem menu_second_page_lost :
    ((do_directory asterisk_env nine_smiths none (lit "default") (lit "default") 55
        (flags_fm false true)
        (world_of (0 :: List.replicate 91 0 ++ [57]) [lit "64"])).calls.filter is_select_item)
      = [Call.select_item (smith_items 8) 8] ∧
    (do_directory asterisk_env nine_smiths none (lit "default") (lit "default") 55
        (flags_fm false true)
        (world_of (0 :: List.replicate 91 0 ++ [57]) [lit "64"])).value? = some 1 ∧
    Call.ast_streamfile (lit "dir-nomore") ∈
      (do_directory asterisk_env nine_smiths none (lit "default") (lit "default") 55
        (flags_fm false true)
        (world_of (0 :: List.replicate 91 0 ++ [57]) [lit "64"])).calls ∧
    ((do_directory asterisk_env nine_smiths none (lit "default") (lit "default") 55
        (flags_fm false true) (world_of [] [lit "64"])).calls.filter is_select_item)
      = [Call.select_item (smith_items 8) 8,
         Call.select_item [{ exten := lit "108", name := lit "Smith" }] 1] := by
  refine ⟨?_, ?_, ?_, ?_⟩ <;> decide!

/-! ### The sequential presenter -/

theorem get_mailbox_response_undecided (env : Env) (context dialcontext ext name : CStr)
    (flags : ast_flags) (w w0 w1 w2 w3 : World) (r0 r1 r2 r3 : Int)
    (hplay : play_mailbox_owner env context ext name flags (entered ext name w) =
      Outcome.ok r0 w0)
    (h1 : get_mailbox_response_attempt r0 w0 = Outcome.ok r1 w1)
    (h2 : get_mailbox_response_attempt 0 w1 = Outcome.ok r2 w2)
    (h3 : get_mailbox_response_attempt 0 w2 = Outcome.ok r3 w3)
    (u1 : undecided r1) (u2 : undecided r2) (u3 : undecided r3) :
    get_mailbox_response env context dialcontext ext name flags w = Outcome.ok 0 w3 ∧
    w3.exten = w.exten ∧ w3.trace.filter is_goto = w.trace.filter is_goto := by
  refine ⟨?_, ?_, ?_⟩
  · unfold get_mailbox_response
    rw [bind_run, note_run]
    show (play_mailbox_owner env context ext name flags >>= _) (entered ext name w) = _
    rw [bind_run_ok _ _ _ w0 r0 hplay,
      get_mailbox_response_loop_undecided env dialcontext ext flags 2 r0 r1 w0 w1 h1 u1,
      get_mailbox_response_loop_undecided env dialcontext ext flags 1 0 r2 w1 w2 h2 u2,
      get_mailbox_response_loop_undecided env dialcontext ext flags 0 0 r3 w2 w3 h3 u3]
    rfl
  all_goals
    obtain ⟨a0, v0, e0, x0, t0⟩ :=
      play_mailbox_owner_quiet env context ext name flags (entered ext name w)
    obtain ⟨a1, v1, e1, x1, t1⟩ := get_mailbox_response_attempt_quiet r0 w0
    obtain ⟨a2, v2, e2, x2, t2⟩ := get_mailbox_response_attempt_quiet 0 w1
    obtain ⟨a3, v3, e3, x3, t3⟩ := get_mailbox_response_attempt_quiet 0 w2
    rw [hplay] at e0
    rw [h1] at e1
    rw [h2] at e2
    rw [h3] at e3
    cases e0; cases e1; cases e2; cases e3
  · rw [x3, x2, x1, x0]; rfl
  · rw [t3, t2, t1, t0]; simp [entered, is_goto]

/-- C9. A candidate `v` is presented in sequential mode and each of the three
attempts yields a timeout or a digit other than `'1'` and `'*'`. Then
`get_mailbox_response` returns 0 in the world that the third attempt leaves,
having made no call of `ast_goto_if_exists` and not set `chan->exten`, and
the loop of `do_directory` goes on with the entries after `v`. -/
theorem three_attempts_then_next (env : Env) (context dialcontext : CStr) (flags : ast_flags)
    (d : CStr) (v : ast_variable) (pos : CStr) (rest : List ast_variable) (st : locals)
    (w w0 w1 w2 w3 : World) (r0 r1 r2 r3 : Int)
    (hcand : sequential_candidate flags d v = true)
    (hpos : name_field v.value = some pos)
    (hplay : play_mailbox_owner env context v.name (ast_copy_string pos 80) flags
      (entered v.name (ast_copy_string pos 80) w) = Outcome.ok r0 w0)
    (h1 : get_mailbox_response_attempt r0 w0 = Outcome.ok r1 w1)
    (h2 : get_mailbox_response_attempt 0 w1 = Outcome.ok r2 w2)
    (h3 : get_mailbox_response_attempt 0 w2 = Outcome.ok r3 w3)
    (u1 : undecided r1) (u2 : undecided r2) (u3 : undecided r3) :
    get_mailbox_response env context dialcontext v.name (ast_copy_string pos 80) flags w =
      Outcome.ok 0 w3 ∧
    w3.exten = w.exten ∧ w3.trace.filter is_goto = w.trace.filter is_goto ∧
    primary_sequential_loop env context dialcontext flags d (v :: rest) st w =
      primary_sequential_loop env context dialcontext flags d rest (after_no_decision st) w3 := by
  have hg := get_mailbox_response_undecided env context dialcontext v.name
    (ast_copy_string pos 80) flags w w0 w1 w2 w3 r0 r1 r2 r3 hplay h1 h2 h3 u1 u2 u3
  refine ⟨hg.1, hg.2.1, hg.2.2, ?_⟩
  simp only [sequential_candidate, hpos, Bool.and_eq_true, Bool.not_eq_true'] at hcand
  obtain ⟨hhid, hmatch⟩ := hcand
  rw [primary_sequential_loop]
  simp only [hhid, hpos, hmatch, Bool.not_false, if_true]
  rw [bind_run_ok _ _ w w3 0 hg.1]
  simp [sequential_switch, after_no_decision]

/-- Witness of C9: the entry `100 = secret,Al Smith`, digits `"764"`, first
attempt answered with `'5'`, the other two not at all. -/
theorem three_attempts_then_next_witness :
    get_mailbox_response asterisk_env (lit "default") (lit "default") al_smith.name
      (ast_copy_string (lit "Al Smith") 80) (flags_fm false false) world_undecided =
      Outcome.ok 0 world_undecided_3 ∧
    world_undecided_3.exten = world_undecided.exten ∧
    world_undecided_3.trace.filter is_goto = world_undecided.trace.filter is_goto ∧
    primary_sequential_loop asterisk_env (lit "default") (lit "default") (flags_fm false false)
        (lit "764") (al_smith :: [al_smith])
        { res := 0, found := 0, lastuserchoice := 0, conv_freed := false } world_undecided =
      primary_sequential_loop asterisk_env (lit "default") (lit "default") (flags_fm false false)
        (lit "764") [al_smith]
        (after_no_decision { res := 0, found := 0, lastuserchoice := 0, conv_freed := false })
        world_undecided_3 :=
  three_attempts_then_next asterisk_env (lit "default") (lit "default") (flags_fm false false)
    (lit "764") al_smith (lit "Al Smith") [al_smith]
    { res := 0, found := 0, lastuserchoice := 0, conv_freed := false }
    world_undecided world_undecided_0 world_undecided_1 world_undecided_2 world_undecided_3
    0 53 0 0 (by decide!) (by decide!) (by decide!) (by decide!) (by decide!) (by decide!)
    (by decide) (by decide) (by decide)

/-! ### The escape digits -/

theorem escape_digit_run (dialcontext exten : CStr) (w : World) (h : escape_routable w) :
    escape_digit dialcontext exten w = Outcome.ok true (escaped_world dialcontext exten w) := by
  unfold escape_digit escaped_world
  rw [bind_run, call_run]
  by_cases h0 : w.replies.headD 0 = 0
  · simp only [h0, if_true]
    rfl
  · rcases h with h | ⟨hm, h2⟩
    · exact absurd h h0
    · simp only [h0, if_false]
      show (get_macrocontext >>= _) _ = _
      rw [bind_run]
      simp only [get_macrocontext, hm, Bool.not_false, if_true]
      rw [bind_run, call_run]
      simp only [pure_run, List.append_assoc, List.singleton_append]
      simpa using h2

theorem do_directory_escape (env : Env) (vmcfg : ast_config)
    (ucfg : Option (List user_category)) (context dialcontext exten : CStr) (digit : Int)
    (flags : ast_flags) (w : World) (hctx : ast_strlen_zero context = false)
    (hd : (digit = 48 ∧ exten = lit "o") ∨ (digit = 42 ∧ exten = lit "a"))
    (h : escape_routable w) :
    do_directory env vmcfg ucfg context dialcontext digit flags w =
      Outcome.ok 0 (escaped_world dialcontext exten w) := by
  unfold do_directory
  rw [if_neg (by simp [hctx])]
  have hesc : (if digit = 48 then escape_digit dialcontext (lit "o")
      else if digit = 42 then escape_digit dialcontext (lit "a")
      else pure false) w = Outcome.ok true (escaped_world dialcontext exten w) := by
    rcases hd with ⟨h48, he⟩ | ⟨h42, he⟩
    · rw [if_pos h48, he]; exact escape_digit_run _ _ w h
    · rw [if_neg (by omega), if_pos h42, he]; exact escape_digit_run _ _ w h
  rw [bind_run_ok _ _ w _ true hesc]
  rfl

/-- C10. With a non-empty directory context, a first digit `'0'` and a
routable extension `"o"` (in the dial context or, failing that, in a
non-empty macro context), `do_directory` returns 0 having made only the one
or two calls of `ast_goto_if_exists` (no digit read, no prompt played), and
`directory_exec` returns 0; likewise for `'*'` and `"a"`. -/
theorem escape_digit_ends_session :
    (∀ (env : Env) (vmcfg : ast_config) (ucfg : Option (List user_category))
      (context dialcontext exten : CStr) (digit : Int) (flags : ast_flags) (w : World),
      ast_strlen_zero context = false →
      ((digit = 48 ∧ exten = lit "o") ∨ (digit = 42 ∧ exten = lit "a")) →
      escape_routable w →
      do_directory env vmcfg ucfg context dialcontext digit flags w =
        Outcome.ok 0 (escaped_world dialcontext exten w) ∧
      (escaped_world dialcontext exten w).strings = w.strings ∧
      (escaped_world dialcontext exten w).exten = w.exten ∧
      ((escaped_world dialcontext exten w).trace =
          w.trace ++ [Call.ast_goto_if_exists dialcontext exten 1] ∨
       (escaped_world dialcontext exten w).trace =
          w.trace ++ [Call.ast_goto_if_exists dialcontext exten 1,
                      Call.ast_goto_if_exists w.macrocontext exten 1])) ∧
    (∀ (env : Env) (inp : exec_input) (cfg : ast_config) (fuel : Nat) (exten : CStr) (r : Int)
      (w w1 : World),
      ast_strlen_zero inp.data = false → inp.options ≠ some none →
      realtime_directory inp.voicemail_conf inp.realtime inp.vmcontext = some cfg →
      ast_strlen_zero inp.vmcontext = false →
      (directory_exec_answer >>=
        directory_exec_digit (exec_dirintro cfg inp.vmcontext (exec_flags inp))) w =
        Outcome.ok r w1 →
      0 < r →
      ((to_char r = 48 ∧ exten = lit "o") ∨ (to_char r = 42 ∧ exten = lit "a")) →
      escape_routable w1 →
      directory_exec env inp (fuel + 1) w =
        Outcome.ok (some 0) (escaped_world (exec_dialcontext inp) exten w1)) := by
  constructor
  · intro env vmcfg ucfg context dialcontext exten digit flags w hctx hd h
    refine ⟨do_directory_escape env vmcfg ucfg context dialcontext exten digit flags w hctx hd h,
      ?_, ?_, ?_⟩
    · unfold escaped_world; split_ifs <;> rfl
    · unfold escaped_world; split_ifs <;> rfl
    · unfold escaped_world; split_ifs
      · exact Or.inl rfl
      · exact Or.inr rfl
  · intro env inp cfg fuel exten r w w1 hdata hopt hcfg hctx hdigit hr hd h
    unfold directory_exec
    rw [if_neg (by simp [hdata]), if_neg hopt]
    simp only [hcfg]
    rw [bind_run] at hdigit
    rw [bind_run]
    cases hans : directory_exec_answer w with
    | fault e wa => rw [hans] at hdigit; cases hdigit
    | ok res0 wa =>
      rw [hans] at hdigit
      simp only at hdigit ⊢
      rw [directory_exec_loop, bind_run_ok _ _ wa w1 r hdigit, if_pos hr,
        bind_run_ok _ _ w1 _ 0
          (do_directory_escape env cfg inp.users_conf inp.vmcontext (exec_dialcontext inp) exten
            (to_char r) (exec_flags inp) w1 hctx hd h)]
      rfl

/-- Witness of C10: the caller presses `'0'` after the intro and `"o"` exists
in the dial context. -/
theorem escape_digit_ends_session_witness :
    (do_directory asterisk_env [] none (lit "default") (lit "default") 48 (flags_fm false false)
        (world_of [0] []) =
      Outcome.ok 0 (escaped_world (lit "default") (lit "o") (world_of [0] []))) ∧
    directory_exec asterisk_env plain_session 1 (world_of [0, 48, 0] []) =
      Outcome.ok (some 0) (escaped_world (exec_dialcontext plain_session) (lit "o")
        world_zero_pressed) :=
  ⟨(escape_digit_ends_session.1 asterisk_env [] none (lit "default") (lit "default") (lit "o") 48
      (flags_fm false false) (world_of [0] []) (by decide) (by decide) (by decide)).1,
   escape_digit_ends_session.2 asterisk_env plain_session
     [{ name := lit "default", root := [al_smith] }] 0 (lit "o") 48
     (world_of [0, 48, 0] []) world_zero_pressed (by decide) (by decide) (by decide!)
     (by decide) (by decide!) (by decide) (by decide) (by decide!)⟩

/-! ### The scan of `convert` ends at a space -/

theorem convert_loop_cut (pre : CStr) (c : Int) (post : CStr) (h : c ≤ 32) :
    ∀ tmp, convert_loop (pre ++ c :: post) tmp = convert_loop pre tmp := by
  induction pre with
  | nil =>
    intro tmp
    have : ¬ (32 < c ∧ tmp.length < NUMDIGITS) := by omega
    simp [convert_loop, this]
  | cons a pre ih =>
    intro tmp
    rw [List.cons_append]
    simp only [convert_loop, ih]

theorem convert_loop_takeWhile (name : CStr) :
    ∀ tmp, convert_loop name tmp =
      convert_loop (name.takeWhile (fun c => decide (32 < c))) tmp := by
  induction name with
  | nil => intro tmp; rfl
  | cons a rest ih =>
    intro tmp
    by_cases ha : 32 < a
    · rw [List.takeWhile_cons_of_pos (by simpa using ha)]
      simp only [convert_loop]
      split_ifs
      · cases convert_switch (toupper a) with
        | none => exact ih tmp
        | some d => exact ih _
      · rfl
    · rw [List.takeWhile_cons_of_neg (by simpa using ha)]
      have : ¬ (32 < a ∧ tmp.length < NUMDIGITS) := by tauto
      simp [convert_loop, this]

/-- C19. For every name, `convert` ignores everything from the first
character with ordinal value at most 32 onward, also when fewer than 3 digits
have been produced: the code of the name is the code of the part before that
character; `"Al Smith"` encodes to `"25"`. -/
theorem convert_stops_at_space :
    (∀ name : CStr, convert name = convert (name.takeWhile (fun c => decide (32 < c)))) ∧
    (∀ (pre : CStr) (c : Int) (post : CStr), c ≤ 32 → convert (pre ++ c :: post) = convert pre) ∧
    convert (lit "Al Smith") = lit "25" ∧ convert (lit "Al Smith") = convert (lit "Al") :=
  ⟨fun name => convert_loop_takeWhile name [],
   fun pre c post h => convert_loop_cut pre c post h [], by decide, by decide⟩

/-- Witness of C19 at the name `"Al Smith"`, cut at its space. -/
theorem convert_stops_at_space_witness :
    (32 : Int) ≤ 32 ∧ convert (lit "Al" ++ 32 :: lit "Smith") = convert (lit "Al") :=
  ⟨by decide, convert_stops_at_space.2.1 (lit "Al") 32 (lit "Smith") (by decide)⟩

/-! ### The directory assembly -/

theorem tolower_zero : tolower 0 = 0 := by decide

theorem strcasecmp_self (s : CStr) : strcasecmp s s = 0 := by
  induction s with
  | nil => simp [strcasecmp, tolower_zero]
  | cons x a ih => simp [strcasecmp, ih]

theorem browse_cons_pos (context : CStr) (cat : ast_category) (rest : ast_config)
    (h : category_named context cat = true) :
    ast_variable_browse (cat :: rest) context = cat.root := by
  simp [ast_variable_browse, ast_category_get, List.find?_cons, h]

theorem browse_cons_neg (context : CStr) (cat : ast_category) (rest : ast_config)
    (h : category_named context cat = false) :
    ast_variable_browse (cat :: rest) context = ast_variable_browse rest context := by
  simp [ast_variable_browse, ast_category_get, List.find?_cons, h]

theorem findIdx_cons_pos (context : CStr) (cat : ast_category) (rest : ast_config)
    (h : category_named context cat = true) :
    (cat :: rest).findIdx (category_named context) = 0 := by
  simp only [List.findIdx_cons, h, cond_true]

theorem findIdx_cons_neg (context : CStr) (cat : ast_category) (rest : ast_config)
    (h : category_named context cat = false) :
    (cat :: rest).findIdx (category_named context) =
      rest.findIdx (category_named context) + 1 := by
  simp only [List.findIdx_cons, h, cond_false]

theorem append_at_length (cfg : ast_config) : ∀ (i : Nat) (v : ast_variable),
    (append_at cfg i v).length = cfg.length := by
  induction cfg with
  | nil => intro i v; rfl
  | cons cat rest ih =>
    intro i v
    cases i with
    | zero => simp [append_at]
    | succ i => simp [append_at, ih]

theorem append_at_findIdx (context : CStr) (cfg : ast_config) :
    ∀ (i : Nat) (v : ast_variable),
      (append_at cfg i v).findIdx (category_named context) =
        cfg.findIdx (category_named context) := by
  induction cfg with
  | nil => intro i v; rfl
  | cons cat rest ih =>
    intro i v
    cases i with
    | zero => simp only [append_at, List.findIdx_cons, category_named]
    | succ i => simp only [append_at, List.findIdx_cons, ih]

theorem append_at_browse (context : CStr) (v : ast_variable) (cfg : ast_config) :
    cfg.findIdx (category_named context) < cfg.length →
    ast_variable_browse (append_at cfg (cfg.findIdx (category_named context)) v) context =
      ast_variable_browse cfg context ++ [v] := by
  induction cfg with
  | nil => intro h; exact absurd h (by simp)
  | cons cat rest ih =>
    intro h
    cases hp : category_named context cat with
    | true =>
      rw [findIdx_cons_pos context cat rest hp, browse_cons_pos context cat rest hp]
      exact browse_cons_pos context _ rest (by simpa [category_named] using hp)
    | false =>
      rw [findIdx_cons_neg context cat rest hp] at h ⊢
      have hlt : rest.findIdx (category_named context) < rest.length := by
        rw [List.length_cons] at h; omega
      rw [browse_cons_neg context cat rest hp]
      show ast_variable_browse (cat :: append_at rest _ v) context = _
      rw [browse_cons_neg context cat _ hp]
      exact ih hlt

theorem append_fold_browse (context : CStr) (i : Nat) (rt : List ast_category) :
    ∀ cfg : ast_config,
      cfg.findIdx (category_named context) = i → i < cfg.length →
      ast_variable_browse
          (rt.foldl (fun c mailbox => append_at c i (realtime_variable mailbox)) cfg) context =
        ast_variable_browse cfg context ++ rt.map realtime_variable := by
  induction rt with
  | nil => intro cfg _ _; simp
  | cons m rt ih =>
    intro cfg hi hlt
    simp only [List.foldl_cons, List.map_cons]
    rw [ih (append_at cfg i (realtime_variable m))
      (by rw [append_at_findIdx]; exact hi) (by rw [append_at_length]; exact hlt)]
    subst hi
    rw [append_at_browse context (realtime_variable m) cfg hlt]
    simp

theorem receiving_category (context : CStr) (cfg : ast_config) :
    (if cfg.findIdx (category_named context) < cfg.length then cfg
      else cfg ++ [ast_category_new context]).findIdx (category_named context) =
      cfg.findIdx (category_named context) ∧
    cfg.findIdx (category_named context) <
      (if cfg.findIdx (category_named context) < cfg.length then cfg
        else cfg ++ [ast_category_new context]).length ∧
    ast_variable_browse
      (if cfg.findIdx (category_named context) < cfg.length then cfg
        else cfg ++ [ast_category_new context]) context = ast_variable_browse cfg context := by
  have hnew : category_named context (ast_category_new context) = true := by
    simp [category_named, ast_category_new, strcasecmp_self]
  induction cfg with
  | nil =>
    have h0 : ¬ (([] : ast_config).findIdx (category_named context) < ([] : ast_config).length) := by
      simp
    rw [if_neg h0]
    refine ⟨?_, ?_, ?_⟩
    · rw [List.nil_append, findIdx_cons_pos context _ _ hnew]; rfl
    · simp
    · rw [List.nil_append, browse_cons_pos context _ _ hnew]; rfl
  | cons cat rest ih =>
    cases hp : category_named context cat with
    | true =>
      have h0 : (cat :: rest).findIdx (category_named context) < (cat :: rest).length := by
        rw [findIdx_cons_pos context cat rest hp]; simp
      rw [if_pos h0]
      exact ⟨rfl, h0, rfl⟩
    | false =>
      obtain ⟨h1, h2, h3⟩ := ih
      rw [findIdx_cons_neg context cat rest hp]
      by_cases hlt : rest.findIdx (category_named context) < rest.length
      · have h0 : rest.findIdx (category_named context) + 1 < (cat :: rest).length := by
          rw [List.length_cons]; omega
        rw [if_pos h0]
        exact ⟨findIdx_cons_neg context cat rest hp, h0, rfl⟩
      · have h0 : ¬ (rest.findIdx (category_named context) + 1 < (cat :: rest).length) := by
          rw [List.length_cons]; omega
        rw [if_neg h0]
        rw [if_neg hlt] at h1 h2 h3
        rw [List.cons_append]
        refine ⟨?_, ?_, ?_⟩
        · rw [findIdx_cons_neg context cat _ hp, h1]
        · rw [List.length_cons]; omega
        · rw [browse_cons_neg context cat _ hp, browse_cons_neg context cat _ hp, h3]

theorem realtime_directory_browse (cfg rt : ast_config) (context : CStr) :
    ∃ cfg1, realtime_directory (some cfg) (some rt) context = some cfg1 ∧
      ast_variable_browse cfg1 context =
        ast_variable_browse cfg context ++ rt.map realtime_variable := by
  obtain ⟨h1, h2, h3⟩ := receiving_category context cfg
  refine ⟨_, rfl, ?_⟩
  rw [append_fold_browse context _ rt _ h1 h2, h3]

/-- C12. For every primary listing and every overlay feed, the entries that
`realtime_directory` assembles for the context are the entries of the primary
listing, unchanged and in their order, followed by the entries built from the
overlay records in feed order; without overlay data the configuration is
returned as loaded. No primary entry is replaced, moved or removed, also when
an overlay record has the same extension. -/
theorem realtime_directory_order :
    (∀ (cfg : ast_config) (context : CStr),
      realtime_directory (some cfg) none context = some cfg) ∧
    (∀ (cfg rt : ast_config) (context : CStr),
      ∃ cfg1, realtime_directory (some cfg) (some rt) context = some cfg1 ∧
        ast_variable_browse cfg1 context =
          ast_variable_browse cfg context ++ rt.map realtime_variable) ∧
    (∃ cfg1, realtime_directory (some one_primary) (some one_overlay) (lit "default") =
        some cfg1 ∧
      ast_variable_browse cfg1 (lit "default") =
        [al_smith, { name := lit "100", value := lit "no-password,Al Smith,hidefromdir=no" }]) :=
  ⟨fun _ _ => rfl, realtime_directory_browse, ⟨_, rfl, by decide⟩⟩

/-- C11, as stated, fails: the primary listing has the entry `100` and the
overlay has a record for mailbox `100`; the assembled directory has two
entries under `100`, the second one built from the overlay record. -/
theorem realtime_directory_duplicate_counterexample :
    (∃ v ∈ ast_variable_browse one_primary (lit "default"), v.name = lit "100") ∧
    (one_overlay.map (fun mailbox => mailbox.name)) = [lit "100"] ∧
    ((realtime_directory (some one_primary) (some one_overlay) (lit "default")).map
        (fun cfg => ast_variable_browse cfg (lit "default"))) =
      some [al_smith,
        { name := lit "100", value := lit "no-password,Al Smith,hidefromdir=no" }] :=
  ⟨⟨al_smith, by decide, by decide⟩, by decide, by decide⟩

/-- C11, amended. `realtime_directory` appends one entry for every overlay
record, whether or not the primary listing has an entry under that record's
extension: the number of entries of the context grows by the number of
overlay records, and the entry built from each record is in the assembled
directory. -/
theorem realtime_directory_appends_all (cfg rt cfg1 : ast_config) (context : CStr)
    (h : realtime_directory (some cfg) (some rt) context = some cfg1) :
    (ast_variable_browse cfg1 context).length =
      (ast_variable_browse cfg context).length + rt.length ∧
    ∀ mailbox ∈ rt, realtime_variable mailbox ∈ ast_variable_browse cfg1 context := by
  obtain ⟨cfg2, h2, hb⟩ := realtime_directory_browse cfg rt context
  rw [h] at h2
  cases h2
  rw [hb]
  refine ⟨by simp, ?_⟩
  intro mailbox hm
  exact List.mem_append_right _ (List.mem_map_of_mem _ hm)

/-- Witness of the amended C11: one primary entry `100` and one overlay
record `100` give two entries. -/
theorem realtime_directory_appends_all_witness :
    (ast_variable_browse one_assembled (lit "default")).length =
      (ast_variable_browse one_primary (lit "default")).length + one_overlay.length :=
  (realtime_directory_appends_all one_primary one_overlay one_assembled (lit "default")
    (by decide)).1

/-! ### Hidden overlay records -/

theorem startsWithNoCase_split (a b : CStr) : ∀ l : CStr,
    startsWithNoCase (a ++ b) l =
      (startsWithNoCase a l && startsWithNoCase b (l.drop a.length)) := by
  induction a with
  | nil => intro l; simp [startsWithNoCase]
  | cons x a ih =>
    intro l
    cases l with
    | nil => simp [startsWithNoCase]
    | cons y l => simp [startsWithNoCase, ih l, Bool.and_assoc]

theorem startsWithNoCase_take (n : CStr) : ∀ (m : Nat) (l : CStr),
    startsWithNoCase n (l.take m) = (decide (n.length ≤ m) && startsWithNoCase n l) := by
  induction n with
  | nil => intro m l; simp [startsWithNoCase]
  | cons x n ih =>
    intro m l
    cases m with
    | zero => simp [startsWithNoCase]
    | succ m =>
      cases l with
      | nil => simp [startsWithNoCase]
      | cons y l =>
        simp only [List.take_succ_cons, startsWithNoCase, ih m l, List.length_cons,
          Nat.add_le_add_iff_right]
        cases decide (n.length ≤ m) <;> simp

theorem strcasestr_isSome_iff (n : CStr) (hn : n ≠ []) : ∀ hay : CStr,
    (strcasestr hay n).isSome = true ↔ ∃ s, startsWithNoCase n (hay.drop s) = true := by
  intro hay
  induction hay with
  | nil =>
    cases n with
    | nil => exact absurd rfl hn
    | cons x n => simp [strcasestr, startsWithNoCase]
  | cons y hay ih =>
    simp only [strcasestr]
    constructor
    · intro h
      split_ifs at h with h0
      · exact ⟨0, h0⟩
      · obtain ⟨s, hs⟩ := ih.1 h
        exact ⟨s + 1, hs⟩
    · rintro ⟨s, hs⟩
      split_ifs with h0
      · rfl
      · cases s with
        | zero => exact absurd hs h0
        | succ s => exact ih.2 ⟨s, hs⟩

theorem tolower_eq_equals (c : Int) (h : tolower 61 = tolower c) : c = 61 := by
  have h61 : tolower 61 = 61 := by decide
  rw [h61] at h
  unfold tolower at h
  split_ifs at h <;> omega

theorem startsWithNoCase_equals (l : CStr) (h : startsWithNoCase [61] l = true) :
    l[0]? = some 61 := by
  cases l with
  | nil => simp [startsWithNoCase] at h
  | cons y l =>
    simp only [startsWithNoCase, Bool.and_true, beq_iff_eq] at h
    simp [tolower_eq_equals y h]

theorem equals_position (A h : CStr) (hA : (61 : Int) ∉ A) (hh : (61 : Int) ∉ h) (j : Nat)
    (hj : (A ++ (lit "hidefromdir=" ++ h))[j]? = some 61) : j = A.length + 11 := by
  by_cases h1 : j < A.length
  · rw [List.getElem?_append_left h1] at hj
    exact absurd (List.getElem?_mem hj) hA
  · rw [List.getElem?_append_right (by omega)] at hj
    have hK : (lit "hidefromdir=").length = 12 := by decide
    by_cases h2 : j - A.length < 12
    · rw [List.getElem?_append_left (by omega)] at hj
      have h3 : j - A.length = 11 := by
        generalize j - A.length = k at h2 hj
        interval_cases k <;> first | rfl | (exact absurd hj (by decide))
      omega
    · rw [List.getElem?_append_right (by omega)] at hj
      exact absurd (List.getElem?_mem hj) hh

theorem overlay_hidden_iff (fn h : CStr) (hfn : (61 : Int) ∉ fn) (hh : (61 : Int) ∉ h) :
    hidefromdir (snprintf 100 (lit "no-password," ++ fn ++ lit ",hidefromdir=" ++ h)) = true ↔
      fn.length ≤ 71 ∧ startsWithNoCase (lit "yes") h = true := by
  have hsplit : lit "no-password," ++ fn ++ lit ",hidefromdir=" ++ h =
      (lit "no-password," ++ fn ++ [44]) ++ (lit "hidefromdir=" ++ h) := by
    have : lit ",hidefromdir=" = [44] ++ lit "hidefromdir=" := by decide
    rw [this]
    simp only [List.append_assoc]
  have hA : (61 : Int) ∉ lit "no-password," ++ fn ++ [44] := by
    have : (61 : Int) ∉ lit "no-password," := by decide
    simp [this, hfn]
  have hlen : (lit "no-password," ++ fn ++ [44]).length = fn.length + 13 := by
    have : (lit "no-password,").length = 12 := by decide
    simp [this]; omega
  have hK : (lit "hidefromdir=").length = 12 := by decide
  have hN : lit "hidefromdir=yes" = lit "hidefromdir=" ++ lit "yes" := by decide
  have hK1 : lit "hidefromdir=" = lit "hidefromdir" ++ [61] := by decide
  have hK1len : (lit "hidefromdir").length = 11 := by decide
  have hY : (lit "yes").length = 3 := by decide
  unfold hidefromdir snprintf
  rw [hsplit, strcasestr_isSome_iff _ (by decide)]
  generalize hAdef : lit "no-password," ++ fn ++ [44] = A at hA hlen
  constructor
  · rintro ⟨s, hs⟩
    rw [hN, startsWithNoCase_split, Bool.and_eq_true] at hs
    obtain ⟨hs1, hs2⟩ := hs
    rw [hK1, startsWithNoCase_split, Bool.and_eq_true] at hs1
    have h61 := startsWithNoCase_equals _ hs1.2
    rw [hK1len, List.getElem?_drop, List.getElem?_drop, List.getElem?_take] at h61
    split_ifs at h61 with hlt
    have hpos := equals_position A h hA hh _ h61
    have hsA : s = A.length := by omega
    subst hsA
    rw [hK, List.drop_drop, List.drop_take, List.drop_append, ← hK, List.drop_left,
      startsWithNoCase_take, Bool.and_eq_true, decide_eq_true_eq, hY, hK] at hs2
    exact ⟨by omega, hs2.2⟩
  · rintro ⟨hlen71, hyes⟩
    refine ⟨A.length, ?_⟩
    rw [List.drop_take, List.drop_left, startsWithNoCase_take, hN, startsWithNoCase_split,
      startsWithNoCase_append, List.drop_left, hyes]
    have : (lit "hidefromdir=" ++ lit "yes").length = 15 := by decide
    simp [this]
    omega

/-- The text that `snprintf` writes into `tmp[100]` is cut at 99 characters:
for a record with hidden value `yes` whose full name has 72 characters the
flag text loses its last character, and the entry passes the hidden test. -/
theorem realtime_variable_truncated :
    category_variable overlay_long (lit "hidefromdir") = some (lit "yes") ∧
    (realtime_variable overlay_long).value.length = 99 ∧
    hidefromdir (realtime_variable overlay_long).value = false := by
  refine ⟨?_, ?_, ?_⟩ <;> decide!

/-- C13, as stated, fails: a record whose hidden value is `YES`, not `yes`,
gives an entry that the hidden test excludes, so that it is no candidate in
either mode for the digits `566` of its name `Bo Jones`. -/
theorem overlay_hidden_counterexample :
    category_variable overlay_upper (lit "hidefromdir") ≠ some (lit "yes") ∧
    hidefromdir (realtime_variable overlay_upper).value = true ∧
    sequential_match (flags_fm false false) (lit "566") (lit "Bo Jones") = true ∧
    sequential_candidate (flags_fm false false) (lit "566")
      (realtime_variable overlay_upper) = false ∧
    menu_match (flags_fm true true) (lit "566") (lit "Bo Jones") = true ∧
    menu_candidate asterisk_env (flags_fm true true) (lit "566")
      (realtime_variable overlay_upper) = false := by
  refine ⟨?_, ?_, ?_, ?_, ?_, ?_⟩ <;> decide!

/-- C13, amended. For every overlay record whose full name and hidden value
contain no `=` character and whose full name has at most 71 characters (the
flag text `,hidefromdir=yes` then lies within the 99 characters that
`tmp[100]` holds), the entry that `realtime_directory` builds from it fails
the hidden test of `do_directory` (and is then no candidate in either mode) if
and only if the hidden value begins with `yes`, in any letter case; otherwise
the hidden test lets the entry through to the match test. An absent hidden
value counts as `no`. -/
theorem overlay_hidden_rule (mailbox : ast_category)
    (hfn : (61 : Int) ∉ (category_variable mailbox (lit "fullname")).getD [])
    (hh : (61 : Int) ∉ (category_variable mailbox (lit "hidefromdir")).getD (lit "no"))
    (hlen : ((category_variable mailbox (lit "fullname")).getD []).length ≤ 71) :
    (hidefromdir (realtime_variable mailbox).value = true ↔
      startsWithNoCase (lit "yes")
        ((category_variable mailbox (lit "hidefromdir")).getD (lit "no")) = true) ∧
    (hidefromdir (realtime_variable mailbox).value = true →
      ∀ (env : Env) (flags : ast_flags) (d : CStr),
        sequential_candidate flags d (realtime_variable mailbox) = false ∧
        menu_candidate env flags d (realtime_variable mailbox) = false) ∧
    (hidefromdir (realtime_variable mailbox).value = false →
      ∀ (env : Env) (flags : ast_flags) (d : CStr),
        sequential_candidate flags d (realtime_variable mailbox) =
          (match name_field (realtime_variable mailbox).value with
            | some pos => sequential_match flags d pos
            | none => false) ∧
        menu_candidate env flags d (realtime_variable mailbox) =
          (match name_field (menu_buf env (realtime_variable mailbox)) with
            | some pos => menu_match flags d pos
            | none => false)) := by
  refine ⟨(overlay_hidden_iff _ _ hfn hh).trans ⟨fun h => h.2, fun h => ⟨hlen, h⟩⟩, ?_, ?_⟩
  · intro h env flags d
    exact ⟨by simp [sequential_candidate, h], by simp [menu_candidate, h]⟩
  · intro h env flags d
    exact ⟨by simp [sequential_candidate, h], by simp [menu_candidate, h]⟩

/-- Witness of the amended C13 at a record with hidden value `yes`. -/
theorem overlay_hidden_rule_witness :
    (61 : Int) ∉ (category_variable overlay_hidden (lit "fullname")).getD [] ∧
    (61 : Int) ∉ (category_variable overlay_hidden (lit "hidefromdir")).getD (lit "no") ∧
    ((category_variable overlay_hidden (lit "fullname")).getD []).length ≤ 71 ∧
    (hidefromdir (realtime_variable overlay_hidden).value = true ↔
      startsWithNoCase (lit "yes")
        ((category_variable overlay_hidden (lit "hidefromdir")).getD (lit "no")) = true) :=
  ⟨by decide, by decide, by decide,
    (overlay_hidden_rule overlay_hidden (by decide) (by decide) (by decide)).1⟩

/-! ### The secondary listing -/

/-- C14 (defect in the loops over `users.conf`). The sequential loop over
`users.conf` compares with `strcmp`, an exact match, where the loop over the
primary listing uses a prefix match, and both `users.conf` loops test option
`f` the other way round than the primary loop of the same mode. So in
sequential mode without `f`, the digits `"76"` present the primary entry
`Smith` and not the `users.conf` entry `Smith`, and the digits `"764"` present
the primary entry `John Smith` and not the `users.conf` entry `John Smith`. -/
theorem users_rule_differs :
    (∀ (f m : Bool) (pos : CStr),
      users_sequential_key (flags_fm f m) pos = (if f then after_last_space pos else pos) ∧
      sequential_key (flags_fm f m) pos = (if f then pos else after_last_space pos) ∧
      users_menu_key (flags_fm f m) pos = (if f then pos else after_last_space pos) ∧
      menu_key (flags_fm f m) pos = (if f then after_last_space pos else pos)) ∧
    sequential_candidate (flags_fm false false) (lit "76")
      { name := lit "200", value := lit "secret,Smith" } = true ∧
    ((primary_sequential_loop asterisk_env (lit "default") (lit "default") (flags_fm false false)
        (lit "76") [{ name := lit "200", value := lit "secret,Smith" }] locals_start
        (world_of [] [])).calls.head?) =
      some (Call.get_mailbox_response (lit "200") (lit "Smith")) ∧
    (users_sequential_loop asterisk_env (lit "default") (lit "default") (flags_fm false false)
        (lit "76") [user_smith] locals_start (world_of [] [])).calls = [] ∧
    sequential_candidate (flags_fm false false) (lit "764")
      { name := lit "201", value := lit "secret,John Smith" } = true ∧
    (users_sequential_loop asterisk_env (lit "default") (lit "default") (flags_fm false false)
        (lit "764") [user_john_smith] locals_start (world_of [] [])).calls = [] := by
  refine ⟨?_, by decide, by decide!, by decide!, by decide, by decide!⟩
  intro f m pos
  cases f <;> cases h : strrchr pos 32 <;>
    simp [users_sequential_key, sequential_key, users_menu_key, menu_key, flags_fm,
      after_last_space, h]

/-! ### The value that the session returns -/

theorem directory_exec_loop_not_positive (env : Env) (cfg : ast_config)
    (ucfg : Option (List user_category)) (vmcontext dialcontext dirintro : CStr)
    (flags : ast_flags) (fuel : Nat) :
    ∀ (res : Int) (w : World) (r : Int) (w1 : World),
      directory_exec_loop env cfg ucfg vmcontext dialcontext dirintro flags fuel res w =
        Outcome.ok (some r) w1 → r ≤ 0 := by
  induction fuel with
  | zero =>
    intro res w r w1 h
    simp [directory_exec_loop, pure_run] at h
  | succ fuel ih =>
    intro res w r w1 h
    rw [directory_exec_loop, bind_run] at h
    cases hd : directory_exec_digit dirintro res w with
    | fault e wd => rw [hd] at h; cases h
    | ok r1 wd =>
      rw [hd] at h
      simp only at h
      split_ifs at h with hpos
      · rw [bind_run] at h
        cases hdo : do_directory env cfg ucfg vmcontext dialcontext (to_char r1) flags wd with
        | fault e w2 => rw [hdo] at h; cases h
        | ok r2 w2 =>
          rw [hdo] at h
          simp only at h
          split_ifs at h with hpos2
          · rw [bind_run, call_run] at h
            simp only at h
            rw [bind_run, note_run] at h
            simp only at h
            split_ifs at h with hge
            · exact ih _ _ r w1 h
            · rw [pure_run] at h
              cases h
              omega
          · rw [pure_run] at h
            cases h
            omega
      · rw [pure_run] at h
        cases h
        omega

/-- C15. Whenever `directory_exec` returns, the value it returns is negative
or zero, never positive: a positive result of `do_directory` only makes the
session loop go round again. -/
theorem directory_exec_never_positive (env : Env) (inp : exec_input) (fuel : Nat)
    (w w1 : World) (r : Int)
    (h : directory_exec env inp fuel w = Outcome.ok (some r) w1) : r ≤ 0 := by
  unfold directory_exec at h
  split_ifs at h with h1 h2
  · rw [pure_run] at h; cases h; decide
  · rw [pure_run] at h; cases h; decide
  · cases hcfg : realtime_directory inp.voicemail_conf inp.realtime inp.vmcontext with
    | none => rw [hcfg] at h; simp only at h; rw [pure_run] at h; cases h; decide
    | some cfg =>
      rw [hcfg] at h
      simp only at h
      rw [bind_run] at h
      cases ha : directory_exec_answer w with
      | fault e wa => rw [ha] at h; cases h
      | ok res wa =>
        rw [ha] at h
        exact directory_exec_loop_not_positive _ _ _ _ _ _ _ _ _ _ r w1 h

/-- Witness of C15: a session in which nobody presses a key returns 0. -/
theorem directory_exec_never_positive_witness :
    directory_exec asterisk_env plain_session 1 (world_of [] []) =
      Outcome.ok (some 0) world_silent_end ∧ (0 : Int) ≤ 0 :=
  ⟨by decide!,
   directory_exec_never_positive asterisk_env plain_session 1 (world_of [] [])
     world_silent_end 0 (by decide!)⟩

/-! ### Pieces of the program that enter no presenter -/

theorem yields_pure {α : Type} (Q : α → Prop) (a : α) (h : Q a) : yields Q (pure a : M α) :=
  fun w => ⟨a, w, rfl, h, rfl⟩

theorem yields_call (c : Call) (hc : is_entry c = false) : yields (fun _ => True) (call c) :=
  fun w => ⟨_, _, call_run c w, trivial, by simp [hc]⟩

theorem yields_note (c : Call) (hc : is_entry c = false) : yields (fun _ => True) (note c) :=
  fun w => ⟨_, _, note_run c w, trivial, by simp [hc]⟩

theorem yields_bind {α β : Type} (Q : α → Prop) (R : β → Prop) (m : M α) (f : α → M β)
    (hm : yields Q m) (hf : ∀ a, Q a → yields R (f a)) : yields R (m >>= f) := by
  intro w
  obtain ⟨a, w1, h1, q1, t1⟩ := hm w
  obtain ⟨b, w2, h2, q2, t2⟩ := hf a q1 w1
  exact ⟨b, w2, by rw [bind_run_ok m f w w1 a h1, h2], q2, t2.trans t1⟩

theorem yields_ite {α : Type} (Q : α → Prop) (c : Prop) [Decidable c] (m n : M α)
    (hm : yields Q m) (hn : yields Q n) : yields Q (if c then m else n) := by
  split_ifs <;> assumption

theorem yields_weaken {α : Type} (Q R : α → Prop) (m : M α) (hm : yields Q m)
    (h : ∀ a, Q a → R a) : yields R m := by
  intro w
  obtain ⟨a, w1, h1, q1, t1⟩ := hm w
  exact ⟨a, w1, h1, h a q1, t1⟩

theorem yields_set_exten (env : Env) (ext : CStr) : yields (fun _ => True) (set_exten env ext) :=
  fun _ => ⟨(), _, rfl, trivial, rfl⟩

theorem play_mailbox_owner_yields (env : Env) (context ext name : CStr) (flags : ast_flags) :
    yields (fun _ => True) (play_mailbox_owner env context ext name flags) := by
  unfold play_mailbox_owner
  refine yields_bind _ _ _ _ (yields_call _ (by rfl)) (fun e1 _ => ?_)
  refine yields_bind _ _ _ _ (yields_call _ (by rfl)) (fun e2 _ => ?_)
  refine yields_ite _ _ _ _ ?_ ?_
  · refine yields_bind _ _ _ _ (yields_call _ (by rfl)) (fun res _ => ?_)
    refine yields_bind _ _ _ _ (yields_note _ (by rfl)) (fun _ _ => ?_)
    refine yields_ite _ _ _ _ ?_ (yields_pure _ _ trivial)
    exact yields_bind _ _ _ _ (yields_call _ (by rfl)) (fun _ _ => yields_call _ (by rfl))
  · refine yields_bind _ _ _ _ (yields_call _ (by rfl)) (fun res _ => ?_)
    refine yields_ite _ _ _ _ ?_ (yields_pure _ _ trivial)
    exact yields_bind _ _ _ _ (yields_call _ (by rfl)) (fun _ _ => yields_call _ (by rfl))

theorem get_mailbox_response_attempt_yields (res : Int) :
    yields (fun _ => True) (get_mailbox_response_attempt res) := by
  unfold get_mailbox_response_attempt
  refine yields_bind (fun _ => True) _ _ _ ?_ (fun r _ => ?_)
  · exact yields_ite _ _ _ _ (yields_call _ (by rfl)) (yields_pure _ _ trivial)
  refine yields_bind (fun _ => True) _ _ _ ?_ (fun r2 _ => ?_)
  · exact yields_ite _ _ _ _ (yields_call _ (by rfl)) (yields_pure _ _ trivial)
  exact yields_bind _ _ _ _ (yields_note _ (by rfl)) (fun _ _ => yields_pure _ _ trivial)

theorem get_mailbox_response_loop_yields (env : Env) (dialcontext ext : CStr)
    (flags : ast_flags) (n : Nat) :
    ∀ res : Int, yields (fun _ => True)
      (get_mailbox_response_loop env dialcontext ext flags n res) := by
  induction n with
  | zero => intro res; exact yields_pure _ _ trivial
  | succ n ih =>
    intro res
    rw [get_mailbox_response_loop]
    refine yields_bind _ _ _ _ (get_mailbox_response_attempt_yields res) (fun r _ => ?_)
    refine yields_ite _ _ _ _ (yields_pure _ _ trivial) ?_
    refine yields_ite _ _ _ _ ?_ ?_
    · split_ifs
      · exact yields_bind _ _ _ _ (yields_set_exten env ext) (fun _ _ => yields_pure _ _ trivial)
      · refine yields_bind _ _ _ _ (yields_call _ (by rfl)) (fun g _ => ?_)
        exact yields_ite _ _ _ _ (yields_pure _ _ trivial) (yields_pure _ _ trivial)
    · exact yields_ite _ _ _ _ (yields_pure _ _ trivial) (ih 0)

theorem get_mailbox_response_run (env : Env) (context dialcontext ext name : CStr)
    (flags : ast_flags) (w : World) :
    ∃ r w1, get_mailbox_response env context dialcontext ext name flags w = Outcome.ok r w1 ∧
      w1.trace.filter is_entry =
        w.trace.filter is_entry ++ [Call.get_mailbox_response ext name] := by
  have h : yields (fun _ => True)
      (play_mailbox_owner env context ext name flags >>= fun res =>
        get_mailbox_response_loop env dialcontext ext flags 3 res) :=
    yields_bind _ _ _ _ (play_mailbox_owner_yields env context ext name flags)
      (fun res _ => get_mailbox_response_loop_yields env dialcontext ext flags 3 res)
  obtain ⟨r, w1, h1, _, t1⟩ := h (entered ext name w)
  refine ⟨r, w1, ?_, ?_⟩
  · unfold get_mailbox_response
    rw [bind_run, note_run]
    exact h1
  · rw [t1]
    simp [entered, is_entry]

/-! ### The order of presentation in sequential mode -/

theorem sequential_switch_res (st : locals) (r : Int) :
    (sequential_switch st r).res ≠ 0 ↔ ¬ (r = 0 ∨ r = 42) := by
  unfold sequential_switch
  split_ifs <;> simp <;> omega

theorem sequential_candidate_name (flags : ast_flags) (d : CStr) (v : ast_variable)
    (h : sequential_candidate flags d v = true) :
    name_field v.value = some ((name_field v.value).getD []) := by
  unfold sequential_candidate at h
  cases hp : name_field v.value with
  | none => simp [hp] at h
  | some pos => rfl

theorem sequential_presented_calls (env : Env) (context dialcontext : CStr) (flags : ast_flags)
    (d : CStr) (listing : List ast_variable) :
    ∀ (st : locals) (w : World),
      (primary_sequential_loop env context dialcontext flags d listing st w).calls.filter
          is_entry =
        w.trace.filter is_entry ++
          (sequential_presented env context dialcontext flags d listing w).map presentation := by
  induction listing with
  | nil => intro st w; simp [primary_sequential_loop, pure_run, Outcome.calls, sequential_presented]
  | cons v rest ih =>
    intro st w
    cases hc : sequential_candidate flags d v with
    | false =>
      obtain ⟨st1, _, _, _, h1⟩ :=
        primary_sequential_loop_pass env context dialcontext flags d v rest st hc
      rw [h1, ih st1 w]
      simp [sequential_presented, hc]
    | true =>
      have hname := sequential_candidate_name flags d v hc
      rw [primary_sequential_loop_present env context dialcontext flags d v _ rest st hc hname]
      obtain ⟨r, w1, hr, ht⟩ := get_mailbox_response_run env context dialcontext v.name
        (ast_copy_string ((name_field v.value).getD []) 80) flags w
      rw [bind_run_ok _ _ w w1 r hr]
      simp only [sequential_presented, hc, if_true, hr]
      by_cases hz : r = 0 ∨ r = 42
      · rw [if_neg (by rw [sequential_switch_res]; exact not_not.2 hz), if_pos hz, ih _ w1, ht]
        simp [presentation]
      · rw [if_pos (by rw [sequential_switch_res]; exact hz), if_neg hz]
        simp [pure_run, Outcome.calls, ht, presentation]

theorem sequential_presented_candidates (env : Env) (context dialcontext : CStr)
    (flags : ast_flags) (d : CStr) (listing : List ast_variable) :
    ∀ w : World, ∃ k : Nat,
      sequential_presented env context dialcontext flags d listing w =
        (listing.filter (sequential_candidate flags d)).take k := by
  induction listing with
  | nil => intro w; exact ⟨0, rfl⟩
  | cons v rest ih =>
    intro w
    cases hc : sequential_candidate flags d v with
    | false =>
      obtain ⟨k, hk⟩ := ih w
      exact ⟨k, by simp [sequential_presented, hc, hk]⟩
    | true =>
      simp only [sequential_presented, hc, if_true, List.filter_cons_of_pos]
      cases get_mailbox_response env context dialcontext v.name
          (ast_copy_string ((name_field v.value).getD []) 80) flags w with
      | fault e w1 => exact ⟨1, by simp⟩
      | ok r w1 =>
        by_cases hz : r = 0 ∨ r = 42
        · obtain ⟨k, hk⟩ := ih w1
          exact ⟨k + 1, by simp [hz, hk]⟩
        · exact ⟨1, by simp [hz]⟩

/-- C18. In sequential mode over the primary listing, the entries into
`get_mailbox_response` that the loop adds to the trace are, in this order,
the presentations of the entries of `sequential_presented`: the non-hidden
entries with a name field whose code starts with the digits, in listing
order, each once, up to and including the first whose response is neither
`'*'` nor 0; these are an initial part of the list of all candidates, and no
entry after that one is presented. -/
theorem sequential_presentation_order (env : Env) (context dialcontext : CStr)
    (flags : ast_flags) (d : CStr) (listing : List ast_variable) (st : locals) (w : World) :
    (primary_sequential_loop env context dialcontext flags d listing st w).calls.filter
        is_entry =
      w.trace.filter is_entry ++
        (sequential_presented env context dialcontext flags d listing w).map presentation ∧
    (∃ k : Nat, sequential_presented env context dialcontext flags d listing w =
      (listing.filter (sequential_candidate flags d)).take k) ∧
    (∀ v ∈ sequential_presented env context dialcontext flags d listing w,
      v ∈ listing ∧ hidefromdir v.value = false ∧ (name_field v.value).isSome = true ∧
      sequential_candidate flags d v = true) := by
  refine ⟨sequential_presented_calls env context dialcontext flags d listing st w,
    sequential_presented_candidates env context dialcontext flags d listing w, ?_⟩
  obtain ⟨k, hk⟩ := sequential_presented_candidates env context dialcontext flags d listing w
  intro v hv
  rw [hk] at hv
  have hmem := List.mem_filter.1 (List.mem_of_mem_take hv)
  refine ⟨hmem.1, ?_, ?_, hmem.2⟩
  · have := hmem.2
    unfold sequential_candidate at this
    simp only [Bool.and_eq_true, Bool.not_eq_true'] at this
    exact this.1
  · rw [sequential_candidate_name flags d v hmem.2]
    rfl

/-! ### The end of the sequential pass -/

theorem primary_sequential_loop_final (env : Env) (context dialcontext : CStr)
    (flags : ast_flags) (d : CStr) (listing : List ast_variable) :
    ∀ (st : locals) (w : World) (st1 : locals) (w1 : World),
      st.res = 0 → 0 ≤ st.found → st.lastuserchoice ≠ 49 →
      primary_sequential_loop env context dialcontext flags d listing st w =
        Outcome.ok st1 w1 →
      0 ≤ st1.found ∧ (st1.res ≠ 0 → 0 < st1.found) ∧
      (st1.lastuserchoice = 49 ↔ st1.res = 49) := by
  induction listing with
  | nil =>
    intro st w st1 w1 hres hfound hluc h
    rw [primary_sequential_loop, pure_run] at h
    cases h
    exact ⟨hfound, fun h0 => absurd hres h0, by constructor <;> intro h9 <;> omega⟩
  | cons v rest ih =>
    intro st w st1 w1 hres hfound hluc h
    cases hc : sequential_candidate flags d v with
    | false =>
      obtain ⟨st2, h2r, h2f, h2l, h2⟩ :=
        primary_sequential_loop_pass env context dialcontext flags d v rest st hc
      rw [h2] at h
      exact ih st2 w st1 w1 (by omega) (by omega) (by omega) h
    | true =>
      have hname := sequential_candidate_name flags d v hc
      rw [primary_sequential_loop_present env context dialcontext flags d v _ rest st hc hname]
        at h
      obtain ⟨r, w2, hr, _⟩ := get_mailbox_response_run env context dialcontext v.name
        (ast_copy_string ((name_field v.value).getD []) 80) flags w
      rw [bind_run_ok _ _ w w2 r hr] at h
      split_ifs at h with hne
      · rw [pure_run] at h
        cases h
        unfold sequential_switch at hne ⊢
        split_ifs at hne ⊢ <;> simp at hne ⊢ <;> omega
      · refine ih _ w2 st1 w1 ?_ ?_ ?_ h
        · exact not_not.1 hne
        · unfold sequential_switch; split_ifs <;> simp <;> omega
        · unfold sequential_switch at hne ⊢
          split_ifs at hne ⊢ <;> simp at hne ⊢ <;> omega

theorem do_directory_finish_run (st : locals) (w : World) (h : st.lastuserchoice ≠ 49) :
    do_directory_finish st w =
      Outcome.ok (prompt_result w)
        (after_prompt (if st.found ≠ 0 then lit "dir-nomore" else lit "dir-nomatch") w) := by
  unfold do_directory_finish
  rw [if_pos h, bind_run, call_run]
  rfl

/-- C16, as stated, fails: the caller enters `764`, accepts the entry
presented with `'1'`, and the extension does not exist, so that
`get_mailbox_response` returns -1. `do_directory` then starts the prompt
`"dir-nomore"` and returns 1, and `directory_exec` plays its intro a second
time. -/
theorem negative_response_counterexample :
    (get_mailbox_response asterisk_env (lit "default") (lit "default") (lit "100")
        (lit "Al Smith") (flags_fm false false)
        (world_of [0, 0, 0, 0, 49, -3] [])).value? = some (-1) ∧
    (do_directory asterisk_env one_primary none (lit "default") (lit "default") 55
        (flags_fm false false) (world_of [0, 0, 0, 0, 0, 49, -3] [lit "64"])).value? = some 1 ∧
    ((do_directory asterisk_env one_primary none (lit "default") (lit "default") 55
        (flags_fm false false)
        (world_of [0, 0, 0, 0, 0, 49, -3] [lit "64"])).calls.getLast?) =
      some (Call.ast_streamfile (lit "dir-nomore")) ∧
    (directory_exec asterisk_env plain_session 2 world_no_such_extension).value? =
      some (some 0) ∧
    ((directory_exec asterisk_env plain_session 2 world_no_such_extension).calls.count
      (Call.ast_stream_and_wait (lit "dir-intro"))) = 2 := by
  refine ⟨?_, ?_, ?_, ?_, ?_⟩ <;> decide!

/-- C16, amended. In sequential mode over the primary listing, when
presenting a candidate yields a negative result, the loop ends at once with
that result (no further entry is presented), `users.conf` is not consulted,
and `do_directory` starts the prompt `"dir-nomore"` and returns the result of
that call, or 1 when it is 0. -/
theorem negative_response_ends_pass :
    (∀ (env : Env) (context dialcontext : CStr) (flags : ast_flags) (d : CStr)
      (v : ast_variable) (pos : CStr) (rest : List ast_variable) (st : locals)
      (w w1 : World) (r : Int),
      sequential_candidate flags d v = true → name_field v.value = some pos →
      get_mailbox_response env context dialcontext v.name (ast_copy_string pos 80) flags w =
        Outcome.ok r w1 →
      r < 0 →
      primary_sequential_loop env context dialcontext flags d (v :: rest) st w =
        Outcome.ok
          (sequential_switch { st with found := st.found + 1, conv_freed := true } r) w1 ∧
      (sequential_switch { st with found := st.found + 1, conv_freed := true } r).res = r) ∧
    (∀ (env : Env) (vmcfg : ast_config) (ucfg : Option (List user_category))
      (context dialcontext : CStr) (flags : ast_flags) (d : CStr) (st : locals) (w w1 : World),
      flags.OPT_SELECTFROMMENU = false →
      do_directory_primary env vmcfg context dialcontext flags d w = Outcome.ok st w1 →
      st.res < 0 →
      do_directory_search env vmcfg ucfg context dialcontext flags d w =
        Outcome.ok (prompt_result w1) (after_prompt (lit "dir-nomore") w1)) := by
  constructor
  · intro env context dialcontext flags d v pos rest st w w1 r hc hpos hr hneg
    have hsw : (sequential_switch { st with found := st.found + 1, conv_freed := true } r).res
        = r := by
      unfold sequential_switch
      split_ifs <;> simp
      omega
    refine ⟨?_, hsw⟩
    rw [primary_sequential_loop_present env context dialcontext flags d v pos rest st hc hpos,
      bind_run_ok _ _ w w1 r hr, if_pos (by rw [hsw]; omega)]
    rfl
  · intro env vmcfg ucfg context dialcontext flags d st w w1 hm hprim hneg
    have hprim2 := hprim
    unfold do_directory_primary at hprim2
    simp only [hm] at hprim2
    obtain ⟨h0, hf, hl⟩ := primary_sequential_loop_final env context dialcontext flags d _ _ w
      st w1 rfl (le_refl _) (by decide) hprim2
    have hluc : st.lastuserchoice ≠ 49 := fun h9 => by
      have := hl.1 h9
      omega
    have hfound : st.found ≠ 0 := by
      have := hf (by omega)
      omega
    have husers : do_directory_users env ucfg context dialcontext flags d st w1 =
        Outcome.ok st w1 := by
      unfold do_directory_users
      cases ucfg with
      | none => rfl
      | some users => simp only; rw [if_neg (by omega)]; rfl
    unfold do_directory_search
    rw [bind_run_ok _ _ w w1 st hprim, bind_run_ok _ _ w1 w1 st husers,
      do_directory_finish_run st w1 hluc, if_pos hfound]

/-- Witness of the amended C16: the entry `100 = secret,Al Smith` is accepted
with `'1'` and the extension does not exist. -/
theorem negative_response_ends_pass_witness :
    (primary_sequential_loop asterisk_env (lit "default") (lit "default") (flags_fm false false)
        (lit "764") (al_smith :: [al_smith]) locals_start
        (world_of [0, 0, 0, 0, 49, -3] [])).value? =
      some (sequential_switch { locals_start with found := locals_start.found + 1,
                                                   conv_freed := true } (-1)) :=
  congrArg Outcome.value?
    (negative_response_ends_pass.1 asterisk_env (lit "default") (lit "default")
      (flags_fm false false) (lit "764") al_smith (lit "Al Smith") [al_smith] locals_start
      (world_of [0, 0, 0, 0, 49, -3] [])
      (((get_mailbox_response asterisk_env (lit "default") (lit "default") (lit "100")
          (lit "Al Smith") (flags_fm false false)
          (world_of [0, 0, 0, 0, 49, -3] [])).world?).getD (world_of [] []))
      (-1) (by decide) (by decide) (by decide!) (by decide)).1

/-! ### The closing prompt -/

theorem primary_sequential_loop_found_le (env : Env) (context dialcontext : CStr)
    (flags : ast_flags) (d : CStr) (listing : List ast_variable) :
    ∀ (st : locals) (w : World) (st1 : locals) (w1 : World),
      primary_sequential_loop env context dialcontext flags d listing st w =
        Outcome.ok st1 w1 → st.found ≤ st1.found := by
  induction listing with
  | nil =>
    intro st w st1 w1 h
    rw [primary_sequential_loop, pure_run] at h
    cases h
    exact le_refl _
  | cons v rest ih =>
    intro st w st1 w1 h
    cases hc : sequential_candidate flags d v with
    | false =>
      obtain ⟨st2, _, h2f, _, h2⟩ :=
        primary_sequential_loop_pass env context dialcontext flags d v rest st hc
      rw [h2] at h
      have := ih st2 w st1 w1 h
      omega
    | true =>
      have hname := sequential_candidate_name flags d v hc
      rw [primary_sequential_loop_present env context dialcontext flags d v _ rest st hc hname]
        at h
      obtain ⟨r, w2, hr, _⟩ := get_mailbox_response_run env context dialcontext v.name
        (ast_copy_string ((name_field v.value).getD []) 80) flags w
      rw [bind_run_ok _ _ w w2 r hr] at h
      have hsw : (sequential_switch { st with found := st.found + 1, conv_freed := true }
          r).found = st.found + 1 := by
        unfold sequential_switch; split_ifs <;> rfl
      split_ifs at h with hne
      · rw [pure_run] at h
        cases h
        omega
      · have := ih _ w2 st1 w1 h
        omega

theorem primary_sequential_loop_found (env : Env) (context dialcontext : CStr)
    (flags : ast_flags) (d : CStr) (listing : List ast_variable) :
    ∀ (st : locals) (w : World) (st1 : locals) (w1 : World),
      primary_sequential_loop env context dialcontext flags d listing st w =
        Outcome.ok st1 w1 →
      (st.found < st1.found ↔ ∃ v ∈ listing, sequential_candidate flags d v = true) := by
  induction listing with
  | nil =>
    intro st w st1 w1 h
    rw [primary_sequential_loop, pure_run] at h
    cases h
    simp
  | cons v rest ih =>
    intro st w st1 w1 h
    cases hc : sequential_candidate flags d v with
    | false =>
      obtain ⟨st2, _, h2f, _, h2⟩ :=
        primary_sequential_loop_pass env context dialcontext flags d v rest st hc
      rw [h2] at h
      rw [← h2f, ih st2 w st1 w1 h]
      simp [hc]
    | true =>
      have hle := primary_sequential_loop_found_le env context dialcontext flags d (v :: rest)
        st w st1 w1 h
      have hname := sequential_candidate_name flags d v hc
      rw [primary_sequential_loop_present env context dialcontext flags d v _ rest st hc hname]
        at h
      obtain ⟨r, w2, hr, _⟩ := get_mailbox_response_run env context dialcontext v.name
        (ast_copy_string ((name_field v.value).getD []) 80) flags w
      rw [bind_run_ok _ _ w w2 r hr] at h
      have hsw : (sequential_switch { st with found := st.found + 1, conv_freed := true }
          r).found = st.found + 1 := by
        unfold sequential_switch; split_ifs <;> rfl
      have hlt : st.found < st1.found := by
        split_ifs at h with hne
        · rw [pure_run] at h
          cases h
          omega
        · have := primary_sequential_loop_found_le env context dialcontext flags d rest _ w2
            st1 w1 h
          omega
      exact ⟨fun _ => ⟨v, by simp, hc⟩, fun _ => hlt⟩

/-! ### The menu page never overflows -/

theorem sound_of_yields {α : Type} (Q : α → Prop) (m : M α) (h : yields Q m) : sound Q m := by
  intro w hw
  obtain ⟨a, w1, h1, q1, t1⟩ := h w
  rw [h1]
  exact ⟨fun c hc => hw c (by rw [← t1]; exact hc), q1⟩

theorem sound_pure {α : Type} (Q : α → Prop) (a : α) (h : Q a) : sound Q (pure a : M α) :=
  fun _ hw => ⟨hw, h⟩

theorem sound_fault {α : Type} (Q : α → Prop) (f : Fault) (h : f ≠ Fault.out_of_bounds) :
    sound Q (fault f : M α) :=
  fun _ hw => ⟨hw, h⟩

theorem sound_bind {α β : Type} (Q : α → Prop) (R : β → Prop) (m : M α) (f : α → M β)
    (hm : sound Q m) (hf : ∀ a, Q a → sound R (f a)) : sound R (m >>= f) := by
  intro w hw
  have h1 := hm w hw
  rw [bind_run]
  cases hmw : m w with
  | fault e w1 => rw [hmw] at h1; exact h1
  | ok a w1 =>
    rw [hmw] at h1
    exact hf a h1.2 w1 h1.1

theorem sound_ite {α : Type} (Q : α → Prop) (c : Prop) [Decidable c] (m n : M α)
    (hm : sound Q m) (hn : sound Q n) : sound Q (if c then m else n) := by
  split_ifs <;> assumption

theorem lor_yields (a b : M Int) (ha : yields (fun _ => True) a)
    (hb : yields (fun _ => True) b) : yields zero_one (lor a b) := by
  unfold lor
  refine yields_bind _ _ _ _ ha (fun x _ => ?_)
  refine yields_ite _ _ _ _ (yields_pure _ _ (Or.inr rfl)) ?_
  refine yields_bind _ _ _ _ hb (fun y _ => ?_)
  refine yields_pure _ _ ?_
  unfold zero_one
  split_ifs
  · exact Or.inr rfl
  · exact Or.inl rfl

theorem lor_runs (a b : M Int) (ha : yields (fun _ => True) a)
    (hb : yields (fun _ => True) b) : yields (fun _ => True) (lor a b) :=
  yields_weaken _ _ _ (lor_yields a b ha hb) (fun _ _ => trivial)

theorem land_runs (c : Bool) (b : M Int) (hb : yields (fun _ => True) b) :
    yields (fun _ => True) (land c b) := by
  unfold land
  refine yields_ite _ _ _ _ ?_ (yields_pure _ _ trivial)
  exact yields_bind _ _ _ _ hb (fun y _ => yields_pure _ _ trivial)

theorem items_at_yields (arr : List items) (i : Nat) (h1 : i < arr.length) (h8 : i < 8) :
    yields (fun _ => True) (items_at arr (i : Int)) := by
  intro w
  unfold items_at
  rw [if_neg (by omega)]
  simp only [Int.toNat_ofNat, List.get?_eq_getElem?, List.getElem?_eq_getElem h1]
  exact ⟨_, w, rfl, trivial, rfl⟩

theorem select_item_announce_yields (env : Env) (arr : List items) (context : CStr)
    (flags : ast_flags) (i : Nat) (h1 : i < arr.length) (h8 : i < 8) :
    yields zero_one (select_item_announce env arr context flags i) := by
  unfold select_item_announce
  refine lor_yields _ _ ?_ (yields_call _ (by rfl))
  refine lor_runs _ _ ?_ (yields_call _ (by rfl))
  refine lor_runs _ _ ?_ ?_
  · refine lor_runs _ _ ?_ (yields_call _ (by rfl))
    refine lor_runs _ _ ?_ (yields_call _ (by rfl))
    refine lor_runs _ _ ?_ (yields_call _ (by rfl))
    refine lor_runs _ _ ?_ (yields_call _ (by rfl))
    exact lor_runs _ _ (yields_call _ (by rfl)) (yields_call _ (by rfl))
  · exact yields_bind _ _ _ _ (items_at_yields arr i h1 h8)
      (fun it _ => play_mailbox_owner_yields env context it.exten it.name flags)

theorem select_item_loop_yields (env : Env) (arr : List items) (context : CStr)
    (flags : ast_flags) (n : Nat) :
    ∀ i : Nat, i + n ≤ arr.length → i + n ≤ 8 →
      yields zero_one (select_item_loop env arr context flags n i) := by
  induction n with
  | zero => intro i _ _; exact yields_pure _ _ (Or.inl rfl)
  | succ n ih =>
    intro i h1 h8
    rw [select_item_loop]
    refine yields_bind _ _ _ _
      (select_item_announce_yields env arr context flags i (by omega) (by omega))
      (fun res hres => ?_)
    exact yields_ite _ _ _ _ (yields_pure _ _ hres) (ih (i + 1) (by omega) (by omega))

theorem select_item_more_yields (itemcount : Nat) :
    yields zero_one (select_item_more itemcount) := by
  unfold select_item_more
  refine lor_yields _ _ ?_ (yields_call _ (by rfl))
  refine lor_runs _ _ ?_ (yields_call _ (by rfl))
  exact lor_runs _ _ (yields_call _ (by rfl)) (land_runs _ _ (yields_call _ (by rfl)))

theorem select_item_run (env : Env) (arr : List items) (itemcount : Nat)
    (context dialcontext : CStr) (flags : ast_flags) (h1 : itemcount ≤ arr.length)
    (h8 : itemcount ≤ 8) (w : World) :
    ∃ r w1, select_item env arr itemcount context dialcontext flags w = Outcome.ok r w1 ∧
      zero_one r ∧
      w1.trace.filter is_entry =
        w.trace.filter is_entry ++ [Call.select_item (arr.take itemcount) itemcount] := by
  have hbody : yields zero_one
      (select_item_loop env arr context flags itemcount 0 >>= fun res =>
        (if res = 0 then select_item_more itemcount else pure res) >>= fun res =>
          (pure res : M Int)) := by
    refine yields_bind _ _ _ _
      (select_item_loop_yields env arr context flags itemcount 0 (by omega) (by omega))
      (fun res hres => ?_)
    refine yields_bind zero_one _ _ _ ?_ (fun res2 hres2 => yields_pure _ _ hres2)
    exact yields_ite _ _ _ _ (select_item_more_yields itemcount) (yields_pure _ _ hres)
  let w0 : World :=
    { w with trace := w.trace ++ [Call.select_item (arr.take itemcount) itemcount] }
  obtain ⟨r, w1, hr, hz, ht⟩ := hbody w0
  refine ⟨r, w1, ?_, hz, ?_⟩
  · unfold select_item
    rw [bind_run, note_run]
    show (select_item_loop env arr context flags itemcount 0 >>= _) w0 = _
    rw [bind_run] at hr ⊢
    cases hl : select_item_loop env arr context flags itemcount 0 w0 with
    | fault e wl => rw [hl] at hr; cases hr
    | ok res wl =>
      rw [hl] at hr
      simp only at hr ⊢
      rw [bind_run] at hr ⊢
      cases hm : (if res = 0 then select_item_more itemcount else pure res) wl with
      | fault e wm => rw [hm] at hr; cases hr
      | ok res2 wm =>
        rw [hm] at hr
        simp only at hr ⊢
        rw [pure_run] at hr
        cases hr
        have hno : ¬ (r ≠ 0 ∧ r > 48 ∧ r < 57) := by
          rcases hz with h0 | h1 <;> omega
        rw [if_neg hno]
        rfl
  · rw [ht]
    simp [w0, is_entry]

theorem select_item_sound (env : Env) (arr : List items) (itemcount : Nat)
    (context dialcontext : CStr) (flags : ast_flags) (h0 : 1 ≤ itemcount)
    (h1 : itemcount ≤ arr.length) (h8 : itemcount ≤ 8) :
    sound zero_one (select_item env arr itemcount context dialcontext flags) := by
  intro w hw
  obtain ⟨r, w1, hr, hz, ht⟩ :=
    select_item_run env arr itemcount context dialcontext flags h1 h8 w
  rw [hr]
  refine ⟨?_, hz⟩
  intro c hc
  rw [ht] at hc
  rcases List.mem_append.1 hc with hc | hc
  · exact hw c hc
  · simp only [List.mem_singleton] at hc
    subst hc
    exact ⟨h0, h8, by simp [h1]⟩

theorem menu_store_sound (env : Env) (m : menu) (fullname exten : CStr) (hm : menu_ok m) :
    sound (fun m1 : menu => m1.menucount = m.menucount + 1 ∧
        m1.menucount ≤ m1.menuitems.length)
      (menu_store env m fullname exten) := by
  intro w hw
  unfold menu_store
  rw [if_neg (by have := hm.1; omega)]
  refine ⟨hw, rfl, ?_⟩
  have h2 := hm.2
  simp only
  split_ifs with hlt
  · rw [List.length_set]; omega
  · rw [List.length_append]; simp; omega

theorem primary_menu_loop_sound (env : Env) (context dialcontext : CStr) (flags : ast_flags)
    (ext : CStr) (listing : List ast_variable) :
    ∀ (st : locals) (m : menu), menu_ok m →
      sound (fun p : locals × menu => menu_ok p.2)
        (primary_menu_loop env context dialcontext flags ext listing st m) := by
  induction listing with
  | nil => intro st m hm; exact sound_pure _ _ hm
  | cons v rest ih =>
    intro st m hm
    rw [primary_menu_loop]
    cases hh : hidefromdir v.value with
    | true => simpa using ih st m hm
    | false =>
      simp only [Bool.not_false, if_true]
      cases hn : name_field (menu_buf env v) with
      | none => exact sound_fault _ _ (by decide)
      | some fullname =>
        simp only
        refine sound_bind
          (fun p : locals × menu => p.2.menucount ≤ 8 ∧ p.2.menucount ≤ p.2.menuitems.length)
          _ _ _ ?_ ?_
        · have h7 : m.menucount ≤ 8 := by have := hm.1; omega
          refine sound_ite _ _ _ _ ?_ (sound_pure _ _ ⟨h7, hm.2⟩)
          refine sound_bind _ _ _ _ (menu_store_sound env m fullname v.name hm) (fun m1 h1 => ?_)
          have h8 : m1.menucount ≤ 8 := by have := hm.1; have := h1.1; omega
          exact sound_pure _ _ ⟨h8, h1.2⟩
        · rintro ⟨st1, m1⟩ ⟨h8, hlen⟩
          simp only at h8 hlen ⊢
          split_ifs with heq
          · refine sound_bind zero_one _ _ _
              (select_item_sound env m1.menuitems m1.menucount context dialcontext flags
                (by omega) hlen h8) (fun res _ => ?_)
            have hm0 : menu_ok { m1 with menucount := 0 } := ⟨Nat.zero_lt_succ 7, Nat.zero_le _⟩
            exact sound_ite _ _ _ _ (sound_pure _ _ hm0) (ih _ _ hm0)
          · exact ih st1 m1 ⟨by omega, hlen⟩

theorem menu_finish_sound (env : Env) (context dialcontext : CStr) (flags : ast_flags)
    (st : locals) (m : menu) (hm : menu_ok m) :
    sound (fun _ => True) (menu_finish env context dialcontext flags st m) := by
  unfold menu_finish
  refine sound_bind (fun _ => True) _ _ _ ?_ (fun st1 _ => sound_pure _ _ trivial)
  split_ifs with hpos
  · exact sound_bind zero_one _ _ _
      (select_item_sound env m.menuitems m.menucount context dialcontext flags (by omega) hm.2
        (by have := hm.1; omega)) (fun res _ => sound_pure _ _ trivial)
  · exact sound_pure _ _ trivial

theorem users_menu_loop_sound (flags : ast_flags) (ext : CStr) (users : List user_category) :
    ∀ (st : locals) (m : menu), menu_ok m →
      sound (fun p : locals × menu => menu_ok p.2) (users_menu_loop flags ext users st m) := by
  induction users with
  | nil => intro st m hm; exact sound_pure _ _ hm
  | cons cat rest ih =>
    intro st m hm
    rw [users_menu_loop]
    refine sound_ite _ _ _ _ (sound_pure _ _ hm) ?_
    refine sound_ite _ _ _ _ (ih st m hm) ?_
    refine sound_ite _ _ _ _ (ih st m hm) ?_
    cases cat.fullname with
    | none => exact ih st m hm
    | some pos =>
      exact sound_ite _ _ _ _ (sound_fault _ _ (by decide)) (ih st m hm)

theorem menu_search_sound (env : Env) (vmcfg : ast_config)
    (ucfg : Option (List user_category)) (context dialcontext : CStr) (flags : ast_flags)
    (ext : CStr) (hmenu : flags.OPT_SELECTFROMMENU = true) :
    sound (fun _ => True) (do_directory_search env vmcfg ucfg context dialcontext flags ext) := by
  have hm0 : menu_ok { menuitems := [], menucount := 0 } := ⟨Nat.zero_lt_succ 7, Nat.le_refl _⟩
  unfold do_directory_search
  refine sound_bind (fun _ => True) _ _ _ ?_ (fun st _ => ?_)
  · unfold do_directory_primary
    simp only [hmenu, if_true]
    refine sound_bind _ _ _ _
      (primary_menu_loop_sound env context dialcontext flags ext _ _ _ hm0) ?_
    rintro ⟨st, m⟩ hm
    exact menu_finish_sound env context dialcontext flags st m hm
  refine sound_bind (fun _ => True) _ _ _ ?_ (fun st2 _ => ?_)
  · unfold do_directory_users
    cases ucfg with
    | none => exact sound_pure _ _ trivial
    | some users =>
      simp only [hmenu, if_true]
      refine sound_ite _ _ _ _ ?_ (sound_pure _ _ trivial)
      refine sound_bind _ _ _ _ (users_menu_loop_sound flags ext users _ _ hm0) ?_
      rintro ⟨st3, m⟩ hm
      exact menu_finish_sound env context dialcontext flags st3 m hm
  · unfold do_directory_finish
    refine sound_ite _ _ _ _ ?_ (sound_pure _ _ trivial)
    exact sound_bind _ _ _ _ (sound_of_yields _ _ (yields_call _ (by rfl)))
      (fun _ _ => sound_pure _ _ trivial)

theorem escape_digit_yields (dialcontext exten : CStr) :
    yields (fun _ => True) (escape_digit dialcontext exten) := by
  unfold escape_digit
  refine yields_bind _ _ _ _ (yields_call _ (by rfl)) (fun g _ => ?_)
  refine yields_ite _ _ _ _ (yields_pure _ _ trivial) ?_
  refine yields_bind (fun _ => True) _ _ _ (fun w => ⟨_, w, rfl, trivial, rfl⟩) (fun mc _ => ?_)
  split_ifs
  · exact yields_bind _ _ _ _ (yields_call _ (by rfl)) (fun _ _ => yields_pure _ _ trivial)
  · exact yields_pure _ _ trivial

theorem ast_readstring_yields (len timeout ftimeout : Nat) (enders : CStr) :
    yields (fun _ => True) (ast_readstring len timeout ftimeout enders) :=
  fun _ => ⟨_, _, rfl, trivial, by simp [is_entry]⟩

theorem menu_do_directory_sound (env : Env) (vmcfg : ast_config)
    (ucfg : Option (List user_category)) (context dialcontext : CStr) (digit : Int)
    (flags : ast_flags) (hmenu : flags.OPT_SELECTFROMMENU = true) :
    sound (fun _ => True) (do_directory env vmcfg ucfg context dialcontext digit flags) := by
  unfold do_directory
  refine sound_ite _ _ _ _ (sound_pure _ _ trivial) ?_
  refine sound_bind (fun _ => True) _ _ _ ?_ (fun escaped _ => ?_)
  · refine sound_of_yields _ _ ?_
    refine yields_ite _ _ _ _ (escape_digit_yields _ _) ?_
    exact yields_ite _ _ _ _ (escape_digit_yields _ _) (yields_pure _ _ trivial)
  refine sound_ite _ _ _ _ (sound_pure _ _ trivial) ?_
  refine sound_bind (fun _ => True) _ _ _
    (sound_of_yields _ _ (ast_readstring_yields _ _ _ _)) ?_
  rintro ⟨rd, digits⟩ _
  simp only
  exact sound_ite _ _ _ _ (sound_pure _ _ trivial)
    (menu_search_sound env vmcfg ucfg context dialcontext flags _ hmenu)

theorem menu_store_run (env : Env) (m : menu) (fullname exten : CStr) (w : World)
    (h8 : m.menucount < 8) :
    ∃ m1, menu_store env m fullname exten w = Outcome.ok m1 w ∧
      m1.menucount = m.menucount + 1 ∧ m1.menucount ≤ 8 ∧
      (m.menucount ≤ m.menuitems.length → m1.menucount ≤ m1.menuitems.length) := by
  unfold menu_store
  rw [if_neg (by omega)]
  refine ⟨_, rfl, rfl, by show m.menucount + 1 ≤ 8; omega, ?_⟩
  intro hlen
  simp only
  split_ifs with hlt
  · rw [List.length_set]; omega
  · rw [List.length_append]; simp; omega

theorem menu_candidate_name (env : Env) (flags : ast_flags) (d : CStr) (v : ast_variable)
    (h : menu_candidate env flags d v = true) :
    ∃ pos, name_field (menu_buf env v) = some pos := by
  unfold menu_candidate at h
  cases hp : name_field (menu_buf env v) with
  | none => simp [hp] at h
  | some pos => exact ⟨pos, rfl⟩

theorem primary_menu_loop_found (env : Env) (context dialcontext : CStr) (flags : ast_flags)
    (ext : CStr) (listing : List ast_variable) :
    ∀ (st : locals) (m : menu) (w : World) (st1 : locals) (m1 : menu) (w1 : World),
      menu_ok m →
      primary_menu_loop env context dialcontext flags ext listing st m w =
        Outcome.ok (st1, m1) w1 →
      (st1.found ≠ 0 ↔
        (st.found ≠ 0 ∨ ∃ v ∈ listing, menu_candidate env flags ext v = true)) := by
  induction listing with
  | nil =>
    intro st m w st1 m1 w1 _ h
    rw [primary_menu_loop, pure_run] at h
    cases h
    simp
  | cons v rest ih =>
    intro st m w st1 m1 w1 hm h
    cases hc : menu_candidate env flags ext v with
    | false =>
      have hrest : primary_menu_loop env context dialcontext flags ext rest st m w =
          Outcome.ok (st1, m1) w1 := by
        cases hh : hidefromdir v.value with
        | true =>
          have := primary_menu_loop_hidden env context dialcontext flags ext v hh [] rest st m
          simp only [List.nil_append] at this
          rw [← this]; exact h
        | false =>
          cases hn : name_field (menu_buf env v) with
          | none =>
            rw [primary_menu_loop] at h
            simp only [hh, hn, Bool.not_false, if_true] at h
            cases h
          | some pos =>
            rw [← primary_menu_loop_pass env context dialcontext flags ext v pos rest st m hc hn
              (by have := hm.1; omega)]
            exact h
      rw [ih st m w st1 m1 w1 hm hrest]
      simp [hc]
    | true =>
      obtain ⟨pos, hpos⟩ := menu_candidate_name env flags ext v hc
      have hright : st.found ≠ 0 ∨
          ∃ u ∈ v :: rest, menu_candidate env flags ext u = true :=
        Or.inr ⟨v, by simp, hc⟩
      refine ⟨fun _ => hright, fun _ => ?_⟩
      rw [primary_menu_loop_store env context dialcontext flags ext v pos rest st m hc hpos] at h
      obtain ⟨m2, hstore, hcount, h8, hlen⟩ := menu_store_run env m pos v.name w hm.1
      rw [bind_run_ok _ _ w w m2 hstore] at h
      split_ifs at h with heq
      · obtain ⟨r, w2, hr, _, _⟩ := select_item_run env m2.menuitems m2.menucount context
          dialcontext flags (hlen hm.2) h8 w
        rw [bind_run_ok _ _ w w2 r hr] at h
        by_cases hbreak : r ≠ 57 ∧ r ≠ 0
        · rw [if_pos hbreak, pure_run] at h
          cases h
          exact one_ne_zero
        · rw [if_neg hbreak] at h
          exact (ih { st with found := 1, res := r } { m2 with menucount := 0 } w2 st1 m1 w1
            ⟨Nat.zero_lt_succ 7, Nat.zero_le _⟩ h).2 (Or.inl one_ne_zero)
      · exact (ih { st with found := 1 } m2 w st1 m1 w1 ⟨by omega, hlen hm.2⟩ h).2
          (Or.inl one_ne_zero)

theorem menu_finish_found (env : Env) (context dialcontext : CStr) (flags : ast_flags)
    (st : locals) (m : menu) (w : World) (st1 : locals) (w1 : World)
    (h : menu_finish env context dialcontext flags st m w = Outcome.ok st1 w1) :
    st1.found = st.found := by
  unfold menu_finish at h
  rw [bind_run] at h
  split_ifs at h with hpos
  · rw [bind_run] at h
    cases hs : select_item env m.menuitems m.menucount context dialcontext flags w with
    | fault e w2 => rw [hs] at h; cases h
    | ok r w2 =>
      rw [hs] at h
      simp only [pure_run] at h
      cases h
      rfl
  · simp only [pure_run] at h
    cases h
    rfl

theorem menu_primary_found (env : Env) (vmcfg : ast_config) (context dialcontext : CStr)
    (flags : ast_flags) (d : CStr) (st : locals) (w w1 : World)
    (hmenu : flags.OPT_SELECTFROMMENU = true)
    (h : do_directory_primary env vmcfg context dialcontext flags d w = Outcome.ok st w1) :
    st.found ≠ 0 ↔
      ∃ v ∈ ast_variable_browse vmcfg context, menu_candidate env flags d v = true := by
  unfold do_directory_primary at h
  simp only [hmenu, if_true] at h
  rw [bind_run] at h
  cases hl : primary_menu_loop env context dialcontext flags d
      (ast_variable_browse vmcfg context)
      { res := 0, found := 0, lastuserchoice := 0, conv_freed := false }
      { menuitems := [], menucount := 0 } w with
  | fault e w2 => rw [hl] at h; cases h
  | ok p w2 =>
    obtain ⟨st2, m2⟩ := p
    rw [hl] at h
    simp only at h
    have hf := menu_finish_found env context dialcontext flags st2 m2 w2 st w1 h
    have := primary_menu_loop_found env context dialcontext flags d _ _ _ w st2 m2 w2
      ⟨Nat.zero_lt_succ 7, Nat.le_refl _⟩ hl
    rw [hf, this]
    simp

theorem good_trace_iff (w : World) : good_trace w ↔ counts_in_range w.trace := by
  unfold good_trace counts_in_range
  constructor
  · intro h page n hmem
    exact h _ (List.mem_filter.2 ⟨hmem, rfl⟩)
  · intro h c hc
    have hmem := (List.mem_filter.1 hc).1
    cases c with
    | select_item page n => exact h page n hmem
    | _ => trivial

theorem sound_outcome {α : Type} (Q : α → Prop) (m : M α) (h : sound Q m) (w : World)
    (hw : counts_in_range w.trace) :
    counts_in_range (m w).calls ∧ (m w).fault? ≠ some Fault.out_of_bounds := by
  have h1 := h w ((good_trace_iff w).2 hw)
  cases hm : m w with
  | ok a w1 =>
    rw [hm] at h1
    exact ⟨(good_trace_iff w1).1 h1.1, by simp [Outcome.fault?]⟩
  | fault f w1 =>
    rw [hm] at h1
    exact ⟨(good_trace_iff w1).1 h1.1, by simpa [Outcome.fault?] using h1.2⟩

/-- C20. In menu mode the page never holds more than 8 candidates. Started
with fewer than 8 slots in use, the menu loop over the primary listing never
writes outside `menuitems[0..7]` and leaves fewer than 8 slots in use; and in
a run of `do_directory`, over the primary listing and `users.conf`, every
entry into `select_item` has an item count between 1 and 8 and no access
outside an array occurs, whatever the listing and the replies. -/
theorem menu_page_bounded :
    (∀ (env : Env) (vmcfg : ast_config) (ucfg : Option (List user_category))
      (context dialcontext : CStr) (digit : Int) (flags : ast_flags) (w : World),
      flags.OPT_SELECTFROMMENU = true → counts_in_range w.trace →
      counts_in_range (do_directory env vmcfg ucfg context dialcontext digit flags w).calls ∧
      (do_directory env vmcfg ucfg context dialcontext digit flags w).fault? ≠
        some Fault.out_of_bounds) ∧
    (∀ (env : Env) (context dialcontext : CStr) (flags : ast_flags) (ext : CStr)
      (listing : List ast_variable) (st : locals) (m : menu) (w : World),
      m.menucount < 8 → m.menucount ≤ m.menuitems.length → counts_in_range w.trace →
      counts_in_range
        (primary_menu_loop env context dialcontext flags ext listing st m w).calls ∧
      (primary_menu_loop env context dialcontext flags ext listing st m w).fault? ≠
        some Fault.out_of_bounds ∧
      ∀ (st1 : locals) (m1 : menu) (w1 : World),
        primary_menu_loop env context dialcontext flags ext listing st m w =
          Outcome.ok (st1, m1) w1 →
        m1.menucount < 8 ∧ m1.menucount ≤ m1.menuitems.length) ∧
    (∀ (env : Env) (m : menu) (fullname exten : CStr) (w : World),
      m.menucount < 8 → m.menucount ≤ m.menuitems.length →
      ∃ m1, menu_store env m fullname exten w = Outcome.ok m1 w ∧
        m1.menucount = m.menucount + 1 ∧ m1.menucount ≤ 8) := by
  refine ⟨?_, ?_, ?_⟩
  · intro env vmcfg ucfg context dialcontext digit flags w hmenu hw
    exact sound_outcome _ _
      (menu_do_directory_sound env vmcfg ucfg context dialcontext digit flags hmenu) w hw
  · intro env context dialcontext flags ext listing st m w h8 hlen hw
    have hs := primary_menu_loop_sound env context dialcontext flags ext listing st m ⟨h8, hlen⟩
    obtain ⟨h1, h2⟩ := sound_outcome _ _ hs w hw
    refine ⟨h1, h2, ?_⟩
    intro st1 m1 w1 hrun
    have := hs w ((good_trace_iff w).2 hw)
    rw [hrun] at this
    exact this.2
  · intro env m fullname exten w h8 hlen
    unfold menu_store
    rw [if_neg (by omega)]
    exact ⟨_, rfl, rfl, by show m.menucount + 1 ≤ 8; omega⟩

/-- Witness of C20: the run of C8, nine matching entries in menu mode. -/
theorem menu_page_bounded_witness :
    counts_in_range
        (do_directory asterisk_env nine_smiths none (lit "default") (lit "default") 55
          (flags_fm false true) (world_of [] [lit "64"])).calls ∧
    (do_directory asterisk_env nine_smiths none (lit "default") (lit "default") 55
        (flags_fm false true) (world_of [] [lit "64"])).fault? ≠ some Fault.out_of_bounds :=
  menu_page_bounded.1 asterisk_env nine_smiths none (lit "default") (lit "default") 55
    (flags_fm false true) (world_of [] [lit "64"]) (by decide)
    (fun page n h => absurd h (by simp [world_of]))

/-! ### The closing prompt, both modes -/

/-- The closing prompt over the primary listing. When the passes of
`do_directory` end with no accepted selection (`lastuserchoice` is not
`'1'`), it starts `"dir-nomatch"` if `found` is 0
and `"dir-nomore"` otherwise, and returns the result of that call, which is
1, a positive value, when the prompt started (result 0). Without
`users.conf`, `found` is 0 exactly when no entry of the primary listing is a
candidate for the digits, in sequential mode and in menu mode. On a positive
result `directory_exec` waits for the prompt and, unless that fails, goes
round its loop again. -/
theorem closing_prompt_primary :
    (∀ (st : locals) (w : World), st.lastuserchoice ≠ 49 →
      do_directory_finish st w =
        Outcome.ok (prompt_result w)
          (after_prompt (if st.found ≠ 0 then lit "dir-nomore" else lit "dir-nomatch") w) ∧
      (w.replies.headD 0 = 0 → prompt_result w = 1 ∧ 0 < prompt_result w)) ∧
    (∀ (env : Env) (vmcfg : ast_config) (ucfg : Option (List user_category))
      (context dialcontext : CStr) (flags : ast_flags) (d : CStr) (st1 st2 : locals)
      (w w1 w2 : World),
      do_directory_primary env vmcfg context dialcontext flags d w = Outcome.ok st1 w1 →
      do_directory_users env ucfg context dialcontext flags d st1 w1 = Outcome.ok st2 w2 →
      st2.lastuserchoice ≠ 49 →
      do_directory_search env vmcfg ucfg context dialcontext flags d w =
        Outcome.ok (prompt_result w2)
          (after_prompt (if st2.found ≠ 0 then lit "dir-nomore" else lit "dir-nomatch") w2)) ∧
    (∀ (env : Env) (vmcfg : ast_config) (context dialcontext : CStr) (flags : ast_flags)
      (d : CStr) (st : locals) (w w1 : World),
      flags.OPT_SELECTFROMMENU = false →
      do_directory_primary env vmcfg context dialcontext flags d w = Outcome.ok st w1 →
      st.lastuserchoice ≠ 49 →
      do_directory_search env vmcfg none context dialcontext flags d w =
        Outcome.ok (prompt_result w1)
          (after_prompt
            (if ∃ v ∈ ast_variable_browse vmcfg context, sequential_candidate flags d v = true
              then lit "dir-nomore" else lit "dir-nomatch") w1)) ∧
    (∀ (env : Env) (vmcfg : ast_config) (context dialcontext : CStr) (flags : ast_flags)
      (d : CStr) (st : locals) (w w1 : World),
      flags.OPT_SELECTFROMMENU = true →
      do_directory_primary env vmcfg context dialcontext flags d w = Outcome.ok st w1 →
      st.lastuserchoice ≠ 49 →
      do_directory_search env vmcfg none context dialcontext flags d w =
        Outcome.ok (prompt_result w1)
          (after_prompt
            (if ∃ v ∈ ast_variable_browse vmcfg context, menu_candidate env flags d v = true
              then lit "dir-nomore" else lit "dir-nomatch") w1)) ∧
    (∀ (env : Env) (cfg : ast_config) (ucfg : Option (List user_category))
      (vmcontext dialcontext dirintro : CStr) (flags : ast_flags) (fuel : Nat) (res r p : Int)
      (w w1 w2 : World),
      directory_exec_digit dirintro res w = Outcome.ok r w1 → 0 < r →
      do_directory env cfg ucfg vmcontext dialcontext (to_char r) flags w1 = Outcome.ok p w2 →
      0 < p → 0 ≤ w2.replies.headD 0 →
      directory_exec_loop env cfg ucfg vmcontext dialcontext dirintro flags (fuel + 1) res w =
        directory_exec_loop env cfg ucfg vmcontext dialcontext dirintro flags fuel
          (w2.replies.headD 0) (after_waitstream w2)) := by
  refine ⟨?_, ?_, ?_, ?_, ?_⟩
  · intro st w h
    refine ⟨do_directory_finish_run st w h, fun h0 => ?_⟩
    unfold prompt_result
    rw [if_pos h0]
    exact ⟨rfl, by decide⟩
  · intro env vmcfg ucfg context dialcontext flags d st1 st2 w w1 w2 hp hu hl
    unfold do_directory_search
    rw [bind_run_ok _ _ w w1 st1 hp, bind_run_ok _ _ w1 w2 st2 hu,
      do_directory_finish_run st2 w2 hl]
  · intro env vmcfg context dialcontext flags d st w w1 hm hp hl
    have hp2 := hp
    unfold do_directory_primary at hp2
    simp only [hm] at hp2
    have hfound := primary_sequential_loop_found env context dialcontext flags d _ _ w st w1 hp2
    have hle := primary_sequential_loop_found_le env context dialcontext flags d _ _ w st w1 hp2
    simp only at hfound hle
    have hiff : st.found ≠ 0 ↔
        ∃ v ∈ ast_variable_browse vmcfg context, sequential_candidate flags d v = true := by
      rw [← hfound]
      constructor <;> intro h <;> omega
    unfold do_directory_search
    rw [bind_run_ok _ _ w w1 st hp]
    have hu : do_directory_users env none context dialcontext flags d st w1 =
        Outcome.ok st w1 := rfl
    rw [bind_run_ok _ _ w1 w1 st hu, do_directory_finish_run st w1 hl]
    simp only [hiff]
  · intro env vmcfg context dialcontext flags d st w w1 hm hp hl
    have hiff := menu_primary_found env vmcfg context dialcontext flags d st w w1 hm hp
    unfold do_directory_search
    rw [bind_run_ok _ _ w w1 st hp]
    have hu : do_directory_users env none context dialcontext flags d st w1 =
        Outcome.ok st w1 := rfl
    rw [bind_run_ok _ _ w1 w1 st hu, do_directory_finish_run st w1 hl]
    simp only [hiff]
  · intro env cfg ucfg vmcontext dialcontext dirintro flags fuel res r p w w1 w2 hd hr hdo hp hw
    rw [directory_exec_loop, bind_run_ok _ _ w w1 r hd, if_pos hr, bind_run_ok _ _ w1 w2 p hdo,
      if_pos hp, bind_run, call_run]
    simp only
    rw [bind_run, note_run]
    simp only
    rw [if_pos hw]
    rfl

/-- No entry of `no_smith` matches `764`, so `"dir-nomatch"` is started and 1
is returned. -/
theorem closing_prompt_primary_witness :
    do_directory_search asterisk_env no_smith none (lit "default") (lit "default")
        (flags_fm false false) (lit "764") (world_of [] []) =
      Outcome.ok (prompt_result (world_of [] []))
        (after_prompt
          (if ∃ v ∈ ast_variable_browse no_smith (lit "default"),
              sequential_candidate (flags_fm false false) (lit "764") v = true
            then lit "dir-nomore" else lit "dir-nomatch") (world_of [] [])) :=
  closing_prompt_primary.2.2.1 asterisk_env no_smith (lit "default") (lit "default")
    (flags_fm false false) (lit "764")
    { res := 0, found := 0, lastuserchoice := 0, conv_freed := true } (world_of [] [])
    (world_of [] []) (by decide) (by decide!) (by decide)

/-- C17 (defect in the sequential pass over `users.conf`). The `switch (res)`
of that pass stands outside the match test (lines 703-737), so a
directory-enabled entry whose name does not match leaves `res` at 0, takes
`default: breakout = 1` and ends the pass, whatever entries follow. With no
match in the primary listing and the `users.conf` entries `Jones`, `Smith`,
the digits `764` end in `"dir-nomatch"`, the only call made, with result 1,
although `Smith` matches them: listed alone it is presented and the prompt is
`"dir-nomore"`, as it is for the same two names in the primary listing. -/
theorem closing_prompt_users_lost :
    (∀ (env : Env) (context dialcontext : CStr) (flags : ast_flags) (ext pos : CStr)
      (cat : user_category) (rest : List user_category) (st : locals) (w : World),
      st.res = 0 → (strcasecmp cat.name (lit "general") == 0) = false →
      cat.hasdirectory = true → cat.fullname = some pos →
      strcmp (convert (users_sequential_key flags pos)) ext ≠ 0 →
      users_sequential_loop env context dialcontext flags ext (cat :: rest) st w =
        Outcome.ok { st with conv_freed := true } w) ∧
    strcmp (convert (users_sequential_key (flags_fm false false) (lit "Smith"))) (lit "764") = 0 ∧
    ((do_directory_search asterisk_env no_smith (some [user_smith]) (lit "default")
        (lit "default") (flags_fm false false) (lit "764") (world_of [] [])).calls.filter
        is_entry = [Call.get_mailbox_response (lit "200") (lit "Smith")] ∧
      (do_directory_search asterisk_env no_smith (some [user_smith]) (lit "default")
        (lit "default") (flags_fm false false) (lit "764") (world_of [] [])).calls.getLast? =
        some (Call.ast_streamfile (lit "dir-nomore"))) ∧
    ((do_directory_search asterisk_env jones_then_smith none (lit "default")
        (lit "default") (flags_fm false false) (lit "764") (world_of [] [])).calls.filter
        is_entry = [Call.get_mailbox_response (lit "200") (lit "Smith")] ∧
      (do_directory_search asterisk_env jones_then_smith none (lit "default")
        (lit "default") (flags_fm false false) (lit "764") (world_of [] [])).calls.getLast? =
        some (Call.ast_streamfile (lit "dir-nomore"))) ∧
    do_directory_search asterisk_env no_smith (some [user_jones, user_smith]) (lit "default")
        (lit "default") (flags_fm false false) (lit "764") (world_of [] []) =
      Outcome.ok 1 (after_prompt (lit "dir-nomatch") (world_of [] [])) ∧
    (after_prompt (lit "dir-nomatch") (world_of [] [])).trace =
      [Call.ast_streamfile (lit "dir-nomatch")] := by
  refine ⟨?_, by decide!, ⟨by decide!, by decide!⟩, ⟨by decide!, by decide!⟩, by decide!,
    by decide⟩
  intro env context dialcontext flags ext pos cat rest st w hres hg hd hf hne
  rw [users_sequential_loop, if_neg (by omega), if_neg (by simp [hg]), if_neg (by simp [hd])]
  simp only [hf, beq_iff_eq, hne, if_false]
  rw [bind_run, pure_run]
  simp [pure_run, hres]

/-- Witness of the early end of the pass in C17: after the entry `Jones`, the
pass for `764` ends without a look at `Smith`. -/
theorem closing_prompt_users_lost_witness :
    strcmp (convert (users_sequential_key (flags_fm false false) (lit "Jones"))) (lit "764") ≠ 0 ∧
    users_sequential_loop asterisk_env (lit "default") (lit "default") (flags_fm false false)
        (lit "764") [user_jones, user_smith] locals_start (world_of [] []) =
      Outcome.ok { locals_start with conv_freed := true } (world_of [] []) :=
  ⟨by decide,
    closing_prompt_users_lost.1 asterisk_env (lit "default") (lit "default")
      (flags_fm false false) (lit "764") (lit "Jones") user_jones [user_smith] locals_start
      (world_of [] []) rfl (by decide) rfl rfl (by decide)⟩

/-! ### The value of `select_item` -/

theorem keeps_of_quiet {α : Type} (m : M α) (h : quiet m) : keeps (fun _ => True) m := by
  intro w
  obtain ⟨a, w1, h1, e1, t1⟩ := h w
  rw [h1]
  exact ⟨trivial, e1, t1⟩

theorem keeps_pure {α : Type} (Q : α → Prop) (a : α) (h : Q a) : keeps Q (pure a : M α) :=
  fun _ => ⟨h, rfl, rfl⟩

theorem keeps_fault {α : Type} (Q : α → Prop) (f : Fault) : keeps Q (fault f : M α) :=
  fun _ => ⟨rfl, rfl⟩

theorem keeps_bind {α β : Type} (Q : α → Prop) (R : β → Prop) (m : M α) (f : α → M β)
    (hm : keeps Q m) (hf : ∀ a, Q a → keeps R (f a)) : keeps R (m >>= f) := by
  intro w
  have h1 := hm w
  rw [bind_run]
  cases hmw : m w with
  | fault e w1 => rw [hmw] at h1; exact h1
  | ok a w1 =>
    rw [hmw] at h1
    have h2 := hf a h1.1 w1
    simp only
    cases hfw : f a w1 with
    | fault e w2 => rw [hfw] at h2; exact ⟨h2.1.trans h1.2.1, h2.2.trans h1.2.2⟩
    | ok b w2 => rw [hfw] at h2; exact ⟨h2.1, h2.2.1.trans h1.2.1, h2.2.2.trans h1.2.2⟩

theorem keeps_ite {α : Type} (Q : α → Prop) (c : Prop) [Decidable c] (m n : M α)
    (hm : keeps Q m) (hn : keeps Q n) : keeps Q (if c then m else n) := by
  split_ifs <;> assumption

theorem keeps_weaken {α : Type} (Q R : α → Prop) (m : M α) (hm : keeps Q m)
    (h : ∀ a, Q a → R a) : keeps R m := by
  intro w
  have h1 := hm w
  cases hmw : m w with
  | fault e w1 => rw [hmw] at h1; exact h1
  | ok a w1 => rw [hmw] at h1; exact ⟨h a h1.1, h1.2⟩

theorem keeps_call (c : Call) (hc : is_goto c = false) : keeps (fun _ => True) (call c) :=
  keeps_of_quiet _ (quiet_call c hc)

theorem lor_keeps (a b : M Int) (ha : keeps (fun _ => True) a)
    (hb : keeps (fun _ => True) b) : keeps zero_one (lor a b) := by
  unfold lor
  refine keeps_bind _ _ _ _ ha (fun x _ => ?_)
  refine keeps_ite _ _ _ _ (keeps_pure _ _ (Or.inr rfl)) ?_
  refine keeps_bind _ _ _ _ hb (fun y _ => ?_)
  refine keeps_pure _ _ ?_
  unfold zero_one
  split_ifs
  · exact Or.inr rfl
  · exact Or.inl rfl

theorem lor_stays (a b : M Int) (ha : keeps (fun _ => True) a)
    (hb : keeps (fun _ => True) b) : keeps (fun _ => True) (lor a b) :=
  keeps_weaken _ _ _ (lor_keeps a b ha hb) (fun _ _ => trivial)

theorem land_stays (c : Bool) (b : M Int) (hb : keeps (fun _ => True) b) :
    keeps (fun _ => True) (land c b) := by
  unfold land
  refine keeps_ite _ _ _ _ ?_ (keeps_pure _ _ trivial)
  exact keeps_bind _ _ _ _ hb (fun y _ => keeps_pure _ _ trivial)

theorem items_at_keeps (arr : List items) (i : Int) :
    keeps (fun _ => True) (items_at arr i) := by
  unfold items_at
  refine keeps_ite _ _ _ _ (keeps_fault _ _) ?_
  cases arr.get? i.toNat with
  | none => exact keeps_fault _ _
  | some it => exact keeps_pure _ _ trivial

theorem select_item_announce_keeps (env : Env) (arr : List items) (context : CStr)
    (flags : ast_flags) (i : Nat) :
    keeps zero_one (select_item_announce env arr context flags i) := by
  unfold select_item_announce
  refine lor_keeps _ _ ?_ (keeps_call _ (by rfl))
  refine lor_stays _ _ ?_ (keeps_call _ (by rfl))
  refine lor_stays _ _ ?_ ?_
  · refine lor_stays _ _ ?_ (keeps_call _ (by rfl))
    refine lor_stays _ _ ?_ (keeps_call _ (by rfl))
    refine lor_stays _ _ ?_ (keeps_call _ (by rfl))
    refine lor_stays _ _ ?_ (keeps_call _ (by rfl))
    exact lor_stays _ _ (keeps_call _ (by rfl)) (keeps_call _ (by rfl))
  · exact keeps_bind _ _ _ _ (items_at_keeps arr i)
      (fun it _ => keeps_of_quiet _ (play_mailbox_owner_quiet env context it.exten it.name flags))

theorem select_item_loop_keeps (env : Env) (arr : List items) (context : CStr)
    (flags : ast_flags) (n : Nat) :
    ∀ i : Nat, keeps zero_one (select_item_loop env arr context flags n i) := by
  induction n with
  | zero => intro i; exact keeps_pure _ _ (Or.inl rfl)
  | succ n ih =>
    intro i
    rw [select_item_loop]
    refine keeps_bind _ _ _ _ (select_item_announce_keeps env arr context flags i)
      (fun res hres => ?_)
    exact keeps_ite _ _ _ _ (keeps_pure _ _ hres) (ih (i + 1))

theorem select_item_more_keeps (itemcount : Nat) :
    keeps zero_one (select_item_more itemcount) := by
  unfold select_item_more
  refine lor_keeps _ _ ?_ (keeps_call _ (by rfl))
  refine lor_stays _ _ ?_ (keeps_call _ (by rfl))
  exact lor_stays _ _ (keeps_call _ (by rfl)) (land_stays _ _ (keeps_call _ (by rfl)))

theorem select_item_keeps (env : Env) (arr : List items) (itemcount : Nat)
    (context dialcontext : CStr) (flags : ast_flags) :
    keeps zero_one (select_item env arr itemcount context dialcontext flags) := by
  unfold select_item
  refine keeps_bind _ _ _ _ (keeps_of_quiet _ (quiet_note _ (by rfl))) (fun _ _ => ?_)
  refine keeps_bind _ _ _ _ (select_item_loop_keeps env arr context flags itemcount 0)
    (fun res hres => ?_)
  refine keeps_bind zero_one _ _ _ ?_ (fun res2 hres2 => ?_)
  · exact keeps_ite _ _ _ _ (select_item_more_keeps itemcount) (keeps_pure _ _ hres)
  · have hno : ¬ (res2 ≠ 0 ∧ res2 > 48 ∧ res2 < 57) := by
      rcases hres2 with h0 | h1 <;> omega
    rw [if_neg hno]
    exact keeps_pure _ _ hres2

/-- C22. Whatever the page, the flags and the replies, the value that
`select_item` takes from its chains of `||` is 0 or 1, so the selection
branch is never entered: when `select_item` returns, it returns 0 or 1, and
in no run does it call `ast_goto_if_exists` or write `chan->exten`. On a page
whose `itemcount` slots were written (at most 8) it always returns. -/
theorem select_item_zero_or_one :
    (∀ (env : Env) (arr : List items) (itemcount : Nat) (context dialcontext : CStr)
      (flags : ast_flags) (w : World),
      ((select_item env arr itemcount context dialcontext flags w).value? = some 0 ∨
       (select_item env arr itemcount context dialcontext flags w).value? = some 1 ∨
       (select_item env arr itemcount context dialcontext flags w).value? = none) ∧
      (select_item env arr itemcount context dialcontext flags w).calls.filter is_goto =
        w.trace.filter is_goto ∧
      ∀ w1 r, select_item env arr itemcount context dialcontext flags w = Outcome.ok r w1 →
        (r = 0 ∨ r = 1) ∧ w1.exten = w.exten) ∧
    (∀ (env : Env) (arr : List items) (itemcount : Nat) (context dialcontext : CStr)
      (flags : ast_flags) (w : World),
      itemcount ≤ arr.length → itemcount ≤ 8 →
      ∃ r w1, select_item env arr itemcount context dialcontext flags w = Outcome.ok r w1 ∧
        (r = 0 ∨ r = 1) ∧ w1.exten = w.exten ∧
        w1.trace.filter is_goto = w.trace.filter is_goto) := by
  constructor
  · intro env arr itemcount context dialcontext flags w
    have h := select_item_keeps env arr itemcount context dialcontext flags w
    cases hs : select_item env arr itemcount context dialcontext flags w with
    | fault f w1 =>
      rw [hs] at h
      refine ⟨Or.inr (Or.inr rfl), h.2, ?_⟩
      intro w2 r hr
      cases hr
    | ok r w1 =>
      rw [hs] at h
      refine ⟨?_, h.2.2, ?_⟩
      · rcases h.1 with h0 | h1
        · exact Or.inl (by rw [h0]; rfl)
        · exact Or.inr (Or.inl (by rw [h1]; rfl))
      · intro w2 r2 hr
        cases hr
        exact ⟨h.1, h.2.1⟩
  · intro env arr itemcount context dialcontext flags w h1 h8
    obtain ⟨r, w1, hr, hz, _⟩ :=
      select_item_run env arr itemcount context dialcontext flags h1 h8 w
    have h := select_item_keeps env arr itemcount context dialcontext flags w
    rw [hr] at h
    exact ⟨r, w1, hr, hz, h.2.1, h.2.2⟩

/-- Witness of C22: the page of two entries of C7. -/
theorem select_item_zero_or_one_witness :
    ∃ r w1, select_item asterisk_env page_of_two 2 (lit "default") (lit "default")
        (flags_fm false true) (world_of (List.replicate 24 0 ++ [50]) []) = Outcome.ok r w1 ∧
      (r = 0 ∨ r = 1) ∧
      w1.exten = (world_of (List.replicate 24 0 ++ [50]) []).exten ∧
      w1.trace.filter is_goto =
        (world_of (List.replicate 24 0 ++ [50]) []).trace.filter is_goto :=
  select_item_zero_or_one.2 asterisk_env page_of_two 2 (lit "default") (lit "default")
    (flags_fm false true) (world_of (List.replicate 24 0 ++ [50]) []) (by decide) (by decide)

/-! ### The digits `0` and `*` match nothing -/

theorem cstr_no_nul (buf : List Int) : ∀ c ∈ cstr buf, c ≠ 0 := by
  intro c hc
  have := List.mem_takeWhile_imp hc
  simpa using this

theorem cstr_cons (digit : Int) (digits : List Int) (h : digit ≠ 0) :
    cstr (digit :: digits) = digit :: cstr digits := by
  unfold cstr
  rw [List.takeWhile_cons_of_pos (by simpa using h)]

theorem unmatchable_of_head (c0 : Int) (rest : CStr) (hc : c0 = 48 ∨ c0 = 42)
    (hn : ∀ c ∈ c0 :: rest, c ≠ 0) : unmatchable (c0 :: rest) := by
  intro key
  have hdig : ∀ c ∈ convert key, 49 ≤ c ∧ c ≤ 57 :=
    (convert_loop_digits key [] (by simp) (by simp)).2
  constructor
  · intro h0
    have heq := (strcmp_eq_zero_iff (convert key) (convert_no_nul key) (c0 :: rest) hn).1 h0
    have := hdig c0 (by rw [heq]; simp)
    omega
  · intro h0
    rw [strlen_of_no_nul (c0 :: rest) hn] at h0
    have heq := (strncmp_eq_zero_iff (c0 :: rest) hn (convert key)).1 h0
    have hmem : c0 ∈ (convert key).take (c0 :: rest).length := by rw [heq]; simp
    have := hdig c0 (List.mem_of_mem_take hmem)
    omega

theorem unmatchable_escape_digit (digit : Int) (digits : List Int)
    (hd : digit = 48 ∨ digit = 42) : unmatchable (cstr (digit :: digits)) := by
  have h0 : digit ≠ 0 := by omega
  have hn := cstr_no_nul (digit :: digits)
  rw [cstr_cons digit digits h0] at hn ⊢
  exact unmatchable_of_head digit _ hd hn

theorem unmatchable_sequential (flags : ast_flags) (ext : CStr) (h : unmatchable ext)
    (v : ast_variable) : sequential_candidate flags ext v = false := by
  unfold sequential_candidate
  cases hp : name_field v.value with
  | none => simp
  | some pos =>
    have := (h (sequential_key flags pos)).2
    simp [sequential_match, this]

theorem unmatchable_menu (env : Env) (flags : ast_flags) (ext : CStr) (h : unmatchable ext)
    (v : ast_variable) : menu_candidate env flags ext v = false := by
  unfold menu_candidate
  cases hp : name_field (menu_buf env v) with
  | none => simp
  | some pos =>
    have := (h (menu_key flags pos)).1
    simp [menu_match, this]

theorem primary_sequential_loop_unmatched (env : Env) (context dialcontext : CStr)
    (flags : ast_flags) (ext : CStr) (h : unmatchable ext) (listing : List ast_variable) :
    ∀ (st : locals) (w : World), ∃ st1 : locals,
      primary_sequential_loop env context dialcontext flags ext listing st w =
        Outcome.ok st1 w ∧
      st1.res = st.res ∧ st1.found = st.found ∧ st1.lastuserchoice = st.lastuserchoice := by
  induction listing with
  | nil => intro st w; exact ⟨st, rfl, rfl, rfl, rfl⟩
  | cons v rest ih =>
    intro st w
    obtain ⟨st2, h2r, h2f, h2l, h2⟩ := primary_sequential_loop_pass env context dialcontext
      flags ext v rest st (unmatchable_sequential flags ext h v)
    obtain ⟨st1, h1, h1r, h1f, h1l⟩ := ih st2 w
    exact ⟨st1, by rw [h2, h1], by omega, by omega, by omega⟩

theorem primary_menu_loop_unmatched (env : Env) (context dialcontext : CStr)
    (flags : ast_flags) (ext : CStr) (h : unmatchable ext) (listing : List ast_variable)
    (st : locals) (m : menu) (w : World) (hm : m.menucount ≠ 8) :
    primary_menu_loop env context dialcontext flags ext listing st m w =
        Outcome.ok (st, m) w ∨
      primary_menu_loop env context dialcontext flags ext listing st m w =
        Outcome.fault Fault.null_dereference w := by
  induction listing with
  | nil => exact Or.inl rfl
  | cons v rest ih =>
    cases hh : hidefromdir v.value with
    | true =>
      have := primary_menu_loop_hidden env context dialcontext flags ext v hh [] rest st m
      simp only [List.nil_append] at this
      rw [this]
      exact ih
    | false =>
      cases hn : name_field (menu_buf env v) with
      | none =>
        right
        rw [primary_menu_loop]
        simp only [hh, hn, Bool.not_false, if_true]
        rfl
      | some pos =>
        rw [primary_menu_loop_pass env context dialcontext flags ext v pos rest st m
          (unmatchable_menu env flags ext h v) hn hm]
        exact ih

theorem menu_finish_empty (env : Env) (context dialcontext : CStr) (flags : ast_flags)
    (st : locals) (m : menu) (w : World) (hm : m.menucount = 0)
    (hl : st.lastuserchoice = 0) :
    menu_finish env context dialcontext flags st m w = Outcome.ok st w := by
  unfold menu_finish
  rw [if_neg (by omega), bind_run, pure_run]
  simp only [pure_run, hl]
  cases st
  simp_all

theorem users_menu_loop_unmatched (flags : ast_flags) (ext : CStr) (h : unmatchable ext)
    (users : List user_category) (st : locals) (m : menu) (w : World) :
    users_menu_loop flags ext users st m w = Outcome.ok (st, m) w := by
  induction users with
  | nil => rfl
  | cons cat rest ih =>
    rw [users_menu_loop]
    split_ifs
    · rfl
    · exact ih
    · exact ih
    · cases hf : cat.fullname with
      | none => exact ih
      | some pos =>
        have := (h (users_menu_key flags pos)).1
        simp only [beq_iff_eq, this, if_false]
        exact ih

theorem users_sequential_loop_unmatched (env : Env) (context dialcontext : CStr)
    (flags : ast_flags) (ext : CStr) (h : unmatchable ext) (users : List user_category) :
    ∀ (st : locals) (w : World), st.res = 0 →
      (∃ st1 : locals,
        users_sequential_loop env context dialcontext flags ext users st w =
          Outcome.ok st1 w ∧
        st1.found = st.found ∧ st1.lastuserchoice = st.lastuserchoice) ∨
      users_sequential_loop env context dialcontext flags ext users st w =
        Outcome.fault Fault.double_free w := by
  induction users with
  | nil => intro st w _; exact Or.inl ⟨st, rfl, rfl, rfl⟩
  | cons cat rest ih =>
    intro st w hres
    rw [users_sequential_loop]
    rw [if_neg (by omega)]
    by_cases hg : (strcasecmp cat.name (lit "general") == 0) = true
    · rw [if_pos hg]; exact ih st w hres
    · rw [if_neg hg]
      by_cases hd : (!cat.hasdirectory) = true
      · rw [if_pos hd]; exact ih st w hres
      · rw [if_neg hd]
        cases hf : cat.fullname with
        | none =>
          simp only
          by_cases hc : st.conv_freed = true
          · rw [if_pos hc]; exact Or.inr rfl
          · rw [if_neg hc]; exact ih st w hres
        | some pos =>
          left
          have := (h (users_sequential_key flags pos)).1
          simp only [beq_iff_eq, this, if_false]
          rw [bind_run, pure_run]
          refine ⟨{ st with conv_freed := true }, ?_, rfl, rfl⟩
          simp [pure_run, hres]

theorem search_passes_unmatched (env : Env) (vmcfg : ast_config)
    (ucfg : Option (List user_category)) (context dialcontext : CStr) (flags : ast_flags)
    (ext : CStr) (h : unmatchable ext) (w : World) :
    (∃ st1 st2 : locals,
      do_directory_primary env vmcfg context dialcontext flags ext w = Outcome.ok st1 w ∧
      do_directory_users env ucfg context dialcontext flags ext st1 w = Outcome.ok st2 w ∧
      st2.found = 0 ∧ st2.lastuserchoice = 0) ∨
    do_directory_primary env vmcfg context dialcontext flags ext w =
      Outcome.fault Fault.null_dereference w ∨
    (∃ st1 : locals,
      do_directory_primary env vmcfg context dialcontext flags ext w = Outcome.ok st1 w ∧
      do_directory_users env ucfg context dialcontext flags ext st1 w =
        Outcome.fault Fault.double_free w) := by
  cases hmenu : flags.OPT_SELECTFROMMENU with
  | false =>
    obtain ⟨st1, h1, h1r, h1f, h1l⟩ := primary_sequential_loop_unmatched env context dialcontext
      flags ext h (ast_variable_browse vmcfg context)
      { res := 0, found := 0, lastuserchoice := 0, conv_freed := false } w
    have hprim : do_directory_primary env vmcfg context dialcontext flags ext w =
        Outcome.ok st1 w := by
      unfold do_directory_primary
      simp only [hmenu]
      exact h1
    cases ucfg with
    | none => exact Or.inl ⟨st1, st1, hprim, rfl, h1f, h1l⟩
    | some users =>
      have hu : do_directory_users env (some users) context dialcontext flags ext st1 w =
          users_sequential_loop env context dialcontext flags ext users st1 w := by
        unfold do_directory_users
        simp only [hmenu]
        rw [if_pos h1r]
        rfl
      rcases users_sequential_loop_unmatched env context dialcontext flags ext h users st1 w
        h1r with ⟨st2, h2, h2f, h2l⟩ | hfault
      · exact Or.inl ⟨st1, st2, hprim, by rw [hu, h2], h2f.trans h1f, h2l.trans h1l⟩
      · exact Or.inr (Or.inr ⟨st1, hprim, by rw [hu, hfault]⟩)
  | true =>
    have hprimdef : do_directory_primary env vmcfg context dialcontext flags ext w =
        (primary_menu_loop env context dialcontext flags ext (ast_variable_browse vmcfg context)
            { res := 0, found := 0, lastuserchoice := 0, conv_freed := false }
            { menuitems := [], menucount := 0 } >>= fun p =>
          menu_finish env context dialcontext flags p.1 p.2) w := by
      unfold do_directory_primary
      simp only [hmenu, if_true]
    rcases primary_menu_loop_unmatched env context dialcontext flags ext h
      (ast_variable_browse vmcfg context)
      { res := 0, found := 0, lastuserchoice := 0, conv_freed := false }
      { menuitems := [], menucount := 0 } w (by decide) with hok | hfault
    · have hprim : do_directory_primary env vmcfg context dialcontext flags ext w =
          Outcome.ok { res := 0, found := 0, lastuserchoice := 0, conv_freed := false } w := by
        rw [hprimdef, bind_run_ok _ _ w w _ hok]
        exact menu_finish_empty env context dialcontext flags _ _ w rfl rfl
      have hu : do_directory_users env ucfg context dialcontext flags ext
          { res := 0, found := 0, lastuserchoice := 0, conv_freed := false } w =
          Outcome.ok { res := 0, found := 0, lastuserchoice := 0, conv_freed := false } w := by
        unfold do_directory_users
        cases ucfg with
        | none => rfl
        | some users =>
          simp only [hmenu, if_true]
          rw [bind_run_ok _ _ w w _
            (users_menu_loop_unmatched flags ext h users _ { menuitems := [], menucount := 0 } w)]
          exact menu_finish_empty env context dialcontext flags _ _ w rfl rfl
      exact Or.inl ⟨_, _, hprim, hu, rfl, rfl⟩
    · exact Or.inr (Or.inl (by rw [hprimdef, bind_run, hfault]))

theorem do_directory_search_unmatched (env : Env) (vmcfg : ast_config)
    (ucfg : Option (List user_category)) (context dialcontext : CStr) (flags : ast_flags)
    (ext : CStr) (h : unmatchable ext) (w : World) :
    ends_without_match
      (do_directory_search env vmcfg ucfg context dialcontext flags ext w) w := by
  unfold ends_without_match do_directory_search
  rcases search_passes_unmatched env vmcfg ucfg context dialcontext flags ext h w with
    ⟨st1, st2, hp, hu, hf, hl⟩ | hnull | ⟨st1, hp, hu⟩
  · left
    rw [bind_run_ok _ _ w w st1 hp, bind_run_ok _ _ w w st2 hu,
      do_directory_finish_run st2 w (by omega), if_neg (by simp [hf])]
  · right; left
    rw [bind_run, hnull]
  · right; right
    rw [bind_run_ok _ _ w w st1 hp, bind_run, hu]

theorem do_directory_passes_unmatched (env : Env) (vmcfg : ast_config)
    (ucfg : Option (List user_category)) (context dialcontext : CStr) (flags : ast_flags)
    (ext : CStr) (h : unmatchable ext) (w w1 : World) (st : locals)
    (hrun : do_directory_passes env vmcfg ucfg context dialcontext flags ext w =
      Outcome.ok st w1) : st.found = 0 ∧ w1 = w := by
  unfold do_directory_passes at hrun
  rcases search_passes_unmatched env vmcfg ucfg context dialcontext flags ext h w with
    ⟨st1, st2, hp, hu, hf, _⟩ | hnull | ⟨st1, hp, hu⟩
  · rw [bind_run_ok _ _ w w st1 hp, hu] at hrun
    injection hrun with h1 h2
    subst h1
    exact ⟨hf, h2.symm⟩
  · rw [bind_run, hnull] at hrun
    exact absurd hrun (by simp)
  · rw [bind_run_ok _ _ w w st1 hp, hu] at hrun
    exact absurd hrun (by simp)

theorem escape_digit_unroutable (dialcontext exten : CStr) (w : World)
    (h : ¬ escape_routable w) :
    escape_digit dialcontext exten w =
      Outcome.ok false (unescaped_world dialcontext exten w) := by
  unfold escape_routable at h
  push_neg at h
  obtain ⟨h0, h1⟩ := h
  unfold escape_digit unescaped_world
  rw [bind_run, call_run]
  simp only [h0, if_false]
  show (get_macrocontext >>= _) _ = _
  rw [bind_run]
  simp only [get_macrocontext]
  cases hm : ast_strlen_zero w.macrocontext with
  | true => simp [pure_run]
  | false =>
    simp only [Bool.not_false, if_true]
    rw [bind_run, call_run]
    have := h1 hm
    simp only [pure_run, List.append_assoc, List.singleton_append]
    simpa using this

theorem unescaped_world_strings (dialcontext exten : CStr) (w : World) :
    (unescaped_world dialcontext exten w).strings = w.strings := by
  unfold unescaped_world; split_ifs <;> rfl

theorem do_directory_unrouted (env : Env) (vmcfg : ast_config)
    (ucfg : Option (List user_category)) (context dialcontext exten : CStr) (digit : Int)
    (flags : ast_flags) (w : World) (hctx : ast_strlen_zero context = false)
    (hd : (digit = 48 ∧ exten = lit "o") ∨ (digit = 42 ∧ exten = lit "a"))
    (h : ¬ escape_routable w)
    (hrd : 0 ≤ (unescaped_world dialcontext exten w).replies.headD 0) :
    do_directory env vmcfg ucfg context dialcontext digit flags w =
      do_directory_search env vmcfg ucfg context dialcontext flags (entered_code digit w)
        (after_readstring (unescaped_world dialcontext exten w)) := by
  unfold do_directory
  rw [if_neg (by simp [hctx])]
  have hesc : (if digit = 48 then escape_digit dialcontext (lit "o")
      else if digit = 42 then escape_digit dialcontext (lit "a")
      else pure false) w = Outcome.ok false (unescaped_world dialcontext exten w) := by
    rcases hd with ⟨h48, he⟩ | ⟨h42, he⟩
    · rw [if_pos h48, he]; exact escape_digit_unroutable _ _ w h
    · rw [if_neg (by omega), if_pos h42, he]; exact escape_digit_unroutable _ _ w h
  rw [bind_run_ok _ _ w _ false hesc]
  simp only [Bool.false_eq_true, if_false]
  rw [bind_run]
  simp only [ast_readstring]
  rw [if_neg (by omega)]
  unfold entered_code after_readstring
  rw [unescaped_world_strings]

/-- C21. A first digit `'0'` or `'*'` whose escape extension is not routable
stays the first character of the entered code, and no code that `convert`
produces equals such digits or starts with them, for either flag setting and
either listing. With a non-empty context and a non-negative result of
`ast_readstring`, `do_directory` goes on to the search with that code; both
passes leave the match count `found` at 0 without presenting any entry, and
the run ends with the prompt `"dir-nomatch"` right after the digits were read
(always so in sequential mode without `users.conf`), unless it stops in one
of the two kinds of undefined behaviour that do not depend on a match. -/
theorem unroutable_escape_digit_matches_nothing :
    (∀ (digit : Int) (digits : List Int) (flags : ast_flags) (pos : CStr),
      digit = 48 ∨ digit = 42 →
      (cstr (digit :: digits)).head? = some digit ∧
      (∀ c ∈ convert pos, c ≠ 48 ∧ c ≠ 42) ∧
      sequential_match flags (cstr (digit :: digits)) pos = false ∧
      menu_match flags (cstr (digit :: digits)) pos = false ∧
      strcmp (convert (users_sequential_key flags pos)) (cstr (digit :: digits)) ≠ 0 ∧
      strcmp (convert (users_menu_key flags pos)) (cstr (digit :: digits)) ≠ 0) ∧
    (∀ (env : Env) (vmcfg : ast_config) (ucfg : Option (List user_category))
      (context dialcontext exten : CStr) (digit : Int) (flags : ast_flags) (w : World),
      ast_strlen_zero context = false →
      ((digit = 48 ∧ exten = lit "o") ∨ (digit = 42 ∧ exten = lit "a")) →
      ¬ escape_routable w →
      0 ≤ (unescaped_world dialcontext exten w).replies.headD 0 →
      do_directory env vmcfg ucfg context dialcontext digit flags w =
        do_directory_search env vmcfg ucfg context dialcontext flags (entered_code digit w)
          (after_readstring (unescaped_world dialcontext exten w)) ∧
      (entered_code digit w).head? = some digit ∧
      ends_without_match (do_directory env vmcfg ucfg context dialcontext digit flags w)
        (after_readstring (unescaped_world dialcontext exten w)) ∧
      (∀ (st : locals) (w1 : World),
        do_directory_passes env vmcfg ucfg context dialcontext flags (entered_code digit w)
          (after_readstring (unescaped_world dialcontext exten w)) = Outcome.ok st w1 →
        st.found = 0 ∧ w1 = after_readstring (unescaped_world dialcontext exten w)) ∧
      (flags.OPT_SELECTFROMMENU = false → ucfg = none →
        do_directory env vmcfg ucfg context dialcontext digit flags w =
          Outcome.ok (prompt_result (after_readstring (unescaped_world dialcontext exten w)))
            (after_prompt (lit "dir-nomatch")
              (after_readstring (unescaped_world dialcontext exten w))))) := by
  constructor
  · intro digit digits flags pos hd
    have h0 : digit ≠ 0 := by omega
    have hu := unmatchable_escape_digit digit digits hd
    refine ⟨by rw [cstr_cons digit digits h0]; rfl, ?_, ?_, ?_, (hu _).1, (hu _).1⟩
    · intro c hc
      have := (convert_loop_digits pos [] (by simp) (by simp)).2 c hc
      omega
    · have := (hu (sequential_key flags pos)).2
      simp [sequential_match, this]
    · have := (hu (menu_key flags pos)).1
      simp [menu_match, this]
  · intro env vmcfg ucfg context dialcontext exten digit flags w hctx hd h hrd
    have hd1 : digit = 48 ∨ digit = 42 := by rcases hd with ⟨h1, _⟩ | ⟨h1, _⟩ <;> omega
    have hu : unmatchable (entered_code digit w) := unmatchable_escape_digit digit _ hd1
    have hrun := do_directory_unrouted env vmcfg ucfg context dialcontext exten digit flags w
      hctx hd h hrd
    have hend := do_directory_search_unmatched env vmcfg ucfg context dialcontext flags
      (entered_code digit w) hu (after_readstring (unescaped_world dialcontext exten w))
    refine ⟨hrun, ?_, ?_, ?_, ?_⟩
    · unfold entered_code
      rw [cstr_cons digit _ (by omega)]
      rfl
    · rw [hrun]; exact hend
    · intro st w1 hp
      exact do_directory_passes_unmatched env vmcfg ucfg context dialcontext flags _ hu _ _ _ hp
    · intro hseq hnone
      subst hnone
      rcases search_passes_unmatched env vmcfg none context dialcontext flags
        (entered_code digit w) hu (after_readstring (unescaped_world dialcontext exten w)) with
        ⟨st1, st2, hp, hus, hf, hl⟩ | hnull | ⟨st1, _, hus⟩
      · rw [hrun]
        unfold do_directory_search
        rw [bind_run_ok _ _ _ _ st1 hp, bind_run_ok _ _ _ _ st2 hus,
          do_directory_finish_run st2 _ (by omega), if_neg (by simp [hf])]
      · unfold do_directory_primary at hnull
        simp only [hseq, Bool.false_eq_true, if_false] at hnull
        obtain ⟨st1, h1, _⟩ := primary_sequential_loop_unmatched env context dialcontext
          flags (entered_code digit w) hu (ast_variable_browse vmcfg context)
          { res := 0, found := 0, lastuserchoice := 0, conv_freed := false }
          (after_readstring (unescaped_world dialcontext exten w))
        rw [h1] at hnull
        exact absurd hnull (by simp)
      · exact absurd hus (by simp [do_directory_users, pure_run])

theorem unroutable_escape_digit_matches_nothing_witness :
    ast_strlen_zero (lit "default") = false ∧
    ¬ escape_routable world_zero_unroutable ∧
    0 ≤ (unescaped_world [] (lit "o") world_zero_unroutable).replies.headD 0 ∧
    entered_code 48 world_zero_unroutable = lit "012" ∧
    ends_without_match
      (do_directory asterisk_env one_primary (some [user_smith]) (lit "default") [] 48
        (flags_fm false true) world_zero_unroutable)
      (after_readstring (unescaped_world [] (lit "o") world_zero_unroutable)) :=
  ⟨by decide, by decide, by decide, by decide,
    (unroutable_escape_digit_matches_nothing.2 asterisk_env one_primary (some [user_smith])
      (lit "default") [] (lit "o") 48 (flags_fm false true) world_zero_unroutable
      (by decide) (Or.inl ⟨rfl, rfl⟩) (by decide) (by decide)).2.2.1⟩

end Directory
